import Mathlib

/-!
Verification development for the Auto_Car_Webapp repository.

Part 1 embeds the grid path planner (`src/backend/Astar_planner.py`):
the A* search over a 4-connected grid with Manhattan heuristic, the
path reconstruction, and the waypoint/heading post-processing.

Part 2 embeds the connection registry and message router
(`src/backend/server.py`): the `ConnectionManager` operations and the
per-message dispatch of the websocket endpoint and HTTP control surface.

Machine integers: the Python code uses unbounded ints, so grid
coordinates are modelled as `Int` and counters/costs as `Nat`.
-/

/-- Python `dict.get(k)` over an insertion-ordered association list with
unique keys (every mutation goes through `dset`, which keeps keys unique). -/
def dlookup {κ β : Type} [DecidableEq κ] (l : List (κ × β)) (k : κ) : Option β :=
  (l.find? (fun e => decide (e.1 = k))).map (·.2)

/-- Python `d[k] = v`: overwrite the existing entry in place, preserving
its position, otherwise append a new entry at the end. -/
def dset {κ β : Type} [DecidableEq κ] (l : List (κ × β)) (k : κ) (v : β) : List (κ × β) :=
  if l.any (fun e => decide (e.1 = k)) then
    l.map (fun e => if e.1 = k then (k, v) else e)
  else l ++ [(k, v)]

theorem dlookup_nil {κ β : Type} [DecidableEq κ] (k : κ) :
    dlookup ([] : List (κ × β)) k = none := rfl

theorem dlookup_cons {κ β : Type} [DecidableEq κ] (k1 : κ) (v1 : β) (l : List (κ × β)) (k : κ) :
    dlookup ((k1, v1) :: l) k = if k1 = k then some v1 else dlookup l k := by
  by_cases h : k1 = k <;> simp [dlookup, List.find?, h]

theorem dlookup_eq_none_iff {κ β : Type} [DecidableEq κ] (l : List (κ × β)) (k : κ) :
    dlookup l k = none ↔ k ∉ l.map Prod.fst := by
  induction l with
  | nil => simp [dlookup]
  | cons e l ih =>
    rcases e with ⟨k1, v1⟩
    rw [dlookup_cons]
    by_cases h : k1 = k
    · subst h; simp
    · simp only [if_neg h, List.map_cons, List.mem_cons, ih]
      constructor
      · intro hnk hor
        exact hnk (hor.resolve_left fun hk => h hk.symm)
      · intro hno hk
        exact hno (Or.inr hk)

theorem dlookup_map_overwrite {κ β : Type} [DecidableEq κ] (l : List (κ × β)) (k : κ) (v : β)
    (hmem : k ∈ l.map Prod.fst) :
    dlookup (l.map fun e => if e.1 = k then (k, v) else e) k = some v := by
  induction l with
  | nil => simp at hmem
  | cons e l ih =>
    by_cases he : e.1 = k
    · simp only [List.map_cons, if_pos he]
      rw [dlookup_cons]
      simp
    · simp only [List.map_cons, if_neg he]
      rcases e with ⟨k1, v1⟩
      rw [dlookup_cons, if_neg he]
      simp only [List.map_cons, List.mem_cons] at hmem
      exact ih (hmem.resolve_left fun hk => he hk.symm)

theorem dlookup_map_overwrite_ne {κ β : Type} [DecidableEq κ] (l : List (κ × β)) (k k2 : κ)
    (v : β) (h : k2 ≠ k) :
    dlookup (l.map fun e => if e.1 = k then (k, v) else e) k2 = dlookup l k2 := by
  induction l with
  | nil => rfl
  | cons e l ih =>
    rcases e with ⟨k1, v1⟩
    by_cases he : k1 = k
    · subst he
      simp only [List.map_cons, if_pos rfl]
      rw [dlookup_cons, dlookup_cons, if_neg (fun hk => h hk.symm),
        if_neg (fun hk => h hk.symm), ih]
    · simp only [List.map_cons, if_neg he]
      rw [dlookup_cons, dlookup_cons]
      by_cases hek : k1 = k2
      · simp [hek]
      · rw [if_neg hek, if_neg hek, ih]

theorem dlookup_append_right {κ β : Type} [DecidableEq κ] (l1 l2 : List (κ × β)) (k : κ)
    (h : k ∉ l1.map Prod.fst) : dlookup (l1 ++ l2) k = dlookup l2 k := by
  have hnone : dlookup l1 k = none := (dlookup_eq_none_iff l1 k).mpr h
  simp only [dlookup, List.find?_append] at *
  cases hfind : l1.find? (fun e => decide (e.1 = k)) with
  | none => simp [hfind]
  | some e => rw [hfind] at hnone; simp at hnone

theorem dlookup_dset_self {κ β : Type} [DecidableEq κ] (l : List (κ × β)) (k : κ) (v : β) :
    dlookup (dset l k v) k = some v := by
  unfold dset
  by_cases hl : l.any (fun e => decide (e.1 = k))
  · rw [if_pos hl]
    obtain ⟨e, hmem, hek⟩ := List.any_eq_true.mp hl
    simp only [decide_eq_true_eq] at hek
    exact dlookup_map_overwrite l k v (List.mem_map.mpr ⟨e, hmem, hek⟩)
  · rw [if_neg hl, dlookup_append_right]
    · rw [dlookup_cons]; simp
    · intro hmem
      obtain ⟨e, he, hek⟩ := List.mem_map.mp hmem
      exact hl (List.any_eq_true.mpr ⟨e, he, by simp [hek]⟩)

theorem dlookup_dset_ne {κ β : Type} [DecidableEq κ] (l : List (κ × β)) (k k2 : κ) (v : β)
    (h : k2 ≠ k) : dlookup (dset l k v) k2 = dlookup l k2 := by
  unfold dset
  by_cases hl : l.any (fun e => decide (e.1 = k))
  · rw [if_pos hl]
    exact dlookup_map_overwrite_ne l k k2 v h
  · rw [if_neg hl]
    simp only [dlookup, List.find?_append]
    cases hfind : l.find? (fun e => decide (e.1 = k2)) with
    | none =>
      have hd : decide (k = k2) = false := decide_eq_false fun he => h he.symm
      simp [List.find?, hd]
    | some e => simp

theorem dlookup_isSome_iff {κ β : Type} [DecidableEq κ] (l : List (κ × β)) (k : κ) :
    (dlookup l k).isSome ↔ k ∈ l.map Prod.fst := by
  rw [← not_iff_not, ← dlookup_eq_none_iff]
  cases dlookup l k <;> simp

theorem mem_of_dlookup {κ β : Type} [DecidableEq κ] {l : List (κ × β)} {k : κ} {v : β}
    (h : dlookup l k = some v) : (k, v) ∈ l := by
  induction l with
  | nil => simp [dlookup] at h
  | cons e l ih =>
    rcases e with ⟨k1, v1⟩
    rw [dlookup_cons] at h
    by_cases hk : k1 = k
    · simp only [hk, if_pos] at h
      subst hk
      cases h
      exact List.mem_cons_self _ _
    · rw [if_neg hk] at h
      exact List.mem_cons_of_mem _ (ih h)

theorem dlookup_of_nodup_mem {κ β : Type} [DecidableEq κ] {l : List (κ × β)} {k : κ} {v : β}
    (hn : (l.map Prod.fst).Nodup) (h : (k, v) ∈ l) : dlookup l k = some v := by
  induction l with
  | nil => simp at h
  | cons e l ih =>
    rcases e with ⟨k1, v1⟩
    simp only [List.map_cons, List.nodup_cons] at hn
    rw [dlookup_cons]
    rcases List.mem_cons.mp h with heq | hmem
    · cases heq; simp
    · have hk : k1 ≠ k := by
        intro hk
        subst hk
        exact hn.1 (List.mem_map.mpr ⟨(k1, v), hmem, rfl⟩)
      rw [if_neg hk]
      exact ih hn.2 hmem

namespace Planner

/-- A grid cell coordinate `(row, col)`, as in the Python `Node = Tuple[int, int]`. -/
abbrev Node := Int × Int

/-- A grid: list of rows of ints, 0 = walkable, anything else = wall,
as in the Python `Grid = List[List[int]]`. -/
abbrev Grid := List (List Nat)

/-- `len(grid)` as an `Int` for bounds comparisons. -/
def rowsI (g : Grid) : Int := (g.length : Int)

/-- `len(grid[0])` as an `Int`.  The Python code indexes `grid[0]`
directly; theorems carry a rectangularity hypothesis making this the
common row width. -/
def colsI (g : Grid) : Int := ((g.headD []).length : Int)

/-- The grid is nonempty and all rows share the (positive) width of row 0.
`read_grid` only ever produces such grids. -/
def Rect (g : Grid) : Prop :=
  g ≠ [] ∧ 0 < (g.headD []).length ∧ ∀ row ∈ g, (row.length : Int) = colsI g

instance (g : Grid) : Decidable (Rect g) :=
  inferInstanceAs (Decidable (g ≠ [] ∧ 0 < (g.headD []).length ∧
    ∀ row ∈ g, (row.length : Int) = colsI g))

/-- `0 <= r < rows and 0 <= c < cols`: the bounds test used throughout the source. -/
def inB (g : Grid) (n : Node) : Prop :=
  0 ≤ n.1 ∧ n.1 < rowsI g ∧ 0 ≤ n.2 ∧ n.2 < colsI g

instance (g : Grid) (n : Node) : Decidable (inB g n) :=
  inferInstanceAs (Decidable (0 ≤ n.1 ∧ n.1 < rowsI g ∧ 0 ≤ n.2 ∧ n.2 < colsI g))

/-- `grid[r][c]`. Only evaluated by the source under an `inB` guard, so the
out-of-range defaults (`1`, a wall) are never observed there. -/
def cellVal (g : Grid) (n : Node) : Nat :=
  (g.getD n.1.toNat []).getD n.2.toNat 1

/-- `manhattan(a, b) = abs(a0 - b0) + abs(a1 - b1)`. -/
def manhattan (a b : Node) : Nat :=
  (a.1 - b.1).natAbs + (a.2 - b.2).natAbs

/-- The neighbor offsets `((-1,0),(1,0),(0,-1),(0,1))`, in source order. -/
def deltas : List (Int × Int) := [(-1, 0), (1, 0), (0, -1), (0, 1)]

/-- `neighbors(grid, node)`: walkable 4-connected neighbors inside bounds,
in the deterministic source order. -/
def neighbors (g : Grid) (n : Node) : List Node :=
  (deltas.map (fun d => (n.1 + d.1, n.2 + d.2))).filter
    (fun m => decide (inB g m) && (cellVal g m == 0))

/-- `tentative < g_score.get(nb, inf)` where `tentative` is a finite Nat. -/
def ltOpt (t : Nat) (o : Option Nat) : Bool :=
  match o with
  | none => true
  | some v => t < v

/-- Lexicographic `<=` on the first two components of a heap entry
`(f_score, tie_breaker, node)`; the third component is never compared
because tie-breaker counters are pairwise distinct. -/
def keyLe (a b : Nat × Nat × Node) : Bool :=
  a.1 < b.1 || (a.1 == b.1 && a.2.1 ≤ b.2.1)

/-- `heapq.heappop`: remove the entry with the least `(f, counter)` key.
Returns the popped entry and the remaining entries (as a multiset; order
of the remainder is irrelevant because every pop selects the minimum). -/
def popMin : List (Nat × Nat × Node) → Option ((Nat × Nat × Node) × List (Nat × Nat × Node))
  | [] => none
  | e :: rest =>
    match popMin rest with
    | none => some (e, [])
    | some (m, rest2) => if keyLe e m then some (e, rest) else some (m, e :: rest2)

/-- The mutable search state of `astar`. -/
structure AS where
  openHeap : List (Nat × Nat × Node)
  gScore : List (Node × Nat)
  fScore : List (Node × Nat)
  cameFrom : List (Node × Node)
  counter : Nat
  closed : List Node

/-- The relaxation of one neighbor `nb` of the node `cur` being expanded
(the body of the `for nb in neighbors(...)` loop).  `curG` is the value of
`current_g = g_score.get(current, inf)` read once before the loop. -/
def relax (goal cur : Node) (curG : Option Nat) (s : AS) (nb : Node) : AS :=
  if nb ∈ s.closed then s
  else
    match curG with
    | none => s
    | some cg =>
      let t := cg + 1
      if ltOpt t (dlookup s.gScore nb) then
        { s with
          cameFrom := dset s.cameFrom nb cur
          gScore := dset s.gScore nb t
          fScore := dset s.fScore nb (t + manhattan nb goal)
          counter := s.counter + 1
          openHeap := (t + manhattan nb goal, s.counter + 1, nb) :: s.openHeap }
      else s

/-- Expansion of a freshly popped node: add it to `closed`, then relax each
walkable in-bounds neighbor in source order. -/
def expand (g : Grid) (goal cur : Node) (s : AS) : AS :=
  let curG := dlookup s.gScore cur
  (neighbors g cur).foldl (relax goal cur curG) { s with closed := cur :: s.closed }

/-- The inner loop of `reconstruct_path`: `while current in came_from`,
appending each predecessor, then reversing.  `fuel` bounds the chain
length; `reconstructPath` passes more fuel than there are `came_from`
entries, which suffices because the chain never revisits a key. -/
def rpGo (cf : List (Node × Node)) : Nat → Node → List Node → List Node
  | 0, _, acc => acc.reverse
  | fuel + 1, cur, acc =>
    match dlookup cf cur with
    | none => acc.reverse
    | some p => rpGo cf fuel p (acc ++ [p])

/-- `reconstruct_path(came_from, current)`. -/
def reconstructPath (cf : List (Node × Node)) (cur : Node) : List Node :=
  rpGo cf (cf.length + 1) cur [cur]

/-- The `while open_heap:` loop of `astar`.  `fuel` bounds the number of
iterations; `astar` passes `4*rows*cols + 2`, which is proved sufficient
(each effective iteration closes a fresh in-bounds node and pushes at most
four entries, so at most `4*rows*cols + 1` entries are ever pushed). -/
def astarLoop (g : Grid) (goal : Node) : Nat → AS → List Node
  | 0, _ => []
  | fuel + 1, s =>
    match popMin s.openHeap with
    | none => []
    | some ((_, _, cur), rest) =>
      if cur = goal then reconstructPath s.cameFrom cur
      else if cur ∈ s.closed then astarLoop g goal fuel { s with openHeap := rest }
      else astarLoop g goal fuel (expand g goal cur { s with openHeap := rest })

/-- The four `ValueError`s `astar` can raise, in source order. -/
inductive AstarErr where
  | startOutOfBounds
  | goalOutOfBounds
  | startNotWalkable
  | goalNotWalkable
deriving DecidableEq, Repr

/-- The exact `ValueError` message of each failure case. -/
def AstarErr.msg : AstarErr → String
  | .startOutOfBounds => "Start node out of grid bounds"
  | .goalOutOfBounds => "Goal node out of grid bounds"
  | .startNotWalkable => "Start node is not walkable"
  | .goalNotWalkable => "Goal node is not walkable"

/-- `astar(grid, start, goal)`: validation in source order, then the
search loop from the initial state
`open=[(h(start),0,start)], g={start:0}, f={start:h(start)}, came_from={}`. -/
def astar (g : Grid) (start goal : Node) : Except AstarErr (List Node) :=
  if ¬ inB g start then .error .startOutOfBounds
  else if ¬ inB g goal then .error .goalOutOfBounds
  else if cellVal g start ≠ 0 then .error .startNotWalkable
  else if cellVal g goal ≠ 0 then .error .goalNotWalkable
  else
    let h0 := manhattan start goal
    let s0 : AS :=
      { openHeap := [(h0, 0, start)]
        gScore := [(start, 0)]
        fScore := [(start, h0)]
        cameFrom := []
        counter := 0
        closed := [] }
    .ok (astarLoop g goal (4 * g.length * (g.headD []).length + 2) s0)

/-- `_delta_to_heading(dr, dc)` with the documented `'E'` fallback. -/
def deltaToHeading (dr dc : Int) : String :=
  if dr = -1 ∧ dc = 0 then "N"
  else if dr = 1 ∧ dc = 0 then "S"
  else if dr = 0 ∧ dc = -1 then "W"
  else if dr = 0 ∧ dc = 1 then "E"
  else "E"

/-- One waypoint dict `\x7b'row': r, 'col': c, 'heading': h\x7d`. -/
structure Waypoint where
  row : Int
  col : Int
  heading : String
deriving DecidableEq, Repr

/-- The indexed loop of `waypoints_with_headings`, carrying `last_heading`
(initially `'E'`): every cell but the last takes the heading of the step
to its successor; the last repeats the previous heading. -/
def wwhGo : List Node → String → List Waypoint
  | [], _ => []
  | [n], lastH => [⟨n.1, n.2, lastH⟩]
  | n :: m :: rest, _lastH =>
    let hd := deltaToHeading (m.1 - n.1) (m.2 - n.2)
    ⟨n.1, n.2, hd⟩ :: wwhGo (m :: rest) hd

/-- `waypoints_with_headings(path)`. -/
def waypointsWithHeadings (path : List Node) : List Waypoint :=
  if path.isEmpty then [] else wwhGo path "E"

/-- `plan_with_headings(grid, start, goal)`; the router calls it inside a
`try`, so the error case is surfaced as `Except`. -/
def planWithHeadings (g : Grid) (start goal : Node) : Except AstarErr (List Waypoint) :=
  (astar g start goal).map waypointsWithHeadings

end Planner

namespace Planner

/-- A cell is walkable: in bounds with value 0. -/
def walk (g : Grid) (n : Node) : Prop := inB g n ∧ cellVal g n = 0

/-- One legal move of the search: `b` is a walkable in-bounds 4-neighbor of `a`. -/
def Step (g : Grid) (a b : Node) : Prop := b ∈ neighbors g a

/-- The two cells differ by exactly one 4-connected step. -/
def Adj (a b : Node) : Prop := manhattan a b = 1

/-- A walkable route: nonempty, starts at `s`, ends at `t`, every move legal. -/
def PathBetween (g : Grid) (s t : Node) (p : List Node) : Prop :=
  p.head? = some s ∧ p.getLast? = some t ∧ List.Chain' (Step g) p

/-- Some walkable 4-connected route joins `s` to `t`. -/
def Reaches (g : Grid) (s t : Node) : Prop := ∃ p, PathBetween g s t p

instance (g : Grid) (n : Node) : Decidable (walk g n) :=
  inferInstanceAs (Decidable (inB g n ∧ cellVal g n = 0))

instance (g : Grid) (a b : Node) : Decidable (Step g a b) :=
  inferInstanceAs (Decidable (b ∈ neighbors g a))

instance (g : Grid) (s t : Node) (p : List Node) : Decidable (PathBetween g s t p) :=
  inferInstanceAs (Decidable
    (p.head? = some s ∧ p.getLast? = some t ∧ List.Chain' (Step g) p))

theorem mem_neighbors_iff {g : Grid} {a b : Node} :
    b ∈ neighbors g a ↔
      ((b = (a.1 - 1, a.2) ∨ b = (a.1 + 1, a.2) ∨ b = (a.1, a.2 - 1) ∨ b = (a.1, a.2 + 1)) ∧
        inB g b ∧ cellVal g b = 0) := by
  simp only [neighbors, deltas, List.mem_filter, List.mem_map, List.mem_cons,
    List.not_mem_nil, or_false, Bool.and_eq_true, decide_eq_true_iff, beq_iff_eq]
  constructor
  · rintro ⟨⟨d, hd, rfl⟩, h1, h2⟩
    refine ⟨?_, h1, h2⟩
    rcases hd with rfl | rfl | rfl | rfl <;> simp <;> omega
  · rintro ⟨hb, h1, h2⟩
    refine ⟨?_, h1, h2⟩
    rcases hb with rfl | rfl | rfl | rfl
    · exact ⟨(-1, 0), by simp, by simp; omega⟩
    · exact ⟨(1, 0), by simp, by simp⟩
    · exact ⟨(0, -1), by simp, by simp; omega⟩
    · exact ⟨(0, 1), by simp, by simp⟩

theorem Step.walk {g : Grid} {a b : Node} (h : Step g a b) : walk g b := by
  rcases mem_neighbors_iff.mp h with ⟨_, h1, h2⟩
  exact ⟨h1, h2⟩

theorem Step.adj {g : Grid} {a b : Node} (h : Step g a b) : Adj a b := by
  rcases mem_neighbors_iff.mp h with ⟨hb, -, -⟩
  rcases hb with rfl | rfl | rfl | rfl <;>
    · simp only [Adj, manhattan]
      omega

theorem manhattan_self (a : Node) : manhattan a a = 0 := by
  simp [manhattan]

theorem manhattan_comm (a b : Node) : manhattan a b = manhattan b a := by
  simp only [manhattan]
  rw [← Int.natAbs_neg (a.1 - b.1), ← Int.natAbs_neg (a.2 - b.2)]
  ring_nf

theorem manhattan_triangle (a b c : Node) :
    manhattan a c ≤ manhattan a b + manhattan b c := by
  simp only [manhattan]
  have h1 : (a.1 - c.1).natAbs ≤ (a.1 - b.1).natAbs + (b.1 - c.1).natAbs := by
    have := Int.natAbs_add_le (a.1 - b.1) (b.1 - c.1)
    have he : a.1 - b.1 + (b.1 - c.1) = a.1 - c.1 := by ring
    rwa [he] at this
  have h2 : (a.2 - c.2).natAbs ≤ (a.2 - b.2).natAbs + (b.2 - c.2).natAbs := by
    have := Int.natAbs_add_le (a.2 - b.2) (b.2 - c.2)
    have he : a.2 - b.2 + (b.2 - c.2) = a.2 - c.2 := by ring
    rwa [he] at this
  omega

theorem pathBetween_singleton (g : Grid) (s : Node) : PathBetween g s s [s] := by
  exact ⟨rfl, rfl, List.chain'_singleton s⟩

theorem pathBetween_ne_nil {g : Grid} {s t : Node} {p : List Node}
    (h : PathBetween g s t p) : p ≠ [] := by
  intro hnil; rw [hnil] at h; exact Option.noConfusion h.1

theorem pathBetween_concat {g : Grid} {s a b : Node} {p : List Node}
    (h : PathBetween g s a p) (hs : Step g a b) : PathBetween g s b (p ++ [b]) := by
  obtain ⟨h1, h2, h3⟩ := h
  refine ⟨?_, List.getLast?_concat p, ?_⟩
  · rw [List.head?_append, h1]; rfl
  · rw [List.chain'_append]
    refine ⟨h3, List.chain'_singleton b, ?_⟩
    intro x hx y hy
    rw [h2] at hx
    simp at hx hy
    rw [← hx, ← hy]; exact hs

theorem pathBetween_length_ge {g : Grid} {s t : Node} {p : List Node}
    (h : PathBetween g s t p) : manhattan s t + 1 ≤ p.length := by
  induction p generalizing s with
  | nil => exact absurd h.1 (by simp)
  | cons a l ih =>
    obtain ⟨h1, h2, h3⟩ := h
    simp at h1
    subst h1
    cases l with
    | nil =>
      simp at h2
      subst h2
      simp [manhattan_self]
    | cons b l2 =>
      rw [List.chain'_cons] at h3
      rw [List.getLast?_cons_cons] at h2
      have hbt : PathBetween g b t (b :: l2) := ⟨rfl, h2, h3.2⟩
      have hle := ih hbt
      have htri := manhattan_triangle a b t
      have hone := h3.1.adj
      rw [Adj] at hone
      simp only [List.length_cons] at hle ⊢
      omega

theorem exists_shortest {g : Grid} {s t : Node} (h : Reaches g s t) :
    ∃ p, PathBetween g s t p ∧ ∀ q, PathBetween g s t q → p.length ≤ q.length := by
  classical
  obtain ⟨p0, hp0⟩ := h
  let S : Set ℕ := {n | ∃ p, PathBetween g s t p ∧ p.length = n}
  have hne : S.Nonempty := ⟨p0.length, p0, hp0, rfl⟩
  obtain ⟨p, hp, hlen⟩ := Nat.sInf_mem hne
  refine ⟨p, hp, fun q hq => ?_⟩
  rw [hlen]
  exact Nat.sInf_le ⟨q, hq, rfl⟩

end Planner

namespace Planner

theorem keyLe_iff (a b : Nat × Nat × Node) :
    keyLe a b = true ↔ (a.1 < b.1 ∨ (a.1 = b.1 ∧ a.2.1 ≤ b.2.1)) := by
  simp [keyLe, Bool.or_eq_true, Bool.and_eq_true, decide_eq_true_eq, beq_iff_eq]

theorem keyLe_refl (a : Nat × Nat × Node) : keyLe a a = true := by
  rw [keyLe_iff]; omega

theorem keyLe_trans {a b c : Nat × Nat × Node} (h1 : keyLe a b = true)
    (h2 : keyLe b c = true) : keyLe a c = true := by
  rw [keyLe_iff] at *; omega

theorem keyLe_total {a b : Nat × Nat × Node} (h : ¬ keyLe a b = true) : keyLe b a = true := by
  rw [keyLe_iff] at *; omega

theorem keyLe_fst {a b : Nat × Nat × Node} (h : keyLe a b = true) : a.1 ≤ b.1 := by
  rw [keyLe_iff] at h; omega

theorem popMin_eq_none {l : List (Nat × Nat × Node)} : popMin l = none ↔ l = [] := by
  cases l with
  | nil => simp [popMin]
  | cons e rest =>
    simp only [popMin]
    cases popMin rest with
    | none => simp
    | some p =>
      rcases p with ⟨m, rest2⟩
      by_cases h : keyLe e m = true <;> simp [h]

theorem popMin_spec {l : List (Nat × Nat × Node)} {e : Nat × Nat × Node}
    {r : List (Nat × Nat × Node)} (h : popMin l = some (e, r)) :
    l.Perm (e :: r) ∧ ∀ x ∈ l, keyLe e x = true := by
  induction l generalizing e r with
  | nil => simp [popMin] at h
  | cons a rest ih =>
    cases hrest : popMin rest with
    | none =>
      have heq : popMin (a :: rest) = some (a, []) := by simp [popMin, hrest]
      rw [heq] at h
      cases h
      rw [popMin_eq_none] at hrest
      subst hrest
      exact ⟨List.Perm.refl _, by intro x hx; simp at hx; subst hx; exact keyLe_refl _⟩
    | some p =>
      rcases p with ⟨m, rest2⟩
      obtain ⟨hperm, hmin⟩ := ih hrest
      by_cases hle : keyLe a m = true
      · have heq : popMin (a :: rest) = some (a, rest) := by simp [popMin, hrest, hle]
        rw [heq] at h
        cases h
        refine ⟨List.Perm.refl _, fun x hx => ?_⟩
        rcases List.mem_cons.mp hx with rfl | hx
        · exact keyLe_refl _
        · exact keyLe_trans hle (hmin x hx)
      · have heq : popMin (a :: rest) = some (m, a :: rest2) := by simp [popMin, hrest, hle]
        rw [heq] at h
        cases h
        constructor
        · exact (hperm.cons a).trans (List.Perm.swap _ _ _)
        · intro x hx
          rcases List.mem_cons.mp hx with rfl | hx
          · exact keyLe_total hle
          · exact hmin x hx

end Planner

namespace Planner

theorem wwhGo_length : ∀ (p : List Node) (lastH : String), (wwhGo p lastH).length = p.length
  | [], _ => rfl
  | [_], _ => rfl
  | n :: m :: rest, _ => by
    simp only [wwhGo, List.length_cons]
    rw [wwhGo_length (m :: rest)]
    simp

theorem wwhGo_get_step : ∀ (p : List Node) (lastH : String) (i : Nat) (a b : Node),
    p.get? i = some a → p.get? (i + 1) = some b →
    (wwhGo p lastH).get? i = some ⟨a.1, a.2, deltaToHeading (b.1 - a.1) (b.2 - a.2)⟩
  | [], _, i, _, _ => by intro h1 _; simp at h1
  | [n], _, i, _, _ => by
    intro _ h2
    rcases List.get?_eq_some.mp h2 with ⟨hlt, -⟩
    simp at hlt
  | n :: m :: rest, lastH, 0, a, b => by
    intro h1 h2
    simp only [List.get?_cons_zero, Option.some.injEq] at h1
    simp only [List.get?_cons_succ, List.get?_cons_zero, Option.some.injEq] at h2
    subst h1; subst h2
    rfl
  | n :: m :: rest, lastH, i + 1, a, b => by
    intro h1 h2
    simp only [List.get?_cons_succ] at h1 h2
    simp only [wwhGo, List.get?_cons_succ]
    exact wwhGo_get_step (m :: rest) _ i a b h1 h2

theorem wwhGo_get_final : ∀ (p : List Node) (lastH : String) (i : Nat) (a b : Node),
    p.get? i = some a → p.get? (i + 1) = some b → i + 2 = p.length →
    (wwhGo p lastH).get? (i + 1) = some ⟨b.1, b.2, deltaToHeading (b.1 - a.1) (b.2 - a.2)⟩
  | [], _, i, _, _ => by intro h1 _ _; simp at h1
  | [n], _, i, _, _ => by
    intro _ h2 _
    rcases List.get?_eq_some.mp h2 with ⟨hlt, -⟩
    simp at hlt
  | n :: m :: rest, lastH, 0, a, b => by
    intro h1 h2 hlen
    simp only [List.length_cons] at hlen
    have hrest : rest = [] := by
      cases rest with
      | nil => rfl
      | cons _ _ => simp at hlen
    subst hrest
    simp only [List.get?_cons_zero, Option.some.injEq] at h1
    simp only [List.get?_cons_succ, List.get?_cons_zero, Option.some.injEq] at h2
    subst h1; subst h2
    rfl
  | n :: m :: rest, lastH, i + 1, a, b => by
    intro h1 h2 hlen
    simp only [List.get?_cons_succ] at h1 h2
    simp only [List.length_cons] at hlen
    simp only [wwhGo, List.get?_cons_succ]
    exact wwhGo_get_final (m :: rest) _ i a b h1 h2 (by simpa using hlen)

/-- C9: `waypoints_with_headings(path)` returns exactly `len(path)` waypoints;
for every `i < len(path) - 1` the heading of waypoint `i` is the cardinal
direction of the step from cell `i` to cell `i+1` (N up, S down, W left,
E right, with rows increasing downwards); the last waypoint repeats the
heading of the second-to-last waypoint; and a length-1 path yields the
documented default heading "E". -/
theorem waypoints_with_headings_spec (path : List Node) :
    (waypointsWithHeadings path).length = path.length ∧
    (∀ i a b wp, path.get? i = some a → path.get? (i + 1) = some b →
      (waypointsWithHeadings path).get? i = some wp →
      ((b.1 - a.1 = -1 ∧ b.2 - a.2 = 0 → wp.heading = "N") ∧
       (b.1 - a.1 = 1 ∧ b.2 - a.2 = 0 → wp.heading = "S") ∧
       (b.1 - a.1 = 0 ∧ b.2 - a.2 = -1 → wp.heading = "W") ∧
       (b.1 - a.1 = 0 ∧ b.2 - a.2 = 1 → wp.heading = "E"))) ∧
    (∀ x y, 2 ≤ path.length →
      (waypointsWithHeadings path).get? (path.length - 1) = some x →
      (waypointsWithHeadings path).get? (path.length - 2) = some y →
      x.heading = y.heading) ∧
    (∀ wp, path.length = 1 → (waypointsWithHeadings path).get? 0 = some wp →
      wp.heading = "E") := by
  refine ⟨?_, ?_, ?_, ?_⟩
  · cases path with
    | nil => rfl
    | cons n rest => simpa [waypointsWithHeadings] using wwhGo_length (n :: rest) "E"
  · intro i a b wp h1 h2 hw
    have hne : path ≠ [] := by intro hnil; rw [hnil] at h1; simp at h1
    have hwg : (wwhGo path "E").get? i =
        some ⟨a.1, a.2, deltaToHeading (b.1 - a.1) (b.2 - a.2)⟩ :=
      wwhGo_get_step path "E" i a b h1 h2
    rw [waypointsWithHeadings, if_neg (by simpa using hne)] at hw
    rw [hwg] at hw
    cases hw
    refine ⟨?_, ?_, ?_, ?_⟩ <;>
      · rintro ⟨hd1, hd2⟩
        simp only [deltaToHeading, hd1, hd2]
        decide
  · intro x y hlen hx hy
    have hne : path ≠ [] := by intro hnil; rw [hnil] at hlen; simp at hlen
    obtain ⟨a, ha⟩ : ∃ a, path.get? (path.length - 2) = some a :=
      ⟨path.get ⟨path.length - 2, by omega⟩, List.get?_eq_get (by omega)⟩
    obtain ⟨b, hb⟩ : ∃ b, path.get? (path.length - 1) = some b :=
      ⟨path.get ⟨path.length - 1, by omega⟩, List.get?_eq_get (by omega)⟩
    have hsucc : path.length - 2 + 1 = path.length - 1 := by omega
    have hsucc2 : path.length - 2 + 2 = path.length := by omega
    have hstep := wwhGo_get_step path "E" (path.length - 2) a b ha (hsucc ▸ hb)
    have hfinal := wwhGo_get_final path "E" (path.length - 2) a b ha (hsucc ▸ hb) hsucc2
    rw [hsucc] at hfinal
    rw [waypointsWithHeadings, if_neg (by simpa using hne)] at hx hy
    rw [hfinal] at hx
    rw [hstep] at hy
    cases hx; cases hy
    rfl
  · intro wp hlen hw
    cases path with
    | nil => simp at hlen
    | cons n rest =>
      have hrest : rest = [] := by
        cases rest with
        | nil => rfl
        | cons _ _ => simp at hlen
      subst hrest
      simp only [waypointsWithHeadings, List.isEmpty_cons, if_neg] at hw
      cases hw
      rfl

/-- Witness for C9 at the concrete path [(0,0),(1,0)]: two waypoints, and the
first takes heading "S" for the downward step. -/
theorem waypoints_with_headings_spec_witness :
    ([((0 : Int), (0 : Int)), (1, 0)] : List Node).get? 0 = some (0, 0) ∧
    ([((0 : Int), (0 : Int)), (1, 0)] : List Node).get? 1 = some (1, 0) ∧
    (waypointsWithHeadings [((0 : Int), (0 : Int)), (1, 0)]).length = 2 ∧
    (∀ wp, (waypointsWithHeadings [((0 : Int), (0 : Int)), (1, 0)]).get? 0 = some wp →
      wp.heading = "S") := by
  refine ⟨rfl, rfl, (waypoints_with_headings_spec [((0 : Int), (0 : Int)), (1, 0)]).1, ?_⟩
  intro wp hw
  exact ((waypoints_with_headings_spec [((0 : Int), (0 : Int)), (1, 0)]).2.1 0 (0, 0) (1, 0)
    wp rfl rfl hw).2.1 (by decide)

/-- C7: when start or goal is out of bounds or not walkable, `astar` fails
with the matching `ValueError` (checks in source order: start bounds, goal
bounds, start walkability, goal walkability), the two causes are reported by
distinct errors, and no path is ever silently returned in these cases. -/
theorem astar_invalid_node (g : Grid) (start goal : Node) (hrect : Rect g) :
    (¬ inB g start → astar g start goal = .error .startOutOfBounds) ∧
    (inB g start → ¬ inB g goal → astar g start goal = .error .goalOutOfBounds) ∧
    (inB g start → inB g goal → cellVal g start ≠ 0 →
      astar g start goal = .error .startNotWalkable) ∧
    (inB g start → inB g goal → cellVal g start = 0 → cellVal g goal ≠ 0 →
      astar g start goal = .error .goalNotWalkable) ∧
    ((¬ inB g start ∨ ¬ inB g goal ∨ cellVal g start ≠ 0 ∨ cellVal g goal ≠ 0) →
      ∀ p, astar g start goal ≠ .ok p) := by
  refine ⟨?_, ?_, ?_, ?_, ?_⟩
  · intro h; simp [astar, h]
  · intro h1 h2; simp [astar, h1, h2]
  · intro h1 h2 h3; simp [astar, h1, h2, h3]
  · intro h1 h2 h3 h4; simp [astar, h1, h2, h3, h4]
  · intro hbad p
    by_cases h1 : inB g start
    · by_cases h2 : inB g goal
      · by_cases h3 : cellVal g start = 0
        · have h4 : cellVal g goal ≠ 0 := by tauto
          simp [astar, h1, h2, h3, h4]
        · simp [astar, h1, h2, h3]
      · simp [astar, h1, h2]
    · simp [astar, h1]

/-- Witness for C7: a wall start cell and an out-of-bounds goal each produce
their own distinct error on a concrete 2x2 grid. -/
theorem astar_invalid_node_witness :
    Rect [[0, 1], [0, 0]] ∧ inB [[0, 1], [0, 0]] ((0 : Int), (1 : Int)) ∧
    cellVal [[0, 1], [0, 0]] ((0 : Int), (1 : Int)) ≠ 0 ∧
    astar [[0, 1], [0, 0]] (0, 1) (1, 1) = .error .startNotWalkable ∧
    astar [[0, 1], [0, 0]] (0, 0) (5, 5) = .error .goalOutOfBounds := by
  refine ⟨by decide, by decide, by decide, ?_, ?_⟩
  · exact (astar_invalid_node [[0, 1], [0, 0]] (0, 1) (1, 1) (by decide)).2.2.1
      (by decide) (by decide) (by decide)
  · exact (astar_invalid_node [[0, 1], [0, 0]] (0, 0) (5, 5) (by decide)).2.1
      (by decide) (by decide)

end Planner

theorem nodup_subset_length_le {α : Type} [DecidableEq α] {l l2 : List α}
    (hn : l.Nodup) (hsub : ∀ x ∈ l, x ∈ l2) : l.length ≤ l2.length := by
  calc l.length = l.toFinset.card := (List.toFinset_card_of_nodup hn).symm
    _ ≤ l2.toFinset.card := Finset.card_le_card (fun x hx => by
        rw [List.mem_toFinset] at *
        exact hsub x hx)
    _ ≤ l2.length := l2.toFinset_card_le

theorem dset_map_fst_nodup {κ β : Type} [DecidableEq κ] {l : List (κ × β)} (k : κ) (v : β)
    (hn : (l.map Prod.fst).Nodup) : ((dset l k v).map Prod.fst).Nodup := by
  unfold dset
  by_cases hl : l.any (fun e => decide (e.1 = k))
  · rw [if_pos hl]
    have : ((l.map fun e => if e.1 = k then (k, v) else e).map Prod.fst) = l.map Prod.fst := by
      rw [List.map_map]
      refine List.map_congr_left fun e _ => ?_
      by_cases he : e.1 = k <;> simp [he]
    rw [this]
    exact hn
  · rw [if_neg hl]
    rw [List.map_append]
    simp only [List.map_cons, List.map_nil]
    have hk : k ∉ l.map Prod.fst := by
      intro hx
      obtain ⟨e, he, hek⟩ := List.mem_map.mp hx
      exact absurd (List.any_eq_true.mpr ⟨e, he, by simp [hek]⟩) hl
    rw [List.nodup_append]
    refine ⟨hn, List.nodup_singleton k, ?_⟩
    intro x hx hxk
    simp only [List.mem_singleton] at hxk
    subst hxk
    exact hk hx

theorem nodup_all_eq_length_le_one {α : Type} {l : List α} {a : α} (hn : l.Nodup)
    (h : ∀ x ∈ l, x = a) : l.length ≤ 1 := by
  cases l with
  | nil => simp
  | cons x l2 =>
    cases l2 with
    | nil => simp
    | cons y l3 =>
      exfalso
      have hx := h x (by simp)
      have hy := h y (by simp)
      rw [List.nodup_cons] at hn
      refine hn.1 ?_
      rw [hx, ← hy]
      exact List.mem_cons_self y l3

namespace Planner

/-- Number of grid cells. -/
def cells (g : Grid) : Nat := g.length * (g.headD []).length

theorem nodup_inB_length_le {g : Grid} {l : List Node} (hn : l.Nodup)
    (hb : ∀ n ∈ l, inB g n) : l.length ≤ cells g := by
  classical
  set C := (g.headD []).length with hC
  have hmul : ∀ a b : Nat, a < b → a * C + C ≤ b * C := by
    intro a b hab
    calc a * C + C = (a + 1) * C := by ring
      _ ≤ b * C := Nat.mul_le_mul_right C hab
  have hmap : ∀ n ∈ l, n.1.toNat * C + n.2.toNat < cells g := by
    intro n hnl
    obtain ⟨h1, h2, h3, h4⟩ := hb n hnl
    have hr : n.1.toNat < g.length := by
      unfold rowsI at h2
      omega
    have hc : n.2.toNat < C := by
      unfold colsI at h4
      omega
    have hstep := hmul n.1.toNat g.length hr
    have hcells : cells g = g.length * C := rfl
    rw [hcells]
    omega
  have hinj : ∀ x ∈ l, ∀ y ∈ l,
      x.1.toNat * C + x.2.toNat = y.1.toNat * C + y.2.toNat → x = y := by
    intro x hx y hy heq
    obtain ⟨hx1, hx2, hx3, hx4⟩ := hb x hx
    obtain ⟨hy1, hy2, hy3, hy4⟩ := hb y hy
    have hxc : x.2.toNat < C := by unfold colsI at hx4; omega
    have hyc : y.2.toNat < C := by unfold colsI at hy4; omega
    have h1 : x.1.toNat = y.1.toNat := by
      rcases Nat.lt_trichotomy x.1.toNat y.1.toNat with hlt | heq1 | hlt
      · have := hmul x.1.toNat y.1.toNat hlt
        omega
      · exact heq1
      · have := hmul y.1.toNat x.1.toNat hlt
        omega
    have h2 : x.2.toNat = y.2.toNat := by
      rw [h1] at heq
      omega
    have hx1n : x.1 = y.1 := by omega
    have hx2n : x.2 = y.2 := by omega
    exact Prod.ext hx1n hx2n
  have hnodup2 : (l.map fun n => n.1.toNat * C + n.2.toNat).Nodup :=
    List.Nodup.map_on hinj hn
  have hsub : ∀ x ∈ (l.map fun n => n.1.toNat * C + n.2.toNat), x ∈ List.range (cells g) := by
    intro x hx
    obtain ⟨n, hnl, rfl⟩ := List.mem_map.mp hx
    rw [List.mem_range]
    exact hmap n hnl
  have := nodup_subset_length_le hnodup2 hsub
  simpa using this

theorem not_mem_neighbors_self {g : Grid} (a : Node) : a ∉ neighbors g a := by
  intro h
  rcases mem_neighbors_iff.mp h with ⟨hb, -, -⟩
  rcases hb with h | h | h | h <;>
    · rw [Prod.ext_iff] at h
      omega

theorem neighbors_length_le {g : Grid} (a : Node) : (neighbors g a).length ≤ 4 := by
  calc (neighbors g a).length ≤ ((deltas.map fun d => (a.1 + d.1, a.2 + d.2)).length) :=
        List.length_filter_le _ _
    _ = 4 := by simp [deltas]

/-- `v` is the exact 4-connected walkable distance from `s` to `t`
(counted in steps, so a shortest route list has `v + 1` cells). -/
def IsDist (g : Grid) (s t : Node) (v : Nat) : Prop :=
  (∃ p, PathBetween g s t p ∧ p.length = v + 1) ∧
  ∀ q, PathBetween g s t q → v + 1 ≤ q.length

theorem isDist_unique {g : Grid} {s t : Node} {v w : Nat}
    (hv : IsDist g s t v) (hw : IsDist g s t w) : v = w := by
  obtain ⟨⟨p, hp, hpl⟩, hvmin⟩ := hv
  obtain ⟨⟨q, hq, hql⟩, hwmin⟩ := hw
  have h1 := hvmin q hq
  have h2 := hwmin p hp
  omega

theorem reaches_isDist {g : Grid} {s t : Node} (h : Reaches g s t) :
    ∃ v, IsDist g s t v := by
  obtain ⟨p, hp, hmin⟩ := exists_shortest h
  have hne : p ≠ [] := pathBetween_ne_nil hp
  have hlen : 1 ≤ p.length := List.length_pos.mpr hne
  refine ⟨p.length - 1, ⟨p, hp, by omega⟩, fun q hq => ?_⟩
  have := hmin q hq
  omega

theorem isDist_step_le {g : Grid} {s a b : Node} {v w : Nat}
    (hv : IsDist g s a v) (hstep : Step g a b) (hw : IsDist g s b w) : w ≤ v + 1 := by
  obtain ⟨⟨p, hp, hpl⟩, -⟩ := hv
  have hb := pathBetween_concat hp hstep
  have := hw.2 _ hb
  rw [List.length_append, hpl] at this
  simpa using this

theorem pathBetween_manhattan_le {g : Grid} {a b t : Node} {p : List Node}
    (h : PathBetween g a b p) : manhattan a t + 1 ≤ manhattan b t + p.length := by
  induction p generalizing a with
  | nil => exact absurd h.1 (by simp)
  | cons x l ih =>
    obtain ⟨h1, h2, h3⟩ := h
    simp at h1
    subst h1
    cases l with
    | nil =>
      simp at h2
      subst h2
      simp
    | cons y l2 =>
      rw [List.chain'_cons] at h3
      rw [List.getLast?_cons_cons] at h2
      have hyt : PathBetween g y b (y :: l2) := ⟨rfl, h2, h3.2⟩
      have hle := ih hyt
      have htri := manhattan_triangle x y t
      have hone := h3.1.adj
      rw [Adj] at hone
      simp only [List.length_cons] at hle ⊢
      omega

end Planner

namespace Planner

/-- The loop invariant of `astar`: `g_score` entries are walkable nodes with
consistent `came_from` chains back to `start`; closed nodes carry exact
distances and are fully relaxed; every non-closed scored node still has a
heap entry priced at its current score; and heap entries never under-price
the current score of their node. -/
structure AInv (g : Grid) (start goal : Node) (s : AS) : Prop where
  gstart : dlookup s.gScore start = some 0
  cfstart : dlookup s.cameFrom start = none
  gdom : ∀ n, n ≠ start → ((dlookup s.gScore n).isSome ↔ (dlookup s.cameFrom n).isSome)
  gwalk : ∀ n, (dlookup s.gScore n).isSome → walk g n
  cfstep : ∀ n p, dlookup s.cameFrom n = some p → Step g p n
  cfg : ∀ n p vn, dlookup s.cameFrom n = some p → dlookup s.gScore n = some vn →
    ∃ vp, dlookup s.gScore p = some vp ∧ vp + 1 ≤ vn
  closedOpt : ∀ n ∈ s.closed, ∃ v, dlookup s.gScore n = some v ∧ IsDist g start n v
  closedExp : ∀ n ∈ s.closed, ∀ nb, Step g n nb →
    ∃ vn vb, dlookup s.gScore n = some vn ∧ dlookup s.gScore nb = some vb ∧ vb ≤ vn + 1
  openEntry : ∀ n v, dlookup s.gScore n = some v → n ∉ s.closed →
    ∃ c, (v + manhattan n goal, c, n) ∈ s.openHeap
  heapG : ∀ e ∈ s.openHeap, ∃ v, dlookup s.gScore e.2.2 = some v ∧
    v + manhattan e.2.2 goal ≤ e.1
  closedNodup : s.closed.Nodup
  goalNotClosed : goal ∉ s.closed

theorem ainv_g_reach {g : Grid} {start goal : Node} {s : AS} (h : AInv g start goal s) :
    ∀ v n, dlookup s.gScore n = some v →
      ∃ p, PathBetween g start n p ∧ p.length ≤ v + 1 ∧ p.Nodup ∧
        (∀ x ∈ p, ∃ vx, dlookup s.gScore x = some vx ∧ vx ≤ v) ∧
        (∀ x ∈ p, x ≠ start → x ∈ s.cameFrom.map Prod.fst) := by
  intro v
  induction v using Nat.strong_induction_on with
  | _ v ih =>
    intro n hg
    by_cases hns : n = start
    · subst hns
      refine ⟨[n], pathBetween_singleton g n, by simp, List.nodup_singleton _, ?_, ?_⟩
      · intro x hx
        simp at hx
        subst hx
        exact ⟨v, hg, le_refl v⟩
      · intro x hx hxs
        simp at hx
        exact absurd hx hxs
    · have hcf : (dlookup s.cameFrom n).isSome := by
        rw [← h.gdom n hns, hg]
        rfl
      obtain ⟨q, hq⟩ := Option.isSome_iff_exists.mp hcf
      obtain ⟨vq, hgq, hvq⟩ := h.cfg n q v hq hg
      have hlt : vq < v := by omega
      obtain ⟨pq, hpq, hlen, hnd, hvals, hkeys⟩ := ih vq hlt q hgq
      have hnotin : n ∉ pq := by
        intro hmem
        obtain ⟨vx, hvx, hvxle⟩ := hvals n hmem
        rw [hg] at hvx
        cases hvx
        omega
      refine ⟨pq ++ [n], pathBetween_concat hpq (h.cfstep n q hq), ?_, ?_, ?_, ?_⟩
      · rw [List.length_append, List.length_singleton]
        omega
      · rw [List.nodup_append]
        exact ⟨hnd, List.nodup_singleton n, fun x hx hxn => by
          simp at hxn
          subst hxn
          exact hnotin hx⟩
      · intro x hx
        rcases List.mem_append.mp hx with hx | hx
        · obtain ⟨vx, hvx, hvxle⟩ := hvals x hx
          exact ⟨vx, hvx, by omega⟩
        · simp at hx
          subst hx
          exact ⟨v, hg, le_refl v⟩
      · intro x hx hxs
        rcases List.mem_append.mp hx with hx | hx
        · exact hkeys x hx hxs
        · simp at hx
          subst hx
          exact List.mem_map.mpr ⟨(x, q), mem_of_dlookup hq, rfl⟩

theorem ainv_frontier {g : Grid} {start goal : Node} {s : AS} (h : AInv g start goal s) :
    ∀ (pi : List Node) (B : Nat) (hd : Node),
      pi.head? = some hd → List.Chain' (Step g) pi →
      (∃ gh, dlookup s.gScore hd = some gh ∧ gh ≤ B) →
      (∀ tl, pi.getLast? = some tl → tl ∉ s.closed) →
      ∃ sig m tau, pi = sig ++ m :: tau ∧ (∀ x ∈ sig, x ∈ s.closed) ∧ m ∉ s.closed ∧
        ∃ gm, dlookup s.gScore m = some gm ∧ gm ≤ B + sig.length := by
  intro pi
  induction pi with
  | nil => intro B hd h1; simp at h1
  | cons a rest ih =>
    intro B hd h1 hchain hgh hlast
    simp only [List.head?_cons, Option.some.injEq] at h1
    subst h1
    obtain ⟨gh, hga, hghB⟩ := hgh
    by_cases hac : a ∈ s.closed
    · cases rest with
      | nil => exact absurd hac (hlast a rfl)
      | cons r0 rest2 =>
        rw [List.chain'_cons] at hchain
        obtain ⟨vn, vb, hvn, hvb, hle⟩ := h.closedExp a hac r0 hchain.1
        have hvneq : vn = gh := by
          rw [hga] at hvn
          exact (Option.some.inj hvn).symm
        have hlast2 : ∀ tl, (r0 :: rest2).getLast? = some tl → tl ∉ s.closed := by
          intro tl htl
          apply hlast
          rw [List.getLast?_cons_cons]
          exact htl
        obtain ⟨sig, m, tau, heq, hsigc, hmnc, gm, hgm, hgmle⟩ :=
          ih (B + 1) r0 rfl hchain.2 ⟨vb, hvb, by omega⟩ hlast2
        refine ⟨a :: sig, m, tau, by rw [List.cons_append, heq], ?_, hmnc, gm, hgm, ?_⟩
        · intro x hx
          rcases List.mem_cons.mp hx with rfl | hx
          · exact hac
          · exact hsigc x hx
        · simp only [List.length_cons]
          omega
    · exact ⟨[], a, rest, rfl, by simp, hac, gh, hga, by simpa using hghB⟩

theorem ainv_pop_opt {g : Grid} {start goal : Node} {s : AS} {f c : Nat} {cur : Node}
    {rest : List (Nat × Nat × Node)} (h : AInv g start goal s)
    (hpop : popMin s.openHeap = some ((f, c, cur), rest)) (hnc : cur ∉ s.closed) :
    ∃ v, dlookup s.gScore cur = some v ∧ IsDist g start cur v := by
  obtain ⟨hperm, hmin⟩ := popMin_spec hpop
  have hmem : (f, c, cur) ∈ s.openHeap := hperm.mem_iff.mpr (List.mem_cons_self _ _)
  obtain ⟨v, hgv, hvf⟩ := h.heapG _ hmem
  have hreach : Reaches g start cur := by
    obtain ⟨p, hp, -⟩ := ainv_g_reach h v cur hgv
    exact ⟨p, hp⟩
  obtain ⟨pi, hpi, hpimin⟩ := exists_shortest hreach
  have hpine : pi ≠ [] := pathBetween_ne_nil hpi
  have hpipos : 1 ≤ pi.length := List.length_pos.mpr hpine
  have hd : IsDist g start cur (pi.length - 1) := by
    refine ⟨⟨pi, hpi, by omega⟩, fun q hq => ?_⟩
    have := hpimin q hq
    omega
  suffices hveq : v = pi.length - 1 by
    exact ⟨v, hgv, hveq ▸ hd⟩
  have hge : pi.length - 1 ≤ v := by
    obtain ⟨p, hp, hlen, -, -, -⟩ := ainv_g_reach h v cur hgv
    have := hpimin p hp
    omega
  obtain ⟨sig, m, tau, heqpi, hsigc, hmnc, gm, hgm, hgmle⟩ :=
    ainv_frontier h pi 0 start hpi.1 hpi.2.2 ⟨0, h.gstart, le_refl 0⟩
      (fun tl htl => by
        rw [hpi.2.1] at htl
        cases htl
        exact hnc)
  obtain ⟨c2, hentry⟩ := h.openEntry m gm hgm hmnc
  have hkey := hmin _ hentry
  have hffst : f ≤ gm + manhattan m goal := keyLe_fst hkey
  have hsuffix : PathBetween g m cur (m :: tau) := by
    refine ⟨rfl, ?_, ?_⟩
    · have := hpi.2.1
      rw [heqpi, List.getLast?_append_of_ne_nil sig (by simp)] at this
      exact this
    · have := hpi.2.2
      rw [heqpi] at this
      exact (List.chain'_append.mp this).2.1
  have hman := pathBetween_manhattan_le (t := goal) hsuffix
  simp only [List.length_cons] at hman
  have hlenpi : pi.length = sig.length + (tau.length + 1) := by
    rw [heqpi, List.length_append, List.length_cons]
  have hvf2 : v + manhattan cur goal ≤ f := hvf
  omega

theorem ainv_heap_ne {g : Grid} {start goal : Node} {s : AS} (h : AInv g start goal s)
    (hreach : Reaches g start goal) : s.openHeap ≠ [] := by
  obtain ⟨pi, hpi, -⟩ := exists_shortest hreach
  obtain ⟨sig, m, tau, -, -, hmnc, gm, hgm, -⟩ :=
    ainv_frontier h pi 0 start hpi.1 hpi.2.2 ⟨0, h.gstart, le_refl 0⟩
      (fun tl htl => by
        rw [hpi.2.1] at htl
        cases htl
        exact h.goalNotClosed)
  obtain ⟨c2, hentry⟩ := h.openEntry m gm hgm hmnc
  intro hnil
  rw [hnil] at hentry
  simp at hentry

end Planner

namespace Planner

/-- Intermediate invariant while expanding `cur` (already added to `closed`
with exact distance `v`): all `AInv` clauses except that the full-relaxation
clause is stated only for the previously closed nodes; relaxation of the
neighbors of `cur` is tracked separately by the fold lemma. -/
structure RInv (g : Grid) (start goal cur : Node) (v : Nat) (oldClosed : List Node)
    (s2 : AS) : Prop where
  gstart : dlookup s2.gScore start = some 0
  cfstart : dlookup s2.cameFrom start = none
  gdom : ∀ n, n ≠ start → ((dlookup s2.gScore n).isSome ↔ (dlookup s2.cameFrom n).isSome)
  gwalk : ∀ n, (dlookup s2.gScore n).isSome → walk g n
  cfstep : ∀ n p, dlookup s2.cameFrom n = some p → Step g p n
  cfg : ∀ n p vn, dlookup s2.cameFrom n = some p → dlookup s2.gScore n = some vn →
    ∃ vp, dlookup s2.gScore p = some vp ∧ vp + 1 ≤ vn
  closedEq : s2.closed = cur :: oldClosed
  gcur : dlookup s2.gScore cur = some v
  distCur : IsDist g start cur v
  closedOptOld : ∀ n ∈ oldClosed, ∃ w, dlookup s2.gScore n = some w ∧ IsDist g start n w
  closedExpOld : ∀ n ∈ oldClosed, ∀ nb, Step g n nb →
    ∃ vn vb, dlookup s2.gScore n = some vn ∧ dlookup s2.gScore nb = some vb ∧ vb ≤ vn + 1
  openEntry : ∀ n w, dlookup s2.gScore n = some w → n ∉ s2.closed →
    ∃ c, (w + manhattan n goal, c, n) ∈ s2.openHeap
  heapG : ∀ e ∈ s2.openHeap, ∃ w, dlookup s2.gScore e.2.2 = some w ∧
    w + manhattan e.2.2 goal ≤ e.1
  closedNd : (cur :: oldClosed).Nodup
  goalNc : goal ∉ cur :: oldClosed

theorem relax_step {g : Grid} {start goal cur : Node} {v : Nat} {oldClosed : List Node}
    {s2 : AS} {nb : Node} (hstep : Step g cur nb)
    (hR : RInv g start goal cur v oldClosed s2) :
    RInv g start goal cur v oldClosed (relax goal cur (some v) s2 nb) ∧
    (∃ vb, dlookup (relax goal cur (some v) s2 nb).gScore nb = some vb ∧ vb ≤ v + 1) ∧
    (∀ m w, dlookup s2.gScore m = some w →
      ∃ w2, dlookup (relax goal cur (some v) s2 nb).gScore m = some w2 ∧ w2 ≤ w) ∧
    (relax goal cur (some v) s2 nb).openHeap.length ≤ s2.openHeap.length + 1 := by
  have hnbcur : nb ≠ cur := by
    intro hh
    subst hh
    exact not_mem_neighbors_self nb hstep
  by_cases hnbc : nb ∈ s2.closed
  · -- already closed: no change; its score is already optimal and within v + 1
    have hrelax : relax goal cur (some v) s2 nb = s2 := by
      unfold relax
      rw [if_pos hnbc]
    rw [hrelax]
    refine ⟨hR, ?_, fun m w hw => ⟨w, hw, le_refl w⟩, by omega⟩
    have hnbo : nb ∈ oldClosed := by
      rw [hR.closedEq] at hnbc
      rcases List.mem_cons.mp hnbc with hh | hh
      · exact absurd hh hnbcur
      · exact hh
    obtain ⟨w, hw, hwd⟩ := hR.closedOptOld nb hnbo
    exact ⟨w, hw, isDist_step_le hR.distCur hstep hwd⟩
  · cases hnb : dlookup s2.gScore nb with
    | some w =>
      by_cases hlt : v + 1 < w
      · -- strict improvement: rewrite nb
        have hlto : ltOpt (v + 1) (dlookup s2.gScore nb) = true := by
          rw [hnb]
          simpa [ltOpt] using hlt
        have hrelax : relax goal cur (some v) s2 nb =
            { s2 with
              cameFrom := dset s2.cameFrom nb cur
              gScore := dset s2.gScore nb (v + 1)
              fScore := dset s2.fScore nb (v + 1 + manhattan nb goal)
              counter := s2.counter + 1
              openHeap := (v + 1 + manhattan nb goal, s2.counter + 1, nb) :: s2.openHeap } := by
          unfold relax
          rw [if_neg hnbc]
          simp only [hlto, if_pos]
        have hnbstart : nb ≠ start := by
          intro hh
          subst hh
          rw [hR.gstart] at hnb
          cases hnb
          omega
        rw [hrelax]
        have hgself : dlookup (dset s2.gScore nb (v + 1)) nb = some (v + 1) :=
          dlookup_dset_self _ _ _
        have hgne : ∀ m, m ≠ nb → dlookup (dset s2.gScore nb (v + 1)) m = dlookup s2.gScore m :=
          fun m hm => dlookup_dset_ne _ _ _ _ hm
        have hcself : dlookup (dset s2.cameFrom nb cur) nb = some cur :=
          dlookup_dset_self _ _ _
        have hcne : ∀ m, m ≠ nb → dlookup (dset s2.cameFrom nb cur) m = dlookup s2.cameFrom m :=
          fun m hm => dlookup_dset_ne _ _ _ _ hm
        refine ⟨?_, ⟨v + 1, hgself, le_refl _⟩, ?_, by simp⟩
        · refine ⟨?_, ?_, ?_, ?_, ?_, ?_, ?_, ?_, ?_, ?_, ?_, ?_, ?_, ?_, ?_⟩
          · rw [hgne start (fun hh => hnbstart hh.symm)]; exact hR.gstart
          · rw [hcne start (fun hh => hnbstart hh.symm)]; exact hR.cfstart
          ·
            intro n hns
            by_cases hn : n = nb
            · subst hn
              rw [hgself, hcself]
              simp
            · rw [hgne n hn, hcne n hn]
              exact hR.gdom n hns
          ·
            intro n hsome
            by_cases hn : n = nb
            · subst hn
              exact hstep.walk
            · rw [hgne n hn] at hsome
              exact hR.gwalk n hsome
          ·
            intro n p hp
            by_cases hn : n = nb
            · subst hn
              rw [hcself] at hp
              cases hp
              exact hstep
            · rw [hcne n hn] at hp
              exact hR.cfstep n p hp
          ·
            intro n p vn hp hgn
            by_cases hn : n = nb
            · subst hn
              rw [hcself] at hp
              cases hp
              rw [hgself] at hgn
              cases hgn
              refine ⟨v, ?_, le_refl _⟩
              rw [hgne cur (fun hh => hnbcur hh.symm)]
              exact hR.gcur
            · rw [hcne n hn] at hp
              rw [hgne n hn] at hgn
              obtain ⟨vp, hvp, hvple⟩ := hR.cfg n p vn hp hgn
              by_cases hpn : p = nb
              · subst hpn
                rw [hnb] at hvp
                cases hvp
                exact ⟨v + 1, hgself, by omega⟩
              · exact ⟨vp, by rw [hgne p hpn]; exact hvp, hvple⟩
          · exact hR.closedEq
          · rw [hgne cur (fun hh => hnbcur hh.symm)]; exact hR.gcur
          · exact hR.distCur
          ·
            intro n hn
            have hnnb : n ≠ nb := by
              intro hh
              subst hh
              rw [hR.closedEq] at hnbc
              exact hnbc (List.mem_cons_of_mem _ hn)
            obtain ⟨w2, hw2, hw2d⟩ := hR.closedOptOld n hn
            exact ⟨w2, by rw [hgne n hnnb]; exact hw2, hw2d⟩
          ·
            intro n hn nb2 hstep2
            have hnnb : n ≠ nb := by
              intro hh
              subst hh
              rw [hR.closedEq] at hnbc
              exact hnbc (List.mem_cons_of_mem _ hn)
            obtain ⟨vn, vb, hvn, hvb, hle⟩ := hR.closedExpOld n hn nb2 hstep2
            by_cases hnb2 : nb2 = nb
            · subst hnb2
              rw [hnb] at hvb
              cases hvb
              exact ⟨vn, v + 1, by rw [hgne n hnnb]; exact hvn, hgself, by omega⟩
            · exact ⟨vn, vb, by rw [hgne n hnnb]; exact hvn, by rw [hgne nb2 hnb2]; exact hvb, hle⟩
          ·
            intro n w2 hg hncl
            by_cases hn : n = nb
            · subst hn
              rw [hgself] at hg
              cases hg
              exact ⟨s2.counter + 1, List.mem_cons_self _ _⟩
            · rw [hgne n hn] at hg
              obtain ⟨c2, hc2⟩ := hR.openEntry n w2 hg hncl
              exact ⟨c2, List.mem_cons_of_mem _ hc2⟩
          ·
            intro e he
            rcases List.mem_cons.mp he with rfl | he
            · exact ⟨v + 1, hgself, le_refl _⟩
            · obtain ⟨w2, hw2, hw2le⟩ := hR.heapG e he
              by_cases hn : e.2.2 = nb
              · rw [hn] at hw2 hw2le ⊢
                rw [hnb] at hw2
                cases hw2
                exact ⟨v + 1, hgself, by omega⟩
              · exact ⟨w2, by rw [hgne _ hn]; exact hw2, hw2le⟩
          · exact hR.closedNd
          · exact hR.goalNc
        · intro m w2 hw2
          by_cases hm : m = nb
          · subst hm
            rw [hnb] at hw2
            cases hw2
            exact ⟨v + 1, hgself, by omega⟩
          · exact ⟨w2, by rw [hgne m hm]; exact hw2, le_refl _⟩
      · -- no improvement: no change, and the existing score is within v + 1
        have hlto : ltOpt (v + 1) (dlookup s2.gScore nb) = false := by
          rw [hnb]
          simpa [ltOpt] using hlt
        have hrelax : relax goal cur (some v) s2 nb = s2 := by
          unfold relax
          rw [if_neg hnbc]
          simp only [hlto, Bool.false_eq_true, if_neg, not_false_iff]
        rw [hrelax]
        exact ⟨hR, ⟨w, hnb, by omega⟩, fun m w2 hw2 => ⟨w2, hw2, le_refl _⟩, by omega⟩
    | none =>
      -- unreachable in fact (ltOpt of none is true), handled as an update
      have hlto : ltOpt (v + 1) (dlookup s2.gScore nb) = true := by
        rw [hnb]
        rfl
      have hrelax : relax goal cur (some v) s2 nb =
          { s2 with
            cameFrom := dset s2.cameFrom nb cur
            gScore := dset s2.gScore nb (v + 1)
            fScore := dset s2.fScore nb (v + 1 + manhattan nb goal)
            counter := s2.counter + 1
            openHeap := (v + 1 + manhattan nb goal, s2.counter + 1, nb) :: s2.openHeap } := by
        unfold relax
        rw [if_neg hnbc]
        simp only [hlto, if_pos]
      have hnbstart : nb ≠ start := by
        intro hh
        subst hh
        rw [hR.gstart] at hnb
        cases hnb
      rw [hrelax]
      have hgself : dlookup (dset s2.gScore nb (v + 1)) nb = some (v + 1) :=
        dlookup_dset_self _ _ _
      have hgne : ∀ m, m ≠ nb → dlookup (dset s2.gScore nb (v + 1)) m = dlookup s2.gScore m :=
        fun m hm => dlookup_dset_ne _ _ _ _ hm
      have hcself : dlookup (dset s2.cameFrom nb cur) nb = some cur :=
        dlookup_dset_self _ _ _
      have hcne : ∀ m, m ≠ nb → dlookup (dset s2.cameFrom nb cur) m = dlookup s2.cameFrom m :=
        fun m hm => dlookup_dset_ne _ _ _ _ hm
      refine ⟨?_, ⟨v + 1, hgself, le_refl _⟩, ?_, by simp⟩
      · refine ⟨?_, ?_, ?_, ?_, ?_, ?_, ?_, ?_, ?_, ?_, ?_, ?_, ?_, ?_, ?_⟩
        · rw [hgne start (fun hh => hnbstart hh.symm)]; exact hR.gstart
        · rw [hcne start (fun hh => hnbstart hh.symm)]; exact hR.cfstart
        ·
          intro n hns
          by_cases hn : n = nb
          · subst hn
            rw [hgself, hcself]
            simp
          · rw [hgne n hn, hcne n hn]
            exact hR.gdom n hns
        ·
          intro n hsome
          by_cases hn : n = nb
          · subst hn
            exact hstep.walk
          · rw [hgne n hn] at hsome
            exact hR.gwalk n hsome
        ·
          intro n p hp
          by_cases hn : n = nb
          · subst hn
            rw [hcself] at hp
            cases hp
            exact hstep
          · rw [hcne n hn] at hp
            exact hR.cfstep n p hp
        ·
          intro n p vn hp hgn
          by_cases hn : n = nb
          · subst hn
            rw [hcself] at hp
            cases hp
            rw [hgself] at hgn
            cases hgn
            refine ⟨v, ?_, le_refl _⟩
            rw [hgne cur (fun hh => hnbcur hh.symm)]
            exact hR.gcur
          · rw [hcne n hn] at hp
            rw [hgne n hn] at hgn
            obtain ⟨vp, hvp, hvple⟩ := hR.cfg n p vn hp hgn
            by_cases hpn : p = nb
            · subst hpn
              rw [hnb] at hvp
              cases hvp
            · exact ⟨vp, by rw [hgne p hpn]; exact hvp, hvple⟩
        · exact hR.closedEq
        · rw [hgne cur (fun hh => hnbcur hh.symm)]; exact hR.gcur
        · exact hR.distCur
        ·
          intro n hn
          have hnnb : n ≠ nb := by
            intro hh
            subst hh
            rw [hR.closedEq] at hnbc
            exact hnbc (List.mem_cons_of_mem _ hn)
          obtain ⟨w2, hw2, hw2d⟩ := hR.closedOptOld n hn
          exact ⟨w2, by rw [hgne n hnnb]; exact hw2, hw2d⟩
        ·
          intro n hn nb2 hstep2
          have hnnb : n ≠ nb := by
            intro hh
            subst hh
            rw [hR.closedEq] at hnbc
            exact hnbc (List.mem_cons_of_mem _ hn)
          obtain ⟨vn, vb, hvn, hvb, hle⟩ := hR.closedExpOld n hn nb2 hstep2
          by_cases hnb2 : nb2 = nb
          · subst hnb2
            rw [hnb] at hvb
            cases hvb
          · exact ⟨vn, vb, by rw [hgne n hnnb]; exact hvn, by rw [hgne nb2 hnb2]; exact hvb, hle⟩
        ·
          intro n w2 hg hncl
          by_cases hn : n = nb
          · subst hn
            rw [hgself] at hg
            cases hg
            exact ⟨s2.counter + 1, List.mem_cons_self _ _⟩
          · rw [hgne n hn] at hg
            obtain ⟨c2, hc2⟩ := hR.openEntry n w2 hg hncl
            exact ⟨c2, List.mem_cons_of_mem _ hc2⟩
        ·
          intro e he
          rcases List.mem_cons.mp he with rfl | he
          · exact ⟨v + 1, hgself, le_refl _⟩
          · obtain ⟨w2, hw2, hw2le⟩ := hR.heapG e he
            by_cases hn : e.2.2 = nb
            · rw [hn] at hw2
              rw [hnb] at hw2
              cases hw2
            · exact ⟨w2, by rw [hgne _ hn]; exact hw2, hw2le⟩
        · exact hR.closedNd
        · exact hR.goalNc
      · intro m w2 hw2
        by_cases hm : m = nb
        · subst hm
          rw [hnb] at hw2
          cases hw2
        · exact ⟨w2, by rw [hgne m hm]; exact hw2, le_refl _⟩

end Planner

namespace Planner

theorem relax_fold {g : Grid} {start goal cur : Node} {v : Nat} {oldClosed : List Node} :
    ∀ (todo : List Node) (s2 : AS),
      (∀ nb ∈ todo, Step g cur nb) →
      RInv g start goal cur v oldClosed s2 →
      (∀ nb, Step g cur nb → nb ∉ todo →
        ∃ vb, dlookup s2.gScore nb = some vb ∧ vb ≤ v + 1) →
      RInv g start goal cur v oldClosed (todo.foldl (relax goal cur (some v)) s2) ∧
      (∀ nb, Step g cur nb →
        ∃ vb, dlookup (todo.foldl (relax goal cur (some v)) s2).gScore nb = some vb ∧
          vb ≤ v + 1) ∧
      (todo.foldl (relax goal cur (some v)) s2).openHeap.length ≤
        s2.openHeap.length + todo.length := by
  intro todo
  induction todo with
  | nil =>
    intro s2 hsteps hR hdone
    exact ⟨hR, fun nb hs => hdone nb hs (by simp), by simp⟩
  | cons nb todo2 ih =>
    intro s2 hsteps hR hdone
    have hstep : Step g cur nb := hsteps nb (List.mem_cons_self _ _)
    obtain ⟨hR2, hvb, hmono, hlen⟩ := relax_step hstep hR
    have hdone2 : ∀ nb0, Step g cur nb0 → nb0 ∉ todo2 →
        ∃ vb, dlookup (relax goal cur (some v) s2 nb).gScore nb0 = some vb ∧ vb ≤ v + 1 := by
      intro nb0 hs0 hnot
      by_cases heq : nb0 = nb
      · subst heq
        exact hvb
      · obtain ⟨vb, hvb0, hvble⟩ := hdone nb0 hs0 (by
          intro hmem
          rcases List.mem_cons.mp hmem with hh | hh
          · exact heq hh
          · exact hnot hh)
        obtain ⟨w2, hw2, hw2le⟩ := hmono nb0 vb hvb0
        exact ⟨w2, hw2, by omega⟩
    obtain ⟨hR3, hall, hlen2⟩ := ih (relax goal cur (some v) s2 nb)
      (fun x hx => hsteps x (List.mem_cons_of_mem _ hx)) hR2 hdone2
    refine ⟨hR3, hall, ?_⟩
    simp only [List.foldl_cons] at *
    simp only [List.length_cons]
    omega

theorem popMin_mem_of_rest {l r : List (Nat × Nat × Node)} {e x : Nat × Nat × Node}
    (h : popMin l = some (e, r)) (hx : x ∈ r) : x ∈ l := by
  obtain ⟨hperm, -⟩ := popMin_spec h
  exact hperm.mem_iff.mpr (List.mem_cons_of_mem _ hx)

theorem popMin_mem_rest {l r : List (Nat × Nat × Node)} {e x : Nat × Nat × Node}
    (h : popMin l = some (e, r)) (hx : x ∈ l) (hne : x.2.2 ≠ e.2.2) : x ∈ r := by
  obtain ⟨hperm, -⟩ := popMin_spec h
  rcases List.mem_cons.mp (hperm.mem_iff.mp hx) with rfl | hh
  · exact absurd rfl hne
  · exact hh

theorem popMin_length {l r : List (Nat × Nat × Node)} {e : Nat × Nat × Node}
    (h : popMin l = some (e, r)) : l.length = r.length + 1 := by
  obtain ⟨hperm, -⟩ := popMin_spec h
  simpa using hperm.length_eq

theorem skip_ainv {g : Grid} {start goal : Node} {s : AS} {f c : Nat} {cur : Node}
    {rest : List (Nat × Nat × Node)} (h : AInv g start goal s)
    (hpop : popMin s.openHeap = some ((f, c, cur), rest)) (hcc : cur ∈ s.closed) :
    AInv g start goal { s with openHeap := rest } := by
  refine ⟨h.gstart, h.cfstart, h.gdom, h.gwalk, h.cfstep, h.cfg, h.closedOpt, h.closedExp,
    ?_, ?_, h.closedNodup, h.goalNotClosed⟩
  · intro n w hg hnc
    obtain ⟨c2, hc2⟩ := h.openEntry n w hg hnc
    refine ⟨c2, popMin_mem_rest hpop hc2 ?_⟩
    intro hh
    simp only at hh
    subst hh
    exact hnc hcc
  · intro e he
    exact h.heapG e (popMin_mem_of_rest hpop he)

theorem expand_ainv {g : Grid} {start goal : Node} {s : AS} {f c : Nat} {cur : Node}
    {rest : List (Nat × Nat × Node)} {v : Nat} (h : AInv g start goal s)
    (hpop : popMin s.openHeap = some ((f, c, cur), rest)) (hnc : cur ∉ s.closed)
    (hng : cur ≠ goal) (hgv : dlookup s.gScore cur = some v)
    (hdist : IsDist g start cur v) :
    AInv g start goal (expand g goal cur { s with openHeap := rest }) ∧
    (expand g goal cur { s with openHeap := rest }).openHeap.length ≤ rest.length + 4 ∧
    (expand g goal cur { s with openHeap := rest }).closed = cur :: s.closed := by
  have hR0 : RInv g start goal cur v s.closed
      { s with openHeap := rest, closed := cur :: s.closed } := by
    refine ⟨h.gstart, h.cfstart, h.gdom, h.gwalk, h.cfstep, h.cfg, rfl, hgv, hdist,
      ?_, ?_, ?_, ?_, ?_, ?_⟩
    · intro n hn
      exact h.closedOpt n hn
    · intro n hn nb hs
      exact h.closedExp n hn nb hs
    · intro n w hg hncl
      simp only [List.mem_cons, not_or] at hncl
      obtain ⟨c2, hc2⟩ := h.openEntry n w hg hncl.2
      refine ⟨c2, popMin_mem_rest hpop hc2 ?_⟩
      intro hh
      simp only at hh
      exact hncl.1 hh
    · intro e he
      exact h.heapG e (popMin_mem_of_rest hpop he)
    · exact List.nodup_cons.mpr ⟨hnc, h.closedNodup⟩
    · intro hh
      rcases List.mem_cons.mp hh with hh2 | hh2
      · exact hng hh2.symm
      · exact h.goalNotClosed hh2
  have hexp : expand g goal cur { s with openHeap := rest } =
      (neighbors g cur).foldl (relax goal cur (some v))
        { s with openHeap := rest, closed := cur :: s.closed } := by
    unfold expand
    simp only
    rw [hgv]
  obtain ⟨hR, hall, hlen⟩ := relax_fold (neighbors g cur)
    { s with openHeap := rest, closed := cur :: s.closed }
    (fun nb hnb => hnb) hR0
    (fun nb hs hnot => absurd hs hnot)
  rw [hexp]
  refine ⟨?_, ?_, hR.closedEq⟩
  · refine ⟨hR.gstart, hR.cfstart, hR.gdom, hR.gwalk, hR.cfstep, hR.cfg, ?_, ?_, hR.openEntry,
      hR.heapG, by rw [hR.closedEq]; exact hR.closedNd, by rw [hR.closedEq]; exact hR.goalNc⟩
    · intro n hn
      rw [hR.closedEq] at hn
      rcases List.mem_cons.mp hn with rfl | hn
      · exact ⟨v, hR.gcur, hR.distCur⟩
      · exact hR.closedOptOld n hn
    · intro n hn nb hs
      rw [hR.closedEq] at hn
      rcases List.mem_cons.mp hn with rfl | hn
      · obtain ⟨vb, hvb, hvble⟩ := hall nb hs
        exact ⟨v, vb, hR.gcur, hvb, hvble⟩
      · exact hR.closedExpOld n hn nb hs
  · have h4 := neighbors_length_le (g := g) cur
    simp only at hlen
    omega

end Planner

namespace Planner

theorem rpGo_spec {g : Grid} {start goal : Node} {s : AS} (h : AInv g start goal s) :
    ∀ v n, dlookup s.gScore n = some v → ∀ fuel, v + 1 ≤ fuel → ∀ acc,
      ∃ chain, rpGo s.cameFrom fuel n acc = (acc ++ chain).reverse ∧
        PathBetween g start n (chain.reverse ++ [n]) ∧ chain.length ≤ v := by
  intro v
  induction v using Nat.strong_induction_on with
  | _ v ih =>
    intro n hg fuel hfuel acc
    obtain ⟨fu, rfl⟩ : ∃ fu, fuel = fu + 1 := ⟨fuel - 1, by omega⟩
    cases hcf : dlookup s.cameFrom n with
    | none =>
      have hns : n = start := by
        by_contra hne
        have hsome := (h.gdom n hne).mp (by rw [hg]; rfl)
        rw [hcf] at hsome
        simp at hsome
      refine ⟨[], ?_, ?_, by simp⟩
      · simp [rpGo, hcf]
      · subst hns
        simpa using pathBetween_singleton g n
    | some q =>
      obtain ⟨vq, hgq, hvq⟩ := h.cfg n q v hcf hg
      have hstep := h.cfstep n q hcf
      have hlt : vq < v := by omega
      obtain ⟨chainq, hrp, hpath, hlen⟩ := ih vq hlt q hgq fu (by omega) (acc ++ [q])
      refine ⟨q :: chainq, ?_, ?_, ?_⟩
      · simp only [rpGo, hcf]
        rw [hrp, List.append_assoc]
        rfl
      · have heq : (q :: chainq).reverse ++ [n] = (chainq.reverse ++ [q]) ++ [n] := by simp
        rw [heq]
        exact pathBetween_concat hpath hstep
      · simp only [List.length_cons]
        omega

theorem reconstruct_spec {g : Grid} {start goal : Node} {s : AS} (h : AInv g start goal s)
    {v : Nat} (hga : dlookup s.gScore goal = some v) (hdist : IsDist g start goal v) :
    PathBetween g start goal (reconstructPath s.cameFrom goal) ∧
    (reconstructPath s.cameFrom goal).length = v + 1 := by
  obtain ⟨p, hp, hplen, hpnd, hpvals, hpkeys⟩ := ainv_g_reach h v goal hga
  have hpexact : p.length = v + 1 := le_antisymm hplen (hdist.2 p hp)
  have hfilter : (p.filter (fun x => decide (x ≠ start))).length ≤ s.cameFrom.length := by
    have hnd2 : (p.filter (fun x => decide (x ≠ start))).Nodup := hpnd.filter _
    have hsub : ∀ x ∈ p.filter (fun x => decide (x ≠ start)), x ∈ s.cameFrom.map Prod.fst := by
      intro x hx
      rw [List.mem_filter] at hx
      exact hpkeys x hx.1 (by simpa using hx.2)
    have hle := nodup_subset_length_le hnd2 hsub
    simpa using hle
  have hcount : p.length ≤ (p.filter (fun x => decide (x ≠ start))).length + 1 := by
    have hsplit := List.length_eq_countP_add_countP (fun x => decide (x ≠ start)) (l := p)
    have hcp : p.countP (fun x => decide (x ≠ start)) =
        (p.filter (fun x => decide (x ≠ start))).length :=
      List.countP_eq_length_filter _ _
    have hone : p.countP (fun a => decide ¬(decide (a ≠ start) = true)) ≤ 1 := by
      rw [List.countP_eq_length_filter]
      have hnd2 : (p.filter (fun a => decide ¬(decide (a ≠ start) = true))).Nodup :=
        hpnd.filter _
      have hall : ∀ x ∈ p.filter (fun a => decide ¬(decide (a ≠ start) = true)), x = start := by
        intro x hx
        rw [List.mem_filter] at hx
        have hh := hx.2
        simp at hh
        exact hh
      exact nodup_all_eq_length_le_one hnd2 hall
    omega
  have hvle : v ≤ s.cameFrom.length := by
    omega
  obtain ⟨chain, hrp, hpath, hclen⟩ :=
    rpGo_spec h v goal hga (s.cameFrom.length + 1) (by omega) [goal]
  unfold reconstructPath
  rw [hrp]
  have heq : ([goal] ++ chain).reverse = chain.reverse ++ [goal] := by simp
  rw [heq]
  refine ⟨hpath, ?_⟩
  have hlen2 := hdist.2 _ hpath
  simp only [List.length_append, List.length_reverse, List.length_singleton] at hlen2 ⊢
  omega

end Planner

namespace Planner

/-- The initial search state of `astar`. -/
def initAS (start goal : Node) : AS :=
  { openHeap := [(manhattan start goal, 0, start)]
    gScore := [(start, 0)]
    fScore := [(start, manhattan start goal)]
    cameFrom := []
    counter := 0
    closed := [] }

theorem ainv_init {g : Grid} {start goal : Node} (hw : walk g start) :
    AInv g start goal (initAS start goal) := by
  have hlook : ∀ n, dlookup (initAS start goal).gScore n =
      if start = n then some 0 else none := by
    intro n
    show dlookup [(start, 0)] n = _
    rw [dlookup_cons]
    rfl
  refine ⟨?_, rfl, ?_, ?_, ?_, ?_, ?_, ?_, ?_, ?_, ?_, ?_⟩
  · rw [hlook]; simp
  · intro n hns
    rw [hlook, if_neg (fun hh => hns hh.symm)]
    simp [dlookup, initAS]
  · intro n hsome
    rw [hlook] at hsome
    by_cases hsn : start = n
    · rw [← hsn]; exact hw
    · rw [if_neg hsn] at hsome; simp at hsome
  · intro n p hp
    simp [dlookup, initAS] at hp
  · intro n p vn hp
    simp [dlookup, initAS] at hp
  · intro n hn
    simp [initAS] at hn
  · intro n hn
    simp [initAS] at hn
  · intro n w hg _
    rw [hlook] at hg
    by_cases hsn : start = n
    · rw [if_pos hsn] at hg
      cases hg
      refine ⟨0, ?_⟩
      rw [← hsn]
      show _ ∈ [(manhattan start goal, 0, start)]
      simp
    · rw [if_neg hsn] at hg; simp at hg
  · intro e he
    simp only [initAS, List.mem_singleton] at he
    subst he
    refine ⟨0, ?_, ?_⟩
    · rw [hlook]; simp
    · simp
  · exact List.nodup_nil
  · simp [initAS]

theorem astarLoop_spec {g : Grid} {start goal : Node} :
    ∀ (fuel : Nat) (s : AS), AInv g start goal s →
      s.openHeap.length + 4 * (cells g - s.closed.length) + 1 ≤ fuel →
      (Reaches g start goal →
        PathBetween g start goal (astarLoop g goal fuel s) ∧
        ∀ q, PathBetween g start goal q → (astarLoop g goal fuel s).length ≤ q.length) ∧
      (¬ Reaches g start goal → astarLoop g goal fuel s = []) := by
  intro fuel
  induction fuel using Nat.strong_induction_on with
  | _ fuel ih =>
    intro s hinv hfuel
    obtain ⟨fu, rfl⟩ : ∃ fu, fuel = fu + 1 := ⟨fuel - 1, by omega⟩
    cases hpop : popMin s.openHeap with
    | none =>
      have hempty : s.openHeap = [] := popMin_eq_none.mp hpop
      constructor
      · intro hreach
        exact absurd hempty (ainv_heap_ne hinv hreach)
      · intro _
        simp [astarLoop, hpop]
    | some pr =>
      rcases pr with ⟨⟨f, c, cur⟩, rest⟩
      have hrlen := popMin_length hpop
      by_cases hcg : cur = goal
      · have hnc : cur ∉ s.closed := by
          rw [hcg]
          exact hinv.goalNotClosed
        obtain ⟨v, hgv, hdist⟩ := ainv_pop_opt hinv hpop hnc
        rw [hcg] at hgv hdist
        obtain ⟨hpath, hlen⟩ := reconstruct_spec hinv hgv hdist
        have hloop : astarLoop g goal (fu + 1) s = reconstructPath s.cameFrom goal := by
          simp [astarLoop, hpop, hcg]
        rw [hloop]
        constructor
        · intro _
          refine ⟨hpath, fun q hq => ?_⟩
          have := hdist.2 q hq
          omega
        · intro hnreach
          exact absurd ⟨_, hpath⟩ hnreach
      · by_cases hcc : cur ∈ s.closed
        · have hloop : astarLoop g goal (fu + 1) s =
              astarLoop g goal fu { s with openHeap := rest } := by
            simp [astarLoop, hpop, hcg, hcc]
          rw [hloop]
          apply ih fu (by omega) _ (skip_ainv hinv hpop hcc)
          simp only
          omega
        · obtain ⟨v, hgv, hdist⟩ := ainv_pop_opt hinv hpop hcc
          obtain ⟨hinv2, hlen2, hclosed2⟩ := expand_ainv hinv hpop hcc hcg hgv hdist
          have hloop : astarLoop g goal (fu + 1) s =
              astarLoop g goal fu (expand g goal cur { s with openHeap := rest }) := by
            simp [astarLoop, hpop, hcg, hcc]
          rw [hloop]
          apply ih fu (by omega) _ hinv2
          have hclosedb : ∀ n ∈ cur :: s.closed, inB g n := by
            intro n hn
            rcases List.mem_cons.mp hn with rfl | hn
            · exact (hinv.gwalk n (by rw [hgv]; rfl)).1
            · obtain ⟨w, hw, -⟩ := hinv.closedOpt n hn
              exact (hinv.gwalk n (by rw [hw]; rfl)).1
          have hcnt : (cur :: s.closed).length ≤ cells g :=
            nodup_inB_length_le (List.nodup_cons.mpr ⟨hcc, hinv.closedNodup⟩) hclosedb
          rw [hclosed2]
          simp only [List.length_cons] at hcnt ⊢
          omega

end Planner

namespace Planner

theorem manhattan_eq_zero {a b : Node} : manhattan a b = 0 ↔ a = b := by
  unfold manhattan
  constructor
  · intro h
    have h1 : a.1 = b.1 := by omega
    have h2 : a.2 = b.2 := by omega
    exact Prod.ext h1 h2
  · intro h
    subst h
    omega

theorem all_walkable {g : Grid} (hrect : Rect g)
    (hall : ∀ row ∈ g, ∀ x ∈ row, x = 0) {n : Node} (hn : inB g n) : walk g n := by
  refine ⟨hn, ?_⟩
  obtain ⟨h1, h2, h3, h4⟩ := hn
  unfold cellVal
  have hr : n.1.toNat < g.length := by
    unfold rowsI at h2
    omega
  have hrow : g.getD n.1.toNat [] = g.get ⟨n.1.toNat, hr⟩ := by
    rw [List.getD_eq_getD_get?, List.get?_eq_get hr]
    rfl
  rw [hrow]
  have hmem := g.get_mem n.1.toNat hr
  have hlen : ((g.get ⟨n.1.toNat, hr⟩).length : Int) = colsI g := hrect.2.2 _ hmem
  have hc : n.2.toNat < (g.get ⟨n.1.toNat, hr⟩).length := by omega
  have hcell : (g.get ⟨n.1.toNat, hr⟩).getD n.2.toNat 1 =
      (g.get ⟨n.1.toNat, hr⟩).get ⟨n.2.toNat, hc⟩ := by
    rw [List.getD_eq_getD_get?, List.get?_eq_get hc]
    rfl
  rw [hcell]
  exact hall _ hmem _ (List.get_mem _ _ _)

theorem exists_manhattan_path {g : Grid} (hrect : Rect g)
    (hall : ∀ row ∈ g, ∀ x ∈ row, x = 0) {t : Node} (ht : inB g t) :
    ∀ k s, manhattan s t = k → inB g s →
      ∃ p, PathBetween g s t p ∧ p.length = manhattan s t + 1 := by
  intro k
  induction k using Nat.strong_induction_on with
  | _ k ih =>
    intro s hk hs
    by_cases hst : s = t
    · subst hst
      exact ⟨[s], pathBetween_singleton g s, by simp [manhattan_self]⟩
    · have hkpos : 1 ≤ k := by
        rcases Nat.eq_zero_or_pos k with h0 | h0
        · rw [h0] at hk
          exact absurd (manhattan_eq_zero.mp hk) hst
        · exact h0
      have hbuild : ∀ nx : Node, Step g s nx → manhattan nx t + 1 = manhattan s t →
          ∃ p, PathBetween g s t p ∧ p.length = manhattan s t + 1 := by
        intro nx hstep hm
        have hlt : manhattan nx t < k := by omega
        obtain ⟨p2, hp2, hlen2⟩ := ih (manhattan nx t) hlt nx rfl hstep.walk.1
        cases p2 with
        | nil => exact absurd hp2.1 (by simp)
        | cons a p3 =>
          have ha : a = nx := by
            have hh := hp2.1
            simp at hh
            exact hh
          subst ha
          refine ⟨s :: a :: p3, ⟨rfl, ?_, ?_⟩, ?_⟩
          · rw [List.getLast?_cons_cons]
            exact hp2.2.1
          · rw [List.chain'_cons]
            exact ⟨hstep, hp2.2.2⟩
          · simp only [List.length_cons] at hlen2 ⊢
            omega
      have hmkstep : ∀ nx : Node,
          (nx = (s.1 - 1, s.2) ∨ nx = (s.1 + 1, s.2) ∨ nx = (s.1, s.2 - 1) ∨
            nx = (s.1, s.2 + 1)) → inB g nx → Step g s nx := by
        intro nx hd hin
        exact mem_neighbors_iff.mpr ⟨hd, hin, (all_walkable hrect hall hin).2⟩
      obtain ⟨hs1, hs2, hs3, hs4⟩ := hs
      obtain ⟨ht1, ht2, ht3, ht4⟩ := ht
      rcases lt_trichotomy s.1 t.1 with h1 | h1 | h1
      · refine hbuild (s.1 + 1, s.2) (hmkstep _ (by tauto) ?_) ?_
        · exact ⟨by omega, by omega, hs3, hs4⟩
        · unfold manhattan
          simp only
          omega
      · rcases lt_trichotomy s.2 t.2 with h2 | h2 | h2
        · refine hbuild (s.1, s.2 + 1) (hmkstep _ (by tauto) ?_) ?_
          · exact ⟨hs1, hs2, by omega, by omega⟩
          · unfold manhattan
            simp only
            omega
        · exact absurd (Prod.ext h1 h2) hst
        · refine hbuild (s.1, s.2 - 1) (hmkstep _ (by tauto) ?_) ?_
          · exact ⟨hs1, hs2, by omega, by omega⟩
          · unfold manhattan
            simp only
            omega
      · refine hbuild (s.1 - 1, s.2) (hmkstep _ (by tauto) ?_) ?_
        · exact ⟨by omega, by omega, hs3, hs4⟩
        · unfold manhattan
          simp only
          omega

theorem astarLoop_self (g : Grid) (start : Node) (F : Nat) :
    astarLoop g start (F + 1) (initAS start start) = [start] := by
  simp [astarLoop, initAS, popMin, reconstructPath, rpGo, dlookup]

theorem astar_run (g : Grid) (start goal : Node) (hs : walk g start) (ht : walk g goal) :
    astar g start goal =
      .ok (astarLoop g goal (4 * g.length * (g.headD []).length + 2) (initAS start goal)) := by
  unfold astar
  rw [if_neg (by simp [hs.1]), if_neg (by simp [ht.1]), if_neg (by simp [hs.2]),
    if_neg (by simp [ht.2])]
  rfl

theorem astar_fuel_le (g : Grid) (start goal : Node) :
    (initAS start goal).openHeap.length +
        4 * (cells g - (initAS start goal).closed.length) + 1 ≤
      4 * g.length * (g.headD []).length + 2 := by
  have hm : 4 * g.length * (g.headD []).length = 4 * cells g := by
    unfold cells
    ring
  have h1 : (initAS start goal).openHeap.length = 1 := rfl
  have h2 : (initAS start goal).closed.length = 0 := rfl
  rw [h1, h2, hm]
  omega

end Planner

namespace Planner

theorem reaches_open_grid : Reaches [[0, 0], [0, 0]] ((0 : Int), (0 : Int)) (1, 1) := by
  refine ⟨[(0, 0), (1, 0), (1, 1)], rfl, rfl, ?_⟩
  simp only [List.chain'_cons]
  exact ⟨by decide, by decide, List.chain'_singleton _⟩

theorem reaches_wall_grid : Reaches [[0, 1], [0, 0]] ((0 : Int), (0 : Int)) (1, 1) := by
  refine ⟨[(0, 0), (1, 0), (1, 1)], rfl, rfl, ?_⟩
  simp only [List.chain'_cons]
  exact ⟨by decide, by decide, List.chain'_singleton _⟩

/-- C2: for every rectangular grid and every in-bounds walkable start and
goal joined by some walkable 4-connected route, `astar` returns (without
error) a non-empty path whose first cell is `start`, whose last cell is
`goal`, and in which every consecutive pair of cells is 4-adjacent; when
`start = goal` the returned path is exactly `[start]`. -/
theorem astar_finds_path (g : Grid) (start goal : Node) (hrect : Rect g)
    (hs : walk g start) (ht : walk g goal) (hreach : Reaches g start goal) :
    ∃ p, astar g start goal = .ok p ∧ p ≠ [] ∧ p.head? = some start ∧
      p.getLast? = some goal ∧ List.Chain' Adj p ∧ (start = goal → p = [start]) := by
  have hok := astar_run g start goal hs ht
  obtain ⟨hyes, -⟩ := astarLoop_spec (4 * g.length * (g.headD []).length + 2)
    (initAS start goal) (ainv_init hs) (astar_fuel_le g start goal)
  obtain ⟨hpath, hmin⟩ := hyes hreach
  refine ⟨_, hok, pathBetween_ne_nil hpath, hpath.1, hpath.2.1,
    List.Chain'.imp (fun a b hab => hab.adj) hpath.2.2, ?_⟩
  intro heq
  subst heq
  obtain ⟨F, hF⟩ : ∃ F, 4 * g.length * (g.headD []).length + 2 = F + 1 :=
    ⟨4 * g.length * (g.headD []).length + 1, by omega⟩
  rw [hF]
  exact astarLoop_self g start F

/-- Witness for C2 on the concrete open 2x2 grid with start (0,0) and goal
(1,1): the hypotheses hold and astar returns a valid 3-cell path. -/
theorem astar_finds_path_witness :
    Rect [[0, 0], [0, 0]] ∧ walk [[0, 0], [0, 0]] ((0 : Int), (0 : Int)) ∧
    walk [[0, 0], [0, 0]] ((1 : Int), (1 : Int)) ∧
    Reaches [[0, 0], [0, 0]] (0, 0) (1, 1) ∧
    (∃ p, astar [[0, 0], [0, 0]] (0, 0) (1, 1) = .ok p ∧ p ≠ [] ∧
      p.head? = some (0, 0) ∧ p.getLast? = some (1, 1) ∧ List.Chain' Adj p ∧
      (((0 : Int), (0 : Int)) = ((1 : Int), (1 : Int)) → p = [(0, 0)])) := by
  refine ⟨by decide, by decide, by decide, reaches_open_grid, ?_⟩
  exact astar_finds_path [[0, 0], [0, 0]] (0, 0) (1, 1) (by decide) (by decide) (by decide)
    reaches_open_grid

/-- C3: for every rectangular grid and every in-bounds walkable start and
goal joined by some walkable route, the path `astar` returns is a valid
route of minimal length among all walkable 4-connected routes; its length
is therefore at least `manhattan(start, goal) + 1`, with equality whenever
the grid contains no obstacle at all. -/
theorem astar_shortest_path (g : Grid) (start goal : Node) (hrect : Rect g)
    (hs : walk g start) (ht : walk g goal) (hreach : Reaches g start goal) :
    ∃ p, astar g start goal = .ok p ∧ PathBetween g start goal p ∧
      (∀ q, PathBetween g start goal q → p.length ≤ q.length) ∧
      manhattan start goal + 1 ≤ p.length ∧
      ((∀ row ∈ g, ∀ x ∈ row, x = 0) → p.length = manhattan start goal + 1) := by
  have hok := astar_run g start goal hs ht
  obtain ⟨hyes, -⟩ := astarLoop_spec (4 * g.length * (g.headD []).length + 2)
    (initAS start goal) (ainv_init hs) (astar_fuel_le g start goal)
  obtain ⟨hpath, hmin⟩ := hyes hreach
  refine ⟨_, hok, hpath, hmin, pathBetween_length_ge hpath, ?_⟩
  intro hall
  obtain ⟨pm, hpm, hpml⟩ :=
    exists_manhattan_path hrect hall ht.1 (manhattan start goal) start rfl hs.1
  have h1 := hmin pm hpm
  have h2 := pathBetween_length_ge hpath
  omega

/-- Witness for C3 on a 2x2 grid with one wall: the returned path has the
optimal length 3, which also equals manhattan + 1 on the obstacle-free
variant. -/
theorem astar_shortest_path_witness :
    Rect [[0, 1], [0, 0]] ∧ walk [[0, 1], [0, 0]] ((0 : Int), (0 : Int)) ∧
    walk [[0, 1], [0, 0]] ((1 : Int), (1 : Int)) ∧
    Reaches [[0, 1], [0, 0]] (0, 0) (1, 1) ∧
    (∃ p, astar [[0, 1], [0, 0]] (0, 0) (1, 1) = .ok p ∧
      PathBetween [[0, 1], [0, 0]] (0, 0) (1, 1) p ∧
      (∀ q, PathBetween [[0, 1], [0, 0]] (0, 0) (1, 1) q → p.length ≤ q.length) ∧
      manhattan (0, 0) (1, 1) + 1 ≤ p.length ∧
      ((∀ row ∈ [[0, 1], [0, 0]], ∀ x ∈ row, x = 0) →
        p.length = manhattan (0, 0) (1, 1) + 1)) := by
  refine ⟨by decide, by decide, by decide, reaches_wall_grid, ?_⟩
  exact astar_shortest_path [[0, 1], [0, 0]] (0, 0) (1, 1) (by decide) (by decide) (by decide)
    reaches_wall_grid

/-- C8: for every rectangular grid and every in-bounds walkable start and
goal with no walkable 4-connected route between them, `astar` returns the
empty path and raises no error: no path found is a normal result. -/
theorem astar_no_route (g : Grid) (start goal : Node) (hrect : Rect g)
    (hs : walk g start) (ht : walk g goal) (hnreach : ¬ Reaches g start goal) :
    astar g start goal = .ok [] := by
  have hok := astar_run g start goal hs ht
  obtain ⟨-, hno⟩ := astarLoop_spec (4 * g.length * (g.headD []).length + 2)
    (initAS start goal) (ainv_init hs) (astar_fuel_le g start goal)
  rw [hok, hno hnreach]

theorem no_route_example : ¬ Reaches [[0, 1], [1, 0]] ((0 : Int), (0 : Int)) (1, 1) := by
  rintro ⟨p, h1, h2, h3⟩
  cases p with
  | nil => simp at h1
  | cons a l =>
    simp at h1
    subst h1
    cases l with
    | nil => simp at h2
    | cons b l2 =>
      rw [List.chain'_cons] at h3
      have hn : neighbors [[0, 1], [1, 0]] ((0 : Int), (0 : Int)) = [] := by decide
      have hstep : b ∈ neighbors [[0, 1], [1, 0]] ((0 : Int), (0 : Int)) := h3.1
      rw [hn] at hstep
      simp at hstep

/-- Witness for C8: an isolated start on a concrete 2x2 grid yields the
empty path with no error. -/
theorem astar_no_route_witness :
    Rect [[0, 1], [1, 0]] ∧ walk [[0, 1], [1, 0]] ((0 : Int), (0 : Int)) ∧
    walk [[0, 1], [1, 0]] ((1 : Int), (1 : Int)) ∧
    astar [[0, 1], [1, 0]] (0, 0) (1, 1) = .ok [] := by
  refine ⟨by decide, by decide, by decide, ?_⟩
  exact astar_no_route [[0, 1], [1, 0]] (0, 0) (1, 1) (by decide) (by decide) (by decide)
    no_route_example

end Planner

namespace Server

/-- The shape of a `destination` value in a `request_route` payload:
a string name, a 2-element coordinate list, or anything else. -/
inductive Dst where
  | name (s : String)
  | coords (r c : Int)
  | other
deriving DecidableEq, Repr

/-- The JSON payload object of a message, restricted to the keys the server
reads (`target`, `device_id`, `broadcast`, `text`, `destination`,
`start_location`, `location`); `truthy` models the Python truthiness of the
whole dict for the `if payload:` test. -/
structure Payload where
  target : Option String := none
  device_id : Option String := none
  broadcast : Bool := false
  text : String := ""
  destination : Option Dst := none
  start_location : Option (Int × Int) := none
  location : Option (Int × Int) := none
  truthy : Bool := false
deriving DecidableEq, Repr

/-- `meta.update(payload)` restricted to the tracked keys: a key present in
the payload wins, otherwise the stored value is kept.  Of these keys, only
`location` is ever read back from a stored meta (by `request_route`). -/
def Payload.merge (m p : Payload) : Payload :=
  { target := p.target.orElse fun _ => m.target
    device_id := p.device_id.orElse fun _ => m.device_id
    broadcast := p.broadcast || m.broadcast
    text := if p.text = "" then m.text else p.text
    destination := p.destination.orElse fun _ => m.destination
    start_location := p.start_location.orElse fun _ => m.start_location
    location := p.location.orElse fun _ => m.location
    truthy := m.truthy || p.truthy }

/-- One entry of `ConnectionManager.devices`: the endpoint handle `ws`,
role, metadata, last-seen time and emergency flag. -/
structure DeviceInfo where
  ws : Nat
  role : String
  meta : Payload
  last_seen : Int
  emergency : Bool
deriving DecidableEq, Repr

/-- The `ConnectionManager` state: the `devices` dict (insertion-ordered,
unique keys) and the `unregistered` socket set. -/
structure Manager where
  devices : List (String × DeviceInfo)
  unregistered : List Nat
deriving DecidableEq, Repr

/-- Python truthiness of an optional string: `None` and `""` are falsy. -/
def pyTruthyS : Option String → Bool
  | none => false
  | some s => !s.isEmpty

/-- Python `a or b` on optional strings. -/
def pyOrS (a b : Option String) : Option String := if pyTruthyS a then a else b

/-- Python `a or default` producing a string. -/
def pyOrD (a : Option String) (d : String) : String :=
  match a with
  | some s => if s.isEmpty then d else s
  | none => d

/-- Python `ts or time.time()`: `None` and `0` are falsy. -/
def pyOrTs (ts : Option Int) (now : Int) : Int :=
  match ts with
  | some t => if t = 0 then now else t
  | none => now

/-- The sockets of the registered frontend-role entries, in registry order:
the recipients of `broadcast_to_frontends`. -/
def frontWs (st : Manager) : List Nat :=
  (st.devices.filter (fun e => decide (e.2.role = "frontend"))).map (fun e => e.2.ws)

/-- The registered pi-role entries, in registry order. -/
def piEntries (st : Manager) : List (String × DeviceInfo) :=
  st.devices.filter (fun e => decide (e.2.role = "pi"))

/-- A message pushed to frontend connections by `broadcast_to_frontends`. -/
inductive FrontMsg where
  | deviceConnected (device_id role : String) (ts : Int)
  | deviceDisconnected (device_id : String) (ts : Int)
  | telemetry (from_ : String) (ptype : String) (payload : Payload) (ts : Option Int)
  | emergencyBroadcast (from_ : Option String) (sent_to total_devices : Nat) (ts : Int)
  | emergencyCleared (device_id : Option String) (ts : Int)
  | other (from_ : String) (action ptype : Option String) (payload : Payload) (ts : Option Int)
deriving DecidableEq, Repr

/-- A message sent to a device connection: the control envelope built by the
router, or the `execute_route` command carrying planner waypoints. -/
inductive OutMsg where
  | envelope (from_ : String) (ptype : Option String) (payload : Payload) (ts : Option Int)
  | executeRoute (from_ : String) (waypoints : List Planner.Waypoint) (goal_name : String)
deriving DecidableEq, Repr

/-- Pending work of the disconnect/broadcast cascade: a failed send to a
peer disconnects it, which broadcasts `device_disconnected` to frontends,
whose failed sends disconnect further peers, and so on. -/
inductive Cmd where
  | disc (w : Nat)
  | bcast (m : FrontMsg)

/-- Runs one cascade step.  `sendOk` tells which sockets accept a send;
sends to frontends mutate no state except through failure cascades.  `fuel`
bounds the cascade depth; the wrappers pass `2 * devices + 2`, which covers
any cascade because every nested disconnect removes at least one device. -/
def runCmd (sendOk : Nat → Bool) (now : Int) : Nat → Manager → Cmd → Manager
  | 0, st, _ => st
  | fuel + 1, st, c =>
    match c with
    | .disc w =>
      let removed := (st.devices.filter (fun e => decide (e.2.ws = w))).map Prod.fst
      let st1 : Manager :=
        ⟨st.devices.filter (fun e => decide (e.2.ws ≠ w)),
         st.unregistered.filter (fun x => decide (x ≠ w))⟩
      removed.foldl
        (fun acc did => runCmd sendOk now fuel acc (.bcast (.deviceDisconnected did now))) st1
    | .bcast _ =>
      (frontWs st).foldl
        (fun acc w2 => if sendOk w2 then acc else runCmd sendOk now fuel acc (.disc w2)) st

/-- `ConnectionManager.disconnect(websocket)`. -/
def disconnectWs (sendOk : Nat → Bool) (now : Int) (st : Manager) (w : Nat) : Manager :=
  runCmd sendOk now (2 * st.devices.length + 2) st (.disc w)

/-- `ConnectionManager.broadcast_to_frontends(payload)`. -/
def broadcastToFrontends (sendOk : Nat → Bool) (now : Int) (st : Manager) (m : FrontMsg) :
    Manager :=
  runCmd sendOk now (2 * st.devices.length + 2) st (.bcast m)

/-- `ConnectionManager.connect(websocket)`: accept and add to `unregistered`. -/
def connect (st : Manager) (w : Nat) : Manager :=
  ⟨st.devices, if w ∈ st.unregistered then st.unregistered else st.unregistered ++ [w]⟩

/-- `ConnectionManager.register(websocket, device_id, role, meta)`: drop the
socket from `unregistered`, evict any entry bound to the same socket,
install the fresh entry, and notify frontends when a pi registered.
(`discovered_devices` bookkeeping is out of the claims and omitted.) -/
def register (sendOk : Nat → Bool) (now : Int) (st : Manager) (w : Nat)
    (device_id role : String) (meta : Payload) : Manager :=
  let devs1 := st.devices.filter (fun e => decide (e.2.ws ≠ w))
  let devs2 := dset devs1 device_id ⟨w, role, meta, now, false⟩
  let st1 : Manager := ⟨devs2, st.unregistered.filter (fun x => decide (x ≠ w))⟩
  if role = "pi" then broadcastToFrontends sendOk now st1 (.deviceConnected device_id role now)
  else st1

/-- `ConnectionManager.send_to_device(device_id, payload)`: one delivery
attempt when the device is registered; a failed send disconnects it.  Also
returns the attempt list for bookkeeping. -/
def sendToDevice (sendOk : Nat → Bool) (now : Int) (st : Manager) (device_id : String)
    (msg : OutMsg) : Manager × Bool × List (String × OutMsg) :=
  match dlookup st.devices device_id with
  | none => (st, false, [])
  | some info =>
    if sendOk info.ws then (st, true, [(device_id, msg)])
    else (disconnectWs sendOk now st info.ws, false, [(device_id, msg)])

/-- `ConnectionManager.broadcast_to_pis(payload)`. -/
def broadcastToPis (sendOk : Nat → Bool) (now : Int) (st : Manager) : Manager :=
  ((piEntries st).map (fun e => e.2.ws)).foldl
    (fun acc w => if sendOk w then acc else disconnectWs sendOk now acc w) st

/-- The `if device_id in self.devices: self.devices[device_id]["emergency"] = True`
step inside the emergency broadcast loop. -/
def setEmergencyIfPresent (st : Manager) (device_id : String) : Manager :=
  if (dlookup st.devices device_id).isSome then
    ⟨st.devices.map (fun e => if e.1 = device_id then (e.1, { e.2 with emergency := true }) else e),
     st.unregistered⟩
  else st

/-- Result of `emergency_broadcast_to_pis`: the new state, the success
count, the snapshot size, and the attempted sends (one per snapshot entry). -/
structure EBRes where
  st : Manager
  success : Nat
  total : Nat
  attempts : List (String × OutMsg)

/-- One iteration of the emergency broadcast loop: a successful send marks
the entry's emergency flag and bumps the count, a failed one disconnects
the endpoint. -/
def ebpStep (sendOk : Nat → Bool) (now : Int) (acc : Manager × Nat)
    (e : String × DeviceInfo) : Manager × Nat :=
  if sendOk e.2.ws then (setEmergencyIfPresent acc.1 e.1, acc.2 + 1)
  else (disconnectWs sendOk now acc.1 e.2.ws, acc.2)

/-- `ConnectionManager.emergency_broadcast_to_pis(payload)`: snapshot the pi
entries, send to each one, marking the emergency flag on success and
disconnecting on failure, and report the success count with the snapshot
size. -/
def emergencyBroadcastToPis (sendOk : Nat → Bool) (now : Int) (st : Manager) (msg : OutMsg) :
    EBRes :=
  let piDevices := piEntries st
  let r := piDevices.foldl (ebpStep sendOk now) (st, 0)
  ⟨r.1, r.2, piDevices.length, piDevices.map (fun e => (e.1, msg))⟩

/-- `ConnectionManager.clear_emergency_status(device_id)`: a truthy id
clears the flag on that entry when present; a falsy id (absent or empty
string) clears the flag on every entry. -/
def clearEmergencyStatus (st : Manager) (device_id : Option String) : Manager :=
  if pyTruthyS device_id then
    if (dlookup st.devices (device_id.getD "")).isSome then
      ⟨st.devices.map (fun e =>
          if e.1 = device_id.getD "" then (e.1, { e.2 with emergency := false }) else e),
       st.unregistered⟩
    else st
  else
    ⟨st.devices.map (fun e => (e.1, { e.2 with emergency := false })), st.unregistered⟩

/-- One row of `ConnectionManager.list_devices()`. -/
structure DeviceSnapshot where
  device_id : String
  role : String
  meta : Payload
  last_seen : Int
  emergency : Bool
deriving DecidableEq, Repr

/-- `ConnectionManager.list_devices()`. -/
def listDevices (st : Manager) : List DeviceSnapshot :=
  st.devices.map (fun e => ⟨e.1, e.2.role, e.2.meta, e.2.last_seen, e.2.emergency⟩)

end Server

namespace Server

/-- A parsed post-handshake websocket message (the fields the router reads). -/
structure Packet where
  action : Option String := none
  ptype : Option String := none
  payload : Payload := {}
  ts : Option Int := none
  device_id : Option String := none
  target : Option String := none
deriving DecidableEq, Repr

/-- A reply sent back on the sender socket; one constructor per `send_json`
literal of the websocket handler.  Constructors whose source dict carries an
"error" key are the error replies. -/
inductive Reply where
  | targetOffline (target : String)
  | micSent (action target : String)
  | emergencySent (devices_reached total_devices : Nat) (ts : Int)
  | targetNotFound
  | unknownDestination (destination : Option Dst)
  | noPathFound
  | routeCalculated (target : String) (waypoints : List Planner.Waypoint)
      (start goal : Int × Int)
  | planningFailed (msg : String)
  | noMapLoaded
  | missingQuickText
  | quickSentAll (text : String)
  | quickSent (target text : String)
  | missingTargetQuick
  | routeCommandSentAll (ptype : Option String)
  | routeCommandSent (target : String) (ptype : Option String)
  | missingTargetRoute
  | sentAll
  | sent (target : String)
  | missingTargetControl
  | echo (pkt : Packet)
deriving DecidableEq, Repr

/-- Whether the reply dict carries an "error" key in the source. -/
def Reply.isError : Reply → Bool
  | .targetOffline _ => true
  | .targetNotFound => true
  | .unknownDestination _ => true
  | .noPathFound => true
  | .planningFailed _ => true
  | .noMapLoaded => true
  | .missingQuickText => true
  | .missingTargetQuick => true
  | .missingTargetRoute => true
  | .missingTargetControl => true
  | _ => false

/-- Result of handling one websocket message: the new registry state, the
replies attempted on the sender socket, the per-device delivery attempts,
the `broadcast_to_pis` envelopes, the emergency-broadcast delivery attempts,
the messages the handler itself pushed to `broadcast_to_frontends`, and
whether a failed reply aborted the handler (tearing down the sender). -/
structure HRes where
  st : Manager
  replies : List Reply
  deviceSends : List (String × OutMsg)
  piBroadcasts : List OutMsg
  emergencySends : List (String × OutMsg)
  frontendBroadcasts : List FrontMsg
  aborted : Bool

/-- One `send_json(..., websocket)` to the sender: a failure tears the
sender connection down (the outer exception handler runs `disconnect`). -/
def replyStep (sendOk : Nat → Bool) (now : Int) (w : Nat) (st : Manager) : Manager × Bool :=
  if sendOk w then (st, true) else (disconnectWs sendOk now st w, false)

/-- A branch that only sends one reply to the sender. -/
def replyOnly (sendOk : Nat → Bool) (now : Int) (w : Nat) (st : Manager) (r : Reply) : HRes :=
  let p := replyStep sendOk now w st
  ⟨p.1, [r], [], [], [], [], !p.2⟩

/-- The `last_seen`/meta refresh the router performs under the lock for a
registered sender (server.py 451-456): `meta.update(payload)` only runs for a
truthy payload. -/
def metaUpdate (now : Int) (st0 : Manager) (src : String) (payload : Payload) : Manager :=
  if (dlookup st0.devices src).isSome then
    ⟨st0.devices.map (fun e =>
        if e.1 = src then
          (e.1, { e.2 with
                  last_seen := now,
                  meta := if payload.truthy then e.2.meta.merge payload else e.2.meta })
        else e),
     st0.unregistered⟩
  else st0

/-- The POI_MAP of named destinations. -/
def POI_MAP : List (String × (Int × Int)) :=
  [("kitchen", (1, 1)), ("living_room", (4, 4)), ("garage", (0, 0))]

/-- `POI_MAP[name]` lookup. -/
def poiLookup (s : String) : Option (Int × Int) :=
  (POI_MAP.find? (fun e => decide (e.1 = s))).map (·.2)

/-- Stand-in for Python `str(dest_raw)` used only as the opaque `goal_name`
label of the `execute_route` payload. -/
def destStr : Option Dst → String
  | some (.name s) => s
  | some (.coords r c) => toString r ++ "," ++ toString c
  | some .other => "?"
  | none => "None"

/-- The per-message dispatch of `websocket_endpoint` (server.py 436-653):
the `last_seen`/meta update, the pi telemetry forwards, the microphone
action fast path, the `control` branch with its emergency, navigation,
quick-command, route-command and generic target routing, and the fallback
forward/echo. `w`, `role` and `hid` are the sender socket and the
handshake-established role and device id. -/
def handlePacket (sendOk : Nat → Bool) (now : Int) (navGrid : Option Planner.Grid)
    (w : Nat) (role hid : String) (st0 : Manager) (pkt : Packet) : HRes :=
  let src := pkt.device_id.getD hid
  let payload := pkt.payload
  let act := pkt.action
  let ptype := pkt.ptype
  let ts := pkt.ts
  let st : Manager := metaUpdate now st0 src payload
  if act = some "telemetry" ∧ ptype = some "camera_frame" ∧ role = "pi" then
    let m := FrontMsg.telemetry src "camera_frame" payload ts
    ⟨broadcastToFrontends sendOk now st m, [], [], [], [], [m], false⟩
  else if act = some "telemetry" ∧ ptype = some "emergency_ack" ∧ role = "pi" then
    let m := FrontMsg.telemetry src "emergency_ack" payload ts
    let st1 := broadcastToFrontends sendOk now st m
    ⟨clearEmergencyStatus st1 (some src), [], [], [], [], [m], false⟩
  else if act = some "telemetry" ∧ ptype = some "emergency_cleared_ack" ∧ role = "pi" then
    let m := FrontMsg.telemetry src "emergency_cleared_ack" payload ts
    ⟨broadcastToFrontends sendOk now st m, [], [], [], [], [m], false⟩
  else if (act = some "microphone_open" ∨ act = some "microphone_close") ∧ role = "frontend" then
    let actS := if act = some "microphone_open" then "microphone_open" else "microphone_close"
    let target := pyOrD (pyOrS pkt.target payload.device_id) "pi-01"
    let env := OutMsg.envelope src (some actS) payload (some (pyOrTs ts now))
    let r1 := sendToDevice sendOk now st target env
    let rep := if r1.2.1 then Reply.micSent actS target else Reply.targetOffline target
    let p := replyStep sendOk now w r1.1
    ⟨p.1, [rep], r1.2.2, [], [], [], !p.2⟩
  else if act = some "control" ∧ role = "frontend" then
    let target := pyOrS pkt.target payload.target
    let env := OutMsg.envelope src ptype payload ts
    if ptype = some "emergency_stop" then
      let r := emergencyBroadcastToPis sendOk now st env
      let rep := Reply.emergencySent r.success r.total now
      let p := replyStep sendOk now w r.st
      if p.2 then
        let m := FrontMsg.emergencyBroadcast (some src) r.success r.total now
        ⟨broadcastToFrontends sendOk now p.1 m, [rep], [], [], r.attempts, [m], false⟩
      else ⟨p.1, [rep], [], [], r.attempts, [], true⟩
    else if ptype = some "request_route" then
      let tgt := target.getD ""
      if pyTruthyS target = false then replyOnly sendOk now w st Reply.targetNotFound
      else
        match dlookup st.devices tgt with
        | none => replyOnly sendOk now w st Reply.targetNotFound
        | some info =>
          let start_pos : Int × Int :=
            match info.meta.location with
            | some l => l
            | none => payload.start_location.getD (0, 0)
          let goal_pos : Option (Int × Int) :=
            match payload.destination with
            | some (.name s) => poiLookup s.toLower
            | some (.coords r c) => some (r, c)
            | _ => none
          match goal_pos with
          | none => replyOnly sendOk now w st (Reply.unknownDestination payload.destination)
          | some gp =>
            match navGrid with
            | none => replyOnly sendOk now w st Reply.noMapLoaded
            | some grid =>
              if grid.isEmpty then replyOnly sendOk now w st Reply.noMapLoaded
              else
                match Planner.astar grid start_pos gp with
                | .error e =>
                  replyOnly sendOk now w st (Reply.planningFailed (Planner.AstarErr.msg e))
                | .ok path =>
                  let wps := Planner.waypointsWithHeadings path
                  if wps.isEmpty then replyOnly sendOk now w st Reply.noPathFound
                  else
                    let r1 := sendToDevice sendOk now st tgt
                      (OutMsg.executeRoute "server" wps (destStr payload.destination))
                    let rep := Reply.routeCalculated tgt wps start_pos gp
                    let p := replyStep sendOk now w r1.1
                    if p.2 then ⟨p.1, [rep], r1.2.2, [], [], [], false⟩
                    else
                      let rep2 := Reply.planningFailed "send failed"
                      let p2 := replyStep sendOk now w p.1
                      ⟨p2.1, [rep, rep2], r1.2.2, [], [], [], true⟩
    else if ptype = some "quick_command" then
      let qc := payload.text
      if qc = "" then replyOnly sendOk now w st Reply.missingQuickText
      else if target = some "all" ∨ payload.broadcast then
        let st1 := broadcastToPis sendOk now st
        let p := replyStep sendOk now w st1
        ⟨p.1, [Reply.quickSentAll qc], [], [env], [], [], !p.2⟩
      else if pyTruthyS target then
        let tgt := target.getD ""
        let r1 := sendToDevice sendOk now st tgt env
        let rep := if r1.2.1 then Reply.quickSent tgt qc else Reply.targetOffline tgt
        let p := replyStep sendOk now w r1.1
        ⟨p.1, [rep], r1.2.2, [], [], [], !p.2⟩
      else replyOnly sendOk now w st Reply.missingTargetQuick
    else if ptype = some "auto_route_start" ∨ ptype = some "auto_route_stop" then
      if target = some "all" ∨ payload.broadcast then
        let st1 := broadcastToPis sendOk now st
        let p := replyStep sendOk now w st1
        ⟨p.1, [Reply.routeCommandSentAll ptype], [], [env], [], [], !p.2⟩
      else if pyTruthyS target then
        let tgt := target.getD ""
        let r1 := sendToDevice sendOk now st tgt env
        let rep := if r1.2.1 then Reply.routeCommandSent tgt ptype else Reply.targetOffline tgt
        let p := replyStep sendOk now w r1.1
        ⟨p.1, [rep], r1.2.2, [], [], [], !p.2⟩
      else replyOnly sendOk now w st Reply.missingTargetRoute
    else
      if target = some "all" ∨ payload.broadcast then
        let st1 := broadcastToPis sendOk now st
        let p := replyStep sendOk now w st1
        ⟨p.1, [Reply.sentAll], [], [env], [], [], !p.2⟩
      else if pyTruthyS target then
        let tgt := target.getD ""
        let r1 := sendToDevice sendOk now st tgt env
        let rep := if r1.2.1 then Reply.sent tgt else Reply.targetOffline tgt
        let p := replyStep sendOk now w r1.1
        ⟨p.1, [rep], r1.2.2, [], [], [], !p.2⟩
      else replyOnly sendOk now w st Reply.missingTargetControl
  else
    if role = "pi" then
      let m := FrontMsg.other src act ptype payload ts
      ⟨broadcastToFrontends sendOk now st m, [], [], [], [], [m], false⟩
    else
      let p := replyStep sendOk now w st
      ⟨p.1, [Reply.echo pkt], [], [], [], [], !p.2⟩

/-- The response body of the HTTP `/control` endpoint. -/
inductive HttpResp where
  | emergencySent (devices_reached total_devices : Nat)
  | sent (target : String)
  | notFound
deriving DecidableEq, Repr

/-- Result of one `/control` request. -/
structure HttpRes where
  st : Manager
  resp : HttpResp
  piBroadcasts : List OutMsg
  deviceSends : List (String × OutMsg)
  emergencySends : List (String × OutMsg)
  frontendBroadcasts : List FrontMsg

/-- The HTTP `/control` endpoint (server.py 340-372): emergency stops are
broadcast to every pi with the outcome reported and pushed to frontends;
otherwise the envelope goes to all pis or to the single named target, with
404 when the target is not registered. -/
def httpControl (sendOk : Nat → Bool) (now : Int) (st : Manager)
    (targetB : Option String) (payloadB : Payload) (typeB : Option String) : HttpRes :=
  let target := targetB.getD "all"
  let control_type := typeB.getD "manual_drive"
  let env := OutMsg.envelope "http-client" (some control_type) payloadB (some now)
  if control_type = "emergency_stop" then
    let r := emergencyBroadcastToPis sendOk now st env
    let m := FrontMsg.emergencyBroadcast none r.success r.total now
    ⟨broadcastToFrontends sendOk now r.st m, .emergencySent r.success r.total, [], [],
      r.attempts, [m]⟩
  else if target = "all" then
    ⟨broadcastToPis sendOk now st, .sent "all", [env], [], [], []⟩
  else
    let r1 := sendToDevice sendOk now st target env
    if r1.2.1 then ⟨r1.1, .sent target, [], r1.2.2, [], []⟩
    else ⟨r1.1, .notFound, [], r1.2.2, [], []⟩

/-- The HTTP `/clear_emergency` endpoint (server.py 375-389): clear the
flag(s) and notify frontends. -/
def clearEmergencyEndpoint (sendOk : Nat → Bool) (now : Int) (st : Manager)
    (device_id : Option String) : Manager × FrontMsg :=
  let st1 := clearEmergencyStatus st device_id
  let m := FrontMsg.emergencyCleared device_id now
  (broadcastToFrontends sendOk now st1 m, m)

end Server

theorem dlookup_map_updateOne {κ β : Type} [DecidableEq κ] (l : List (κ × β)) (s : κ)
    (g : β → β) (k : κ) :
    dlookup (l.map (fun e => if e.1 = s then (e.1, g e.2) else e)) k
      = (dlookup l k).map (fun v => if k = s then g v else v) := by
  induction l with
  | nil => rfl
  | cons e t ih =>
    rcases e with ⟨a, b⟩
    by_cases has : a = s
    · subst has
      have hstep : List.map (fun e => if e.1 = a then (e.1, g e.2) else e) ((a, b) :: t)
          = (a, g b) :: List.map (fun e => if e.1 = a then (e.1, g e.2) else e) t := by
        simp
      rw [hstep, dlookup_cons, dlookup_cons]
      by_cases hak : a = k
      · subst hak; simp
      · rw [if_neg hak, if_neg hak, ih]
    · have hstep : List.map (fun e => if e.1 = s then (e.1, g e.2) else e) ((a, b) :: t)
          = (a, b) :: List.map (fun e => if e.1 = s then (e.1, g e.2) else e) t := by
        simp [has]
      rw [hstep, dlookup_cons, dlookup_cons]
      by_cases hak : a = k
      · subst hak
        simp [has]
      · rw [if_neg hak, if_neg hak, ih]

theorem dlookup_map_updateAll {κ β : Type} [DecidableEq κ] (l : List (κ × β)) (g : β → β)
    (k : κ) :
    dlookup (l.map (fun e => (e.1, g e.2))) k = (dlookup l k).map g := by
  induction l with
  | nil => rfl
  | cons e t ih =>
    rcases e with ⟨a, b⟩
    simp only [List.map_cons]
    rw [dlookup_cons, dlookup_cons]
    by_cases hak : a = k
    · simp [hak]
    · rw [if_neg hak, if_neg hak, ih]

theorem map_proj_updateOne {κ β γ : Type} [DecidableEq κ] (l : List (κ × β)) (s : κ)
    (g : β → β) (f : κ × β → γ) (hf : ∀ k b, f (k, g b) = f (k, b)) :
    (l.map (fun e => if e.1 = s then (e.1, g e.2) else e)).map f = l.map f := by
  induction l with
  | nil => rfl
  | cons e t ih =>
    rcases e with ⟨a, b⟩
    by_cases has : a = s <;> simp [has, ih, hf]

theorem map_proj_updateAll {κ β γ : Type} (l : List (κ × β)) (g : β → β)
    (f : κ × β → γ) (hf : ∀ k b, f (k, g b) = f (k, b)) :
    (l.map (fun e => (e.1, g e.2))).map f = l.map f := by
  induction l with
  | nil => rfl
  | cons e t ih =>
    rcases e with ⟨a, b⟩
    simp [ih, hf]

theorem filter_map_proj_updateOne {κ β γ : Type} [DecidableEq κ] (l : List (κ × β)) (s : κ)
    (g : β → β) (p : κ × β → Bool) (f : κ × β → γ)
    (hp : ∀ k b, p (k, g b) = p (k, b)) (hf : ∀ k b, f (k, g b) = f (k, b)) :
    ((l.map (fun e => if e.1 = s then (e.1, g e.2) else e)).filter p).map f
      = (l.filter p).map f := by
  induction l with
  | nil => rfl
  | cons e t ih =>
    rcases e with ⟨a, b⟩
    by_cases has : a = s
    · subst has
      have hstep : List.map (fun e => if e.1 = a then (e.1, g e.2) else e) ((a, b) :: t)
          = (a, g b) :: List.map (fun e => if e.1 = a then (e.1, g e.2) else e) t := by
        simp
      rw [hstep, List.filter_cons, List.filter_cons, hp a b]
      by_cases hpb : p (a, b) = true
      · rw [if_pos hpb, if_pos hpb]
        simp only [List.map_cons]
        rw [ih, hf a b]
      · rw [if_neg hpb, if_neg hpb]
        exact ih
    · have hstep : List.map (fun e => if e.1 = s then (e.1, g e.2) else e) ((a, b) :: t)
          = (a, b) :: List.map (fun e => if e.1 = s then (e.1, g e.2) else e) t := by
        simp [has]
      rw [hstep, List.filter_cons, List.filter_cons]
      by_cases hpb : p (a, b) = true
      · rw [if_pos hpb, if_pos hpb]
        simp only [List.map_cons]
        rw [ih]
      · rw [if_neg hpb, if_neg hpb]
        exact ih

theorem dlookup_filter_of_nodup {κ β : Type} [DecidableEq κ] {l : List (κ × β)} {k : κ}
    {v : β} (p : κ × β → Bool) (hn : (l.map Prod.fst).Nodup) (hv : dlookup l k = some v)
    (hp : p (k, v) = true) : dlookup (l.filter p) k = some v := by
  have hmem : (k, v) ∈ l.filter p := List.mem_filter.mpr ⟨mem_of_dlookup hv, hp⟩
  have hnf : ((l.filter p).map Prod.fst).Nodup :=
    hn.sublist (List.Sublist.map Prod.fst (List.filter_sublist l))
  exact dlookup_of_nodup_mem hnf hmem

theorem dlookup_filter_none_of_nodup {κ β : Type} [DecidableEq κ] {l : List (κ × β)} {k : κ}
    {v : β} (p : κ × β → Bool) (hn : (l.map Prod.fst).Nodup) (hv : dlookup l k = some v)
    (hp : p (k, v) = false) : dlookup (l.filter p) k = none := by
  rw [dlookup_eq_none_iff]
  intro hmem
  obtain ⟨e, he, hfst⟩ := List.mem_map.mp hmem
  obtain ⟨hel, hpe⟩ := List.mem_filter.mp he
  have he2 : (k, e.2) ∈ l := by
    rcases e with ⟨k1, v1⟩
    cases hfst
    exact hel
  have := dlookup_of_nodup_mem hn he2
  rw [hv] at this
  have hev : e.2 = v := by cases this; rfl
  rcases e with ⟨k1, v1⟩
  cases hfst
  cases hev
  rw [hp] at hpe
  cases hpe

theorem dlookup_filter_none {κ β : Type} [DecidableEq κ] {l : List (κ × β)} {k : κ}
    (p : κ × β → Bool) (hv : dlookup l k = none) : dlookup (l.filter p) k = none := by
  rw [dlookup_eq_none_iff] at hv ⊢
  intro hmem
  obtain ⟨e, he, hfst⟩ := List.mem_map.mp hmem
  exact hv (List.mem_map.mpr ⟨e, List.mem_of_mem_filter he, hfst⟩)

theorem dlookup_map_none {κ β : Type} [DecidableEq κ] {l : List (κ × β)} {k : κ}
    (f : κ × β → κ × β) (hfst : ∀ e, (f e).1 = e.1) (hv : dlookup l k = none) :
    dlookup (l.map f) k = none := by
  rw [dlookup_eq_none_iff] at hv ⊢
  intro hmem
  obtain ⟨e, he, hk⟩ := List.mem_map.mp hmem
  obtain ⟨e2, he2, hfe⟩ := List.mem_map.mp he
  exact hv (List.mem_map.mpr ⟨e2, he2, by rw [← hk, ← hfe, hfst]⟩)

theorem filter_notin_append {α β : Type} [DecidableEq β] (l : List α) (f : α → β)
    (b1 b2 : List β) :
    (l.filter (fun a => decide (f a ∉ b1))).filter (fun a => decide (f a ∉ b2))
      = l.filter (fun a => decide (f a ∉ b1 ++ b2)) := by
  rw [List.filter_filter]
  apply List.filter_congr
  intro a _
  by_cases h1 : f a ∈ b1 <;> by_cases h2 : f a ∈ b2 <;>
    simp [h1, h2, List.mem_append]

namespace Server

/-- The socket a `disc` command names outright (removed even when its own
sends succeed). -/
def seed : Cmd → List Nat
  | .disc w => [w]
  | .bcast _ => []

/-- `st2` is `st` with the entries and unregistered sockets of some `bad`
set removed, where each bad socket is either one of the `extra` seeds or a
socket whose send failed and that lies in the ambient frontend set `S`. -/
def ShapeS (sendOk : Nat → Bool) (S : List Nat) (st st2 : Manager) (extra : List Nat) : Prop :=
  ∃ bad : List Nat,
    st2.devices = st.devices.filter (fun e => decide (e.2.ws ∉ bad)) ∧
    st2.unregistered = st.unregistered.filter (fun x => decide (x ∉ bad)) ∧
    ∀ x ∈ bad, x ∈ extra ∨ (sendOk x = false ∧ x ∈ S)

theorem shapeS_refl (sendOk : Nat → Bool) (S : List Nat) (st : Manager) (extra : List Nat) :
    ShapeS sendOk S st st extra := by
  refine ⟨[], ?_, ?_, ?_⟩
  · simp
  · simp
  · intro x hx
    exact absurd hx (List.not_mem_nil x)

theorem frontWs_of_filter {st st2 : Manager} {p : String × DeviceInfo → Bool}
    (h : st2.devices = st.devices.filter p) : ∀ x ∈ frontWs st2, x ∈ frontWs st := by
  intro x hx
  unfold frontWs at hx ⊢
  rw [h] at hx
  obtain ⟨e, he, hws⟩ := List.mem_map.mp hx
  obtain ⟨he1, he2⟩ := List.mem_filter.mp he
  exact List.mem_map.mpr ⟨e, List.mem_filter.mpr ⟨List.mem_of_mem_filter he1, he2⟩, hws⟩

theorem devices_filter_append (l : List (String × DeviceInfo)) (b1 b2 : List Nat) :
    (l.filter (fun e => decide (e.2.ws ∉ b1))).filter (fun e => decide (e.2.ws ∉ b2))
      = l.filter (fun e => decide (e.2.ws ∉ b1 ++ b2)) := by
  rw [List.filter_filter]
  apply List.filter_congr
  intro a _
  by_cases h1 : a.2.ws ∈ b1 <;> by_cases h2 : a.2.ws ∈ b2 <;> simp [h1, h2, List.mem_append]

theorem unreg_filter_append (l : List Nat) (b1 b2 : List Nat) :
    (l.filter (fun x => decide (x ∉ b1))).filter (fun x => decide (x ∉ b2))
      = l.filter (fun x => decide (x ∉ b1 ++ b2)) := by
  rw [List.filter_filter]
  apply List.filter_congr
  intro a _
  by_cases h1 : a ∈ b1 <;> by_cases h2 : a ∈ b2 <;> simp [h1, h2, List.mem_append]

theorem shapeS_trans {sendOk : Nat → Bool} {S : List Nat} {st st2 st3 : Manager}
    {extra : List Nat} (h1 : ShapeS sendOk S st st2 extra) (h2 : ShapeS sendOk S st2 st3 []) :
    ShapeS sendOk S st st3 extra := by
  obtain ⟨b1, hd1, hu1, hc1⟩ := h1
  obtain ⟨b2, hd2, hu2, hc2⟩ := h2
  refine ⟨b1 ++ b2, ?_, ?_, ?_⟩
  · rw [hd2, hd1, devices_filter_append]
  · rw [hu2, hu1, unreg_filter_append]
  · intro x hx
    rcases List.mem_append.mp hx with h | h
    · exact hc1 x h
    · rcases hc2 x h with h2 | h2
      · exact absurd h2 (List.not_mem_nil x)
      · exact Or.inr h2

theorem foldl_shapeS {α : Type} (sendOk : Nat → Bool) (S : List Nat)
    (step : Manager → α → Manager) :
    ∀ (l : List α) (st : Manager),
      (∀ acc a, a ∈ l → (∀ x ∈ frontWs acc, x ∈ S) → ShapeS sendOk S acc (step acc a) []) →
      (∀ x ∈ frontWs st, x ∈ S) → ShapeS sendOk S st (l.foldl step st) [] := by
  intro l
  induction l with
  | nil =>
    intro st _ _
    exact shapeS_refl sendOk S st []
  | cons a t ih =>
    intro st hstep hsub
    rw [List.foldl_cons]
    have h1 : ShapeS sendOk S st (step st a) [] :=
      hstep st a (List.mem_cons_self a t) hsub
    obtain ⟨b1, hd1, hu1, hc1⟩ := h1
    have hsub2 : ∀ x ∈ frontWs (step st a), x ∈ S :=
      fun x hx => hsub x (frontWs_of_filter hd1 x hx)
    have h2 := ih (step st a)
      (fun acc b hb hs => hstep acc b (List.mem_cons_of_mem a hb) hs) hsub2
    exact shapeS_trans ⟨b1, hd1, hu1, hc1⟩ h2

theorem runCmd_shapeS (sendOk : Nat → Bool) (now : Int) (S : List Nat) :
    ∀ (fuel : Nat) (st : Manager) (c : Cmd), (∀ x ∈ frontWs st, x ∈ S) →
      ShapeS sendOk S st (runCmd sendOk now fuel st c) (seed c) := by
  intro fuel
  induction fuel with
  | zero =>
    intro st c _
    exact shapeS_refl sendOk S st (seed c)
  | succ fuel ih =>
    intro st c hsub
    cases c with
    | disc w =>
      have unf : runCmd sendOk now (fuel + 1) st (.disc w)
          = ((st.devices.filter (fun e => decide (e.2.ws = w))).map Prod.fst).foldl
              (fun acc did => runCmd sendOk now fuel acc (.bcast (.deviceDisconnected did now)))
              ⟨st.devices.filter (fun e => decide (e.2.ws ≠ w)),
               st.unregistered.filter (fun x => decide (x ≠ w))⟩ := rfl
      rw [unf]
      have hstep1 : ShapeS sendOk S st
          ⟨st.devices.filter (fun e => decide (e.2.ws ≠ w)),
           st.unregistered.filter (fun x => decide (x ≠ w))⟩ [w] := by
        refine ⟨[w], ?_, ?_, ?_⟩
        · apply List.filter_congr
          intro a _
          by_cases h : a.2.ws = w <;> simp [h]
        · apply List.filter_congr
          intro a _
          by_cases h : a = w <;> simp [h]
        · intro x hx
          exact Or.inl hx
      apply shapeS_trans hstep1
      apply foldl_shapeS
      · intro acc a _ hs
        exact ih acc (.bcast (.deviceDisconnected a now)) hs
      · intro x hx
        exact hsub x (frontWs_of_filter rfl x hx)
    | bcast m =>
      have unf : runCmd sendOk now (fuel + 1) st (.bcast m)
          = (frontWs st).foldl
              (fun acc w2 =>
                if sendOk w2 then acc else runCmd sendOk now fuel acc (.disc w2)) st := rfl
      rw [unf]
      apply foldl_shapeS
      · intro acc w2 hw2 hs
        by_cases hok : sendOk w2 = true
        · rw [if_pos hok]
          exact shapeS_refl sendOk S acc []
        · rw [if_neg hok]
          have hfalse : sendOk w2 = false := by
            revert hok
            cases sendOk w2 <;> simp
          obtain ⟨bad, hd, hu, hc⟩ := ih acc (.disc w2) hs
          refine ⟨bad, hd, hu, ?_⟩
          intro x hx
          rcases hc x hx with hseed | hfail
          · have hx2 : x = w2 := by simpa [seed] using hseed
            rw [hx2]
            exact Or.inr ⟨hfalse, hsub w2 hw2⟩
          · exact Or.inr hfail
      · exact fun x hx => hsub x hx

theorem disconnectWs_shapeS (sendOk : Nat → Bool) (now : Int) (S : List Nat) (st : Manager)
    (w : Nat) (hsub : ∀ x ∈ frontWs st, x ∈ S) :
    ShapeS sendOk S st (disconnectWs sendOk now st w) [w] :=
  runCmd_shapeS sendOk now S _ st (.disc w) hsub

theorem broadcastToFrontends_shapeS (sendOk : Nat → Bool) (now : Int) (S : List Nat)
    (st : Manager) (m : FrontMsg) (hsub : ∀ x ∈ frontWs st, x ∈ S) :
    ShapeS sendOk S st (broadcastToFrontends sendOk now st m) [] :=
  runCmd_shapeS sendOk now S _ st (.bcast m) hsub

end Server

namespace Server

/-- A one-entry registry whose pi has the emergency flag set, used to

exhibit the empty-string behaviour of `clear_emergency_status`. -/
def c10st : Manager := ⟨[("pi-01", ⟨2, "pi", {}, 0, true⟩)], []⟩

/-- C10 counterexample: clearing with `device_id = ""` — an id that is not a
key of the registry — is not a no-op: Python truthiness sends the empty
string down the clear-all branch, so the registry changes (the pi entry's
emergency flag is wiped). -/
theorem clear_emergency_empty_id_not_noop :
    ("" ∉ c10st.devices.map Prod.fst) ∧
    clearEmergencyStatus c10st (some "") ≠ c10st ∧
    dlookup (clearEmergencyStatus c10st (some "")).devices "pi-01"
      = some ⟨2, "pi", {}, 0, false⟩ := by
  decide

/-- C10 (amended): `clear_emergency_status` never touches `unregistered`,
never adds, removes or reorders entries, and rewrites each entry as follows:
with a truthy device_id (a nonempty string) only that key's emergency flag
is cleared — in particular an absent nonempty id leaves every lookup
unchanged — and with a falsy device_id (absent, or present but equal to the
empty string, which the claim wrongly groups with the no-op case) every
entry's emergency flag is cleared; no other field of any entry changes. -/
theorem clear_emergency_frame (st : Manager) (d : Option String) (k : String) :
    (clearEmergencyStatus st d).unregistered = st.unregistered ∧
    (clearEmergencyStatus st d).devices.map Prod.fst = st.devices.map Prod.fst ∧
    dlookup (clearEmergencyStatus st d).devices k
      = (dlookup st.devices k).map (fun info =>
          if pyTruthyS d then
            if k = d.getD "" then { info with emergency := false } else info
          else { info with emergency := false }) := by
  unfold clearEmergencyStatus
  by_cases hd : pyTruthyS d = true
  · rw [if_pos hd]
    by_cases hk : (dlookup st.devices (d.getD "")).isSome = true
    · rw [if_pos hk]
      refine ⟨rfl, ?_, ?_⟩
      · exact map_proj_updateOne st.devices (d.getD "")
          (fun v => { v with emergency := false }) Prod.fst (fun a b => rfl)
      · dsimp only
        rw [dlookup_map_updateOne st.devices (d.getD "")
          (fun v => { v with emergency := false }) k]
        cases dlookup st.devices k with
        | none => rfl
        | some v => simp [hd]
    · rw [if_neg hk]
      refine ⟨rfl, rfl, ?_⟩
      by_cases hkd : k = d.getD ""
      · have hnone : dlookup st.devices k = none := by
          rw [hkd]
          exact Option.not_isSome_iff_eq_none.mp hk
        rw [hnone]
        rfl
      · cases hv : dlookup st.devices k with
        | none => rfl
        | some v => simp [hd, hkd]
  · rw [if_neg hd]
    refine ⟨rfl, ?_, ?_⟩
    · exact map_proj_updateAll st.devices (fun v => { v with emergency := false })
        Prod.fst (fun a b => rfl)
    · dsimp only
      rw [dlookup_map_updateAll st.devices (fun v => { v with emergency := false }) k]
      cases dlookup st.devices k with
      | none => rfl
      | some v => simp [hd]

end Server

namespace Server

theorem metaUpdate_dlookup (now : Int) (st : Manager) (src : String) (payload : Payload)
    (k : String) :
    dlookup (metaUpdate now st src payload).devices k
      = (dlookup st.devices k).map (fun v =>
          if k = src then
            { v with
              last_seen := now,
              meta := if payload.truthy then v.meta.merge payload else v.meta }
          else v) := by
  unfold metaUpdate
  by_cases h : (dlookup st.devices src).isSome = true
  · rw [if_pos h]
    dsimp only
    rw [dlookup_map_updateOne st.devices src
      (fun v => { v with
        last_seen := now,
        meta := if payload.truthy then v.meta.merge payload else v.meta }) k]
  · rw [if_neg h]
    by_cases hk : k = src
    · have hnone : dlookup st.devices k = none := by
        rw [hk]
        exact Option.not_isSome_iff_eq_none.mp h
      rw [hnone]
      rfl
    · cases hv : dlookup st.devices k with
      | none => rfl
      | some v => simp [hk]

theorem metaUpdate_keys (now : Int) (st : Manager) (src : String) (payload : Payload) :
    (metaUpdate now st src payload).devices.map Prod.fst = st.devices.map Prod.fst := by
  unfold metaUpdate
  by_cases h : (dlookup st.devices src).isSome = true
  · rw [if_pos h]
    exact map_proj_updateOne st.devices src
      (fun v => { v with
        last_seen := now,
        meta := if payload.truthy then v.meta.merge payload else v.meta })
      Prod.fst (fun a b => rfl)
  · rw [if_neg h]

theorem metaUpdate_wsList (now : Int) (st : Manager) (src : String) (payload : Payload) :
    (metaUpdate now st src payload).devices.map (fun e => e.2.ws)
      = st.devices.map (fun e => e.2.ws) := by
  unfold metaUpdate
  by_cases h : (dlookup st.devices src).isSome = true
  · rw [if_pos h]
    exact map_proj_updateOne st.devices src
      (fun v => { v with
        last_seen := now,
        meta := if payload.truthy then v.meta.merge payload else v.meta })
      (fun e => e.2.ws) (fun a b => rfl)
  · rw [if_neg h]

theorem metaUpdate_unreg (now : Int) (st : Manager) (src : String) (payload : Payload) :
    (metaUpdate now st src payload).unregistered = st.unregistered := by
  unfold metaUpdate
  by_cases h : (dlookup st.devices src).isSome = true
  · rw [if_pos h]
  · rw [if_neg h]

theorem metaUpdate_frontWs (now : Int) (st : Manager) (src : String) (payload : Payload) :
    frontWs (metaUpdate now st src payload) = frontWs st := by
  unfold metaUpdate frontWs
  by_cases h : (dlookup st.devices src).isSome = true
  · rw [if_pos h]
    exact filter_map_proj_updateOne st.devices src
      (fun v => { v with
        last_seen := now,
        meta := if payload.truthy then v.meta.merge payload else v.meta })
      (fun e => decide (e.2.role = "frontend")) (fun e => e.2.ws)
      (fun a b => rfl) (fun a b => rfl)
  · rw [if_neg h]

theorem pyTruthyS_eq_false_iff (x : Option String) :
    pyTruthyS x = false ↔ x = none ∨ x = some "" := by
  cases x with
  | none => simp [pyTruthyS]
  | some s =>
    constructor
    · intro h
      have h2 : (!s.isEmpty) = false := h
      right
      have hie : s.isEmpty = true := by
        revert h2
        cases s.isEmpty <;> simp
      rw [(String.isEmpty_iff s).mp hie]
    · rintro (h | h)
      · cases h
      · have hs : s = "" := by
          cases h
          rfl
        show (!s.isEmpty) = false
        rw [hs]
        rfl

theorem pyOrS_falsy (a b : Option String) (ha : pyTruthyS a = false) : pyOrS a b = b := by
  simp [pyOrS, ha]

theorem pyOrD_falsy (a : Option String) (d : String) (ha : pyTruthyS a = false) :
    pyOrD a d = d := by
  rcases (pyTruthyS_eq_false_iff a).mp ha with h | h <;> subst h <;> rfl

end Server

namespace Server

/-- The outward-visible output of one handled message: replies to the
sender, per-device sends, pi broadcasts, emergency sends, frontend pushes. -/
def outputs (R : HRes) :
    List Reply × List (String × OutMsg) × List OutMsg × List (String × OutMsg)
      × List FrontMsg :=
  (R.replies, R.deviceSends, R.piBroadcasts, R.emergencySends, R.frontendBroadcasts)

/-- The registry and message of the microphone scenarios: a registered
frontend and the default pi. -/
def c6st : Manager :=
  ⟨[("fe", ⟨1, "frontend", {}, 0, false⟩), ("pi-01", ⟨2, "pi", {}, 0, false⟩)], []⟩

/-- A microphone request carried, as the shipped frontend client sends it,
as a `control`-action message with type `microphone_open`. -/
def c6pkt : Packet := { action := some "control", ptype := some "microphone_open" }

/-- C6 counterexample: the shipped frontend sends microphone requests as
`action = "control", type = "microphone_open"`, but the router keys its
microphone fast path on the action field; a control message of that type
with no target falls into the generic control branch and is rejected with
an error instead of being delivered to pi-01. -/
theorem mic_control_typed_rejected :
    (handlePacket (fun _ => true) 0 none 1 "frontend" "fe" c6st c6pkt).replies
        = [Reply.missingTargetControl] ∧
    Reply.missingTargetControl.isError = true ∧
    (handlePacket (fun _ => true) 0 none 1 "frontend" "fe" c6st c6pkt).deviceSends = [] := by
  decide

/-- C6 (amended): the microphone fast path is keyed on the *action* field.
A frontend message whose action is `microphone_open`/`microphone_close`,
with no target in the packet or payload, is delivered to the well-known
primary device pi-01 when it is registered and accepting, with the action
echoed as the envelope type, and nothing else is sent anywhere. -/
theorem mic_action_routing (sendOk : Nat → Bool) (now : Int) (navGrid : Option Planner.Grid)
    (w : Nat) (hid : String) (st0 : Manager) (pkt : Packet) (info : DeviceInfo)
    (hact : pkt.action = some "microphone_open" ∨ pkt.action = some "microphone_close")
    (htgt : pyTruthyS pkt.target = false)
    (hdev : pyTruthyS pkt.payload.device_id = false)
    (hpi : dlookup st0.devices "pi-01" = some info)
    (hsrc : pkt.device_id.getD hid ≠ "pi-01")
    (hok : sendOk info.ws = true) :
    outputs (handlePacket sendOk now navGrid w "frontend" hid st0 pkt)
      = ([Reply.micSent (pkt.action.getD "") "pi-01"],
         [("pi-01",
           OutMsg.envelope (pkt.device_id.getD hid) pkt.action pkt.payload
             (some (pyOrTs pkt.ts now)))],
         [], [], []) := by
  have hactS : (if pkt.action = some "microphone_open" then "microphone_open"
      else "microphone_close") = pkt.action.getD "" := by
    rcases hact with h | h <;> rw [h] <;> decide
  have hactO : some (if pkt.action = some "microphone_open" then "microphone_open"
      else "microphone_close") = pkt.action := by
    rcases hact with h | h <;> rw [h] <;> decide
  have hlk : dlookup (metaUpdate now st0 (pkt.device_id.getD hid) pkt.payload).devices "pi-01"
      = some info := by
    rw [metaUpdate_dlookup, hpi]
    simp only [Option.map_some']
    rw [if_neg (fun hc => hsrc hc.symm)]
  have hact2 : some (pkt.action.getD "") = pkt.action := by
    rcases hact with h | h <;> rw [h] <;> rfl
  simp only [handlePacket]
  rw [if_neg (fun hc => absurd hc.2.2 (by decide)),
    if_neg (fun hc => absurd hc.2.2 (by decide)),
    if_neg (fun hc => absurd hc.2.2 (by decide)),
    if_pos ⟨hact, trivial⟩]
  rw [pyOrS_falsy pkt.target pkt.payload.device_id htgt,
    pyOrD_falsy pkt.payload.device_id "pi-01" hdev]
  simp only [sendToDevice, hlk]
  simp only [outputs, hok, hactS, hactO, if_true]
  rw [hact2]

/-- An action-keyed microphone packet with no target anywhere. -/
def c6wpkt : Packet := { action := some "microphone_open" }

/-- C6 witness: on the two-device registry the defaulted microphone open
lands on pi-01. -/
theorem mic_action_routing_witness :
    outputs (handlePacket (fun _ => true) 7 none 1 "frontend" "fe" c6st c6wpkt)
      = ([Reply.micSent "microphone_open" "pi-01"],
         [("pi-01", OutMsg.envelope "fe" (some "microphone_open") {} (some 7))],
         [], [], []) := by
  have h := mic_action_routing (fun _ => true) 7 none 1 "fe" c6st c6wpkt
    ⟨2, "pi", {}, 0, false⟩ (Or.inl rfl) (by decide) (by decide) (by decide)
    (by decide) (by decide)
  exact h.trans (by decide)

end Server

namespace Server

/-- Registry for the unresolvable-target scenarios. -/
def c4st : Manager :=
  ⟨[("fe", ⟨1, "frontend", {}, 0, false⟩), ("pi-01", ⟨2, "pi", {}, 0, false⟩)], []⟩

/-- A control message naming an unknown target but carrying the broadcast
flag. -/
def c4pkt : Packet :=
  { action := some "control", ptype := some "manual_drive", target := some "ghost",
    payload := { broadcast := true, truthy := true } }

/-- C4 counterexample: a control message whose named target resolves to no
registered device is not answered with an error when the payload also sets
the broadcast flag — the router broadcasts to every pi and reports
`sent to all` instead. -/
theorem unknown_target_broadcast_no_error :
    ("ghost" ∉ c4st.devices.map Prod.fst) ∧
    (handlePacket (fun _ => true) 0 none 1 "frontend" "fe" c4st c4pkt).replies
        = [Reply.sentAll] ∧
    Reply.sentAll.isError = false ∧
    (handlePacket (fun _ => true) 0 none 1 "frontend" "fe" c4st c4pkt).piBroadcasts
      = [OutMsg.envelope "fe" (some "manual_drive") c4pkt.payload none] := by
  decide

/-- C4 (amended): for a non-emergency control message from a frontend whose
broadcast flag is unset and whose target is falsy, or names neither `all`
nor a registered device, the router sends exactly one error reply to the
sender and forwards nothing to any other endpoint. -/
theorem control_unresolvable_target_error (sendOk : Nat → Bool) (now : Int)
    (navGrid : Option Planner.Grid) (w : Nat) (hid : String) (st0 : Manager) (pkt : Packet)
    (hact : pkt.action = some "control")
    (hnem : pkt.ptype ≠ some "emergency_stop")
    (hbc : pkt.payload.broadcast = false)
    (hcase : pyTruthyS (pyOrS pkt.target pkt.payload.target) = false ∨
      (pyOrS pkt.target pkt.payload.target ≠ some "all" ∧
       dlookup st0.devices ((pyOrS pkt.target pkt.payload.target).getD "") = none)) :
    ∃ r, r.isError = true ∧
      outputs (handlePacket sendOk now navGrid w "frontend" hid st0 pkt)
        = ([r], [], [], [], []) := by
  have hlkN : ∀ k, dlookup st0.devices k = none →
      dlookup (metaUpdate now st0 (pkt.device_id.getD hid) pkt.payload).devices k = none := by
    intro k hk
    rw [metaUpdate_dlookup, hk]
    rfl
  have hnall : ¬(pyOrS pkt.target pkt.payload.target = some "all"
      ∨ pkt.payload.broadcast = true) := by
    rintro (h | h)
    · rcases hcase with hc | hc
      · rw [h] at hc
        exact absurd hc (by decide)
      · exact hc.1 h
    · rw [hbc] at h
      cases h
  simp only [handlePacket]
  rw [if_neg (fun hc => absurd hc.2.2 (by decide)),
    if_neg (fun hc => absurd hc.2.2 (by decide)),
    if_neg (fun hc => absurd hc.2.2 (by decide)),
    if_neg (fun hc => by
      rcases hc.1 with h | h <;> rw [hact] at h <;> exact absurd h (by decide)),
    if_pos ⟨hact, trivial⟩, if_neg hnem]
  by_cases hrr : pkt.ptype = some "request_route"
  · rw [if_pos hrr]
    by_cases ht : pyTruthyS (pyOrS pkt.target pkt.payload.target) = false
    · rw [if_pos ht]
      exact ⟨Reply.targetNotFound, rfl, by simp [replyOnly, outputs]⟩
    · rw [if_neg ht]
      have htgtT : pyTruthyS (pyOrS pkt.target pkt.payload.target) = true := by
        revert ht
        cases pyTruthyS (pyOrS pkt.target pkt.payload.target) <;> simp
      obtain ⟨hall, hnone⟩ := hcase.resolve_left (fun h => by rw [h] at htgtT; cases htgtT)
      have hnone2 := hlkN _ hnone
      simp only [hnone2]
      exact ⟨Reply.targetNotFound, rfl, by simp [replyOnly, outputs]⟩
  · rw [if_neg hrr]
    by_cases hqc : pkt.ptype = some "quick_command"
    · rw [if_pos hqc]
      by_cases hq : pkt.payload.text = ""
      · rw [if_pos hq]
        exact ⟨Reply.missingQuickText, rfl, by simp [replyOnly, outputs]⟩
      · rw [if_neg hq, if_neg hnall]
        by_cases ht : pyTruthyS (pyOrS pkt.target pkt.payload.target) = true
        · rw [if_pos ht]
          rcases hcase with hc | hc
          · rw [ht] at hc
            cases hc
          · have hnone2 := hlkN _ hc.2
            simp only [sendToDevice, hnone2]
            exact ⟨Reply.targetOffline ((pyOrS pkt.target pkt.payload.target).getD ""),
              rfl, by simp [outputs]⟩
        · rw [if_neg ht]
          exact ⟨Reply.missingTargetQuick, rfl, by simp [replyOnly, outputs]⟩
    · rw [if_neg hqc]
      by_cases har : pkt.ptype = some "auto_route_start" ∨ pkt.ptype = some "auto_route_stop"
      · rw [if_pos har, if_neg hnall]
        by_cases ht : pyTruthyS (pyOrS pkt.target pkt.payload.target) = true
        · rw [if_pos ht]
          rcases hcase with hc | hc
          · rw [ht] at hc
            cases hc
          · have hnone2 := hlkN _ hc.2
            simp only [sendToDevice, hnone2]
            exact ⟨Reply.targetOffline ((pyOrS pkt.target pkt.payload.target).getD ""),
              rfl, by simp [outputs]⟩
        · rw [if_neg ht]
          exact ⟨Reply.missingTargetRoute, rfl, by simp [replyOnly, outputs]⟩
      · rw [if_neg har, if_neg hnall]
        by_cases ht : pyTruthyS (pyOrS pkt.target pkt.payload.target) = true
        · rw [if_pos ht]
          rcases hcase with hc | hc
          · rw [ht] at hc
            cases hc
          · have hnone2 := hlkN _ hc.2
            simp only [sendToDevice, hnone2]
            exact ⟨Reply.targetOffline ((pyOrS pkt.target pkt.payload.target).getD ""),
              rfl, by simp [outputs]⟩
        · rw [if_neg ht]
          exact ⟨Reply.missingTargetControl, rfl, by simp [replyOnly, outputs]⟩

/-- Registry and packet of the C4 witness. -/
def c4wst : Manager :=
  ⟨[("fe", ⟨1, "frontend", {}, 0, false⟩), ("pi-01", ⟨2, "pi", {}, 0, false⟩)], []⟩

/-- A control message naming an unknown target with no broadcast flag. -/
def c4wpkt : Packet :=
  { action := some "control", ptype := some "manual_drive", target := some "ghost",
    payload := { truthy := true } }

/-- C4 witness: the ghost-targeted manual drive gets exactly one error
reply and no forwards. -/
theorem control_unresolvable_target_error_witness :
    ∃ r, r.isError = true ∧
      outputs (handlePacket (fun _ => true) 3 none 1 "frontend" "fe" c4wst c4wpkt)
        = ([r], [], [], [], []) :=
  control_unresolvable_target_error (fun _ => true) 3 none 1 "fe" c4wst c4wpkt rfl
    (by decide) rfl (Or.inr (by decide))

end Server

theorem mem_dset {κ β : Type} [DecidableEq κ] {l : List (κ × β)} {k : κ} {v : β}
    {e : κ × β} (h : e ∈ dset l k v) : e = (k, v) ∨ e ∈ l := by
  unfold dset at h
  by_cases hl : l.any (fun e => decide (e.1 = k))
  · rw [if_pos hl] at h
    obtain ⟨e2, he2, heq⟩ := List.mem_map.mp h
    by_cases h1 : e2.1 = k
    · left
      rw [← heq]
      simp [h1]
    · right
      rw [← heq]
      simp only [if_neg h1]
      exact he2
  · rw [if_neg hl] at h
    rcases List.mem_append.mp h with h2 | h2
    · right
      exact h2
    · left
      simpa using h2

theorem filter_key_eq_of_nodup {κ β : Type} [DecidableEq κ] {l : List (κ × β)} {k : κ} {v : β}
    (hn : (l.map Prod.fst).Nodup) (hv : dlookup l k = some v) :
    l.filter (fun e => decide (e.1 = k)) = [(k, v)] := by
  induction l with
  | nil => exact absurd hv (by simp [dlookup])
  | cons a t ih =>
    rcases a with ⟨k1, v1⟩
    rw [dlookup_cons] at hv
    simp only [List.map_cons, List.nodup_cons] at hn
    rw [List.filter_cons]
    by_cases hk : k1 = k
    · subst hk
      rw [if_pos rfl] at hv
      have hv1 : v1 = v := by
        cases hv
        rfl
      subst hv1
      have htail : t.filter (fun e => decide (e.1 = k1)) = [] := by
        apply List.eq_nil_iff_forall_not_mem.mpr
        intro e he
        obtain ⟨he1, he2⟩ := List.mem_filter.mp he
        exact hn.1 (List.mem_map.mpr ⟨e, he1, by simpa using he2⟩)
      rw [if_pos (by simp), htail]
    · rw [if_neg hk] at hv
      rw [if_neg (by simp [hk])]
      exact ih hn.2 hv

namespace Server

theorem nodup_condmap (l : List (String × DeviceInfo)) (id : String) (vw : Nat) :
    (l.map Prod.fst).Nodup → (l.map (fun e => e.2.ws)).Nodup →
    (∀ e ∈ l, e.2.ws ≠ vw) →
    (l.map (fun e => if e.1 = id then vw else e.2.ws)).Nodup := by
  induction l with
  | nil =>
    intro _ _ _
    simp
  | cons a t ih =>
    intro hk hn hv
    simp only [List.map_cons, List.nodup_cons] at hk hn ⊢
    refine ⟨?_, ih hk.2 hn.2 (fun e he => hv e (List.mem_cons_of_mem a he))⟩
    intro hmem
    obtain ⟨e, he, heq⟩ := List.mem_map.mp hmem
    by_cases ha : a.1 = id
    · by_cases hhe : e.1 = id
      · exact hk.1 (List.mem_map.mpr ⟨e, he, by rw [hhe, ha]⟩)
      · rw [if_pos ha, if_neg hhe] at heq
        exact hv e (List.mem_cons_of_mem a he) heq
    · by_cases hhe : e.1 = id
      · rw [if_neg ha, if_pos hhe] at heq
        exact hv a (List.mem_cons_self a t) heq.symm
      · rw [if_neg ha, if_neg hhe] at heq
        exact hn.1 (List.mem_map.mpr ⟨e, he, heq⟩)

theorem wsproj_dset_nodup (l : List (String × DeviceInfo)) (id : String) (v : DeviceInfo)
    (hk : (l.map Prod.fst).Nodup) (hn : (l.map (fun e => e.2.ws)).Nodup)
    (hv : ∀ e ∈ l, e.2.ws ≠ v.ws) :
    ((dset l id v).map (fun e => e.2.ws)).Nodup := by
  unfold dset
  by_cases h : l.any (fun e => decide (e.1 = id))
  · rw [if_pos h]
    have heq : ((l.map fun e => if e.1 = id then (id, v) else e).map (fun e => e.2.ws))
        = l.map (fun e => if e.1 = id then v.ws else e.2.ws) := by
      rw [List.map_map]
      refine List.map_congr_left fun e _ => ?_
      by_cases he : e.1 = id <;> simp [he]
    rw [heq]
    exact nodup_condmap l id v.ws hk hn hv
  · rw [if_neg h, List.map_append, List.nodup_append]
    refine ⟨hn, by simp, ?_⟩
    intro x hx hx2
    obtain ⟨e, he, heq⟩ := List.mem_map.mp hx
    have hxv : x = v.ws := by simpa using hx2
    exact hv e he (by rw [heq, hxv])

theorem keys_dset_mem {κ β : Type} [DecidableEq κ] (l : List (κ × β)) (id : κ) (v : β)
    (k : κ) (h : k ∈ (dset l id v).map Prod.fst) : k = id ∨ k ∈ l.map Prod.fst := by
  obtain ⟨e, he, heq⟩ := List.mem_map.mp h
  rcases mem_dset he with h1 | h1
  · left
    rw [← heq, h1]
  · right
    exact List.mem_map.mpr ⟨e, h1, heq⟩

/-- The registry part of the C5 invariant: unique keys, unique endpoints,
and every key was registered at some point. -/
def RegInv (st : Manager) (ids : List String) : Prop :=
  (st.devices.map Prod.fst).Nodup ∧ (st.devices.map (fun e => e.2.ws)).Nodup ∧
  ∀ k ∈ st.devices.map Prod.fst, k ∈ ids

theorem regInv_of_filter {st st2 : Manager} {ids : List String}
    {p : String × DeviceInfo → Bool} (hd : st2.devices = st.devices.filter p)
    (h : RegInv st ids) : RegInv st2 ids := by
  obtain ⟨hk, hw, hsub⟩ := h
  refine ⟨?_, ?_, ?_⟩
  · rw [hd]
    exact hk.sublist (List.Sublist.map _ (List.filter_sublist _))
  · rw [hd]
    exact hw.sublist (List.Sublist.map _ (List.filter_sublist _))
  · intro k hkm
    rw [hd] at hkm
    obtain ⟨e, he, heq⟩ := List.mem_map.mp hkm
    exact hsub k (List.mem_map.mpr ⟨e, List.mem_of_mem_filter he, heq⟩)

theorem regInv_bcast (sendOk : Nat → Bool) (now : Int) (m : FrontMsg) {st : Manager}
    {ids : List String} (h : RegInv st ids) :
    RegInv (broadcastToFrontends sendOk now st m) ids := by
  obtain ⟨bad, hd, _, _⟩ :=
    broadcastToFrontends_shapeS sendOk now (frontWs st) st m (fun x hx => hx)
  exact regInv_of_filter hd h

theorem regInv_disc (sendOk : Nat → Bool) (now : Int) (w : Nat) {st : Manager}
    {ids : List String} (h : RegInv st ids) :
    RegInv (disconnectWs sendOk now st w) ids := by
  obtain ⟨bad, hd, _, _⟩ := disconnectWs_shapeS sendOk now (frontWs st) st w (fun x hx => hx)
  exact regInv_of_filter hd h

end Server

namespace Server

theorem regInv_register (sendOk : Nat → Bool) (now : Int) (w : Nat) (id role : String)
    (m : Payload) {st : Manager} {ids : List String} (h : RegInv st ids) :
    RegInv (register sendOk now st w id role m) (id :: ids) := by
  obtain ⟨hk, hw, hsub⟩ := h
  have hk1 : ((st.devices.filter (fun e => decide (e.2.ws ≠ w))).map Prod.fst).Nodup :=
    hk.sublist (List.Sublist.map _ (List.filter_sublist _))
  have hw1 : ((st.devices.filter (fun e => decide (e.2.ws ≠ w))).map
      (fun e => e.2.ws)).Nodup :=
    hw.sublist (List.Sublist.map _ (List.filter_sublist _))
  have hv1 : ∀ e ∈ st.devices.filter (fun e => decide (e.2.ws ≠ w)), e.2.ws ≠ w := by
    intro e he
    have := (List.mem_filter.mp he).2
    simpa using this
  have hst1 : RegInv
      ⟨dset (st.devices.filter (fun e => decide (e.2.ws ≠ w))) id ⟨w, role, m, now, false⟩,
       st.unregistered.filter (fun x => decide (x ≠ w))⟩ (id :: ids) := by
    refine ⟨dset_map_fst_nodup id _ hk1,
      wsproj_dset_nodup _ id ⟨w, role, m, now, false⟩ hk1 hw1 hv1, ?_⟩
    intro k hkm
    rcases keys_dset_mem _ id _ k hkm with h1 | h1
    · rw [h1]
      exact List.mem_cons_self id ids
    · obtain ⟨e, he, heq⟩ := List.mem_map.mp h1
      exact List.mem_cons_of_mem id
        (hsub k (List.mem_map.mpr ⟨e, List.mem_of_mem_filter he, heq⟩))
  simp only [register]
  by_cases hrole : role = "pi"
  · rw [if_pos hrole]
    exact regInv_bcast sendOk now _ hst1
  · rw [if_neg hrole]
    exact hst1

theorem count_after_bcast (sendOk : Nat → Bool) (now : Int) (m : FrontMsg) (id : String)
    (v : DeviceInfo) {st : Manager} (hk : (st.devices.map Prod.fst).Nodup)
    (hlk : dlookup st.devices id = some v) (hnf : v.ws ∉ frontWs st) :
    ((broadcastToFrontends sendOk now st m).devices.filter
      (fun e => decide (e.1 = id))).length = 1 := by
  obtain ⟨bad, hd, _, hcond⟩ :=
    broadcastToFrontends_shapeS sendOk now (frontWs st) st m (fun x hx => hx)
  have hws : v.ws ∉ bad := by
    intro hin
    rcases hcond v.ws hin with h1 | h1
    · exact absurd h1 (List.not_mem_nil _)
    · exact hnf h1.2
  rw [hd, filter_key_eq_of_nodup
    (hk.sublist (List.Sublist.map _ (List.filter_sublist _)))
    (dlookup_filter_of_nodup _ hk hlk (by simp [hws]))]
  rfl

theorem register_one_entry (sendOk : Nat → Bool) (now : Int) (w : Nat) (id role : String)
    (m : Payload) {st : Manager} {ids : List String} (h : RegInv st ids) :
    ((register sendOk now st w id role m).devices.filter
      (fun e => decide (e.1 = id))).length = 1 := by
  obtain ⟨hk, hw, _⟩ := h
  have hk1 : ((st.devices.filter (fun e => decide (e.2.ws ≠ w))).map Prod.fst).Nodup :=
    hk.sublist (List.Sublist.map _ (List.filter_sublist _))
  have hv1 : ∀ e ∈ st.devices.filter (fun e => decide (e.2.ws ≠ w)), e.2.ws ≠ w := by
    intro e he
    have := (List.mem_filter.mp he).2
    simpa using this
  have hk2 : ((dset (st.devices.filter (fun e => decide (e.2.ws ≠ w))) id
      (⟨w, role, m, now, false⟩ : DeviceInfo)).map Prod.fst).Nodup :=
    dset_map_fst_nodup id _ hk1
  have hlk2 : dlookup (dset (st.devices.filter (fun e => decide (e.2.ws ≠ w))) id
      (⟨w, role, m, now, false⟩ : DeviceInfo)) id
      = some ⟨w, role, m, now, false⟩ :=
    dlookup_dset_self _ id _
  simp only [register]
  by_cases hrole : role = "pi"
  · rw [if_pos hrole]
    apply count_after_bcast sendOk now _ id ⟨w, role, m, now, false⟩ hk2 hlk2
    intro hmem
    unfold frontWs at hmem
    obtain ⟨e, he, heq⟩ := List.mem_map.mp hmem
    obtain ⟨hel, hrolee⟩ := List.mem_filter.mp he
    rcases mem_dset hel with h1 | h1
    · rw [h1] at hrolee heq
      have hrf : role = "frontend" := by simpa using hrolee
      rw [hrole] at hrf
      exact absurd hrf (by decide)
    · exact hv1 e h1 heq
  · rw [if_neg hrole]
    show ((dset (st.devices.filter (fun e => decide (e.2.ws ≠ w))) id
      (⟨w, role, m, now, false⟩ : DeviceInfo)).filter
        (fun e => decide (e.1 = id))).length = 1
    rw [filter_key_eq_of_nodup hk2 hlk2]
    rfl

/-- The registry states reachable from the empty manager by any sequence of
connect, register and disconnect operations; the second index accumulates
every device_id ever registered. -/
inductive Reach : Manager → List String → Prop where
  | init : Reach ⟨[], []⟩ []
  | conn (w : Nat) {st : Manager} {ids : List String} (h : Reach st ids) :
      Reach (connect st w) ids
  | reg (sendOk : Nat → Bool) (now : Int) (w : Nat) (id role : String) (m : Payload)
      {st : Manager} {ids : List String} (h : Reach st ids) :
      Reach (register sendOk now st w id role m) (id :: ids)
  | disc (sendOk : Nat → Bool) (now : Int) (w : Nat) {st : Manager} {ids : List String}
      (h : Reach st ids) : Reach (disconnectWs sendOk now st w) ids

theorem reach_regInv {st : Manager} {ids : List String} (h : Reach st ids) :
    RegInv st ids := by
  induction h with
  | init => exact ⟨List.nodup_nil, List.nodup_nil, by simp⟩
  | conn w h ih => exact ih
  | reg sendOk now w id role m h ih => exact regInv_register sendOk now w id role m ih
  | disc sendOk now w h ih => exact regInv_disc sendOk now w ih

/-- C5: after every sequence of register and disconnect operations the
device_id keys are unique, at most one entry references any endpoint (the
endpoint lists are duplicate-free), the device listing never exceeds the
number of distinct registered ids, and registering an id always leaves
exactly one live entry under that id. -/
theorem registry_invariants :
    (∀ (st : Manager) (ids : List String), Reach st ids →
      (st.devices.map Prod.fst).Nodup ∧ (st.devices.map (fun e => e.2.ws)).Nodup ∧
      (listDevices st).length ≤ ids.dedup.length) ∧
    (∀ (sendOk : Nat → Bool) (now : Int) (st : Manager) (ids : List String) (w : Nat)
      (id role : String) (m : Payload), Reach st ids →
      ((register sendOk now st w id role m).devices.filter
        (fun e => decide (e.1 = id))).length = 1) := by
  constructor
  · intro st ids h
    obtain ⟨hk, hw, hsub⟩ := reach_regInv h
    refine ⟨hk, hw, ?_⟩
    have hlen : (listDevices st).length = (st.devices.map Prod.fst).length := by
      simp [listDevices]
    rw [hlen]
    apply nodup_subset_length_le hk
    intro k hkm
    exact List.mem_dedup.mpr (hsub k hkm)
  · intro sendOk now st ids w id role m h
    exact register_one_entry sendOk now w id role m (reach_regInv h)

/-- The state after registering pi-01 twice from two different endpoints. -/
def c5w1 : Manager := register (fun _ => true) 1 ⟨[], []⟩ 5 "pi-01" "pi" {}

/-- Second registration of the same id from endpoint 6. -/
def c5w2 : Manager := register (fun _ => true) 2 c5w1 6 "pi-01" "pi" {}

/-- C5 witness: after registering pi-01 twice the keys and endpoints are
duplicate-free, the listing stays within the one distinct id, and a third
registration still leaves exactly one live pi-01 entry. -/
theorem registry_invariants_witness :
    ((c5w2.devices.map Prod.fst).Nodup ∧ (c5w2.devices.map (fun e => e.2.ws)).Nodup ∧
      (listDevices c5w2).length ≤ ["pi-01", "pi-01"].dedup.length) ∧
    ((register (fun _ => true) 3 c5w2 7 "pi-01" "pi" {}).devices.filter
      (fun e => decide (e.1 = "pi-01"))).length = 1 := by
  have hr1 : Reach c5w1 ["pi-01"] :=
    Reach.reg (fun _ => true) 1 5 "pi-01" "pi" {} Reach.init
  have hr2 : Reach c5w2 ["pi-01", "pi-01"] :=
    Reach.reg (fun _ => true) 2 6 "pi-01" "pi" {} hr1
  exact ⟨registry_invariants.1 c5w2 ["pi-01", "pi-01"] hr2,
    registry_invariants.2 (fun _ => true) 3 c5w2 ["pi-01", "pi-01"] 7 "pi-01" "pi" {} hr2⟩

end Server

namespace Server

theorem shapeS_dlookup_some {sendOk : Nat → Bool} {S : List Nat} {st st2 : Manager}
    {extra : List Nat} (h : ShapeS sendOk S st st2 extra) {id : String} {v : DeviceInfo}
    (hk : (st.devices.map Prod.fst).Nodup) (hlk : dlookup st.devices id = some v)
    (hok : sendOk v.ws = true) (hex : v.ws ∉ extra) :
    dlookup st2.devices id = some v := by
  obtain ⟨bad, hd, _, hcond⟩ := h
  have hvb : v.ws ∉ bad := by
    intro hin
    rcases hcond _ hin with h1 | h1
    · exact hex h1
    · rw [hok] at h1
      exact Bool.noConfusion h1.1
  rw [hd]
  exact dlookup_filter_of_nodup _ hk hlk (by simp [hvb])

theorem shapeS_dlookup_none {sendOk : Nat → Bool} {S : List Nat} {st st2 : Manager}
    {extra : List Nat} (h : ShapeS sendOk S st st2 extra) {id : String}
    (hlk : dlookup st.devices id = none) : dlookup st2.devices id = none := by
  obtain ⟨bad, hd, _, _⟩ := h
  rw [hd]
  exact dlookup_filter_none _ hlk

theorem shapeS_keys_nodup {sendOk : Nat → Bool} {S : List Nat} {st st2 : Manager}
    {extra : List Nat} (h : ShapeS sendOk S st st2 extra)
    (hk : (st.devices.map Prod.fst).Nodup) : (st2.devices.map Prod.fst).Nodup := by
  obtain ⟨bad, hd, _, _⟩ := h
  rw [hd]
  exact hk.sublist (List.Sublist.map _ (List.filter_sublist _))

theorem ws_unique_not_frontWs {st : Manager}
    (hwn : (st.devices.map (fun e => e.2.ws)).Nodup) {id : String} {v : DeviceInfo}
    (hmem : (id, v) ∈ st.devices) (hrole : v.role ≠ "frontend") : v.ws ∉ frontWs st := by
  intro hin
  unfold frontWs at hin
  obtain ⟨e, he, heq⟩ := List.mem_map.mp hin
  obtain ⟨he1, he2⟩ := List.mem_filter.mp he
  have heq2 : e = (id, v) := List.inj_on_of_nodup_map hwn he1 hmem (by rw [heq])
  rw [heq2] at he2
  exact hrole (by simpa using he2)

theorem setE_keys (st : Manager) (k : String) :
    (setEmergencyIfPresent st k).devices.map Prod.fst = st.devices.map Prod.fst := by
  unfold setEmergencyIfPresent
  by_cases h : (dlookup st.devices k).isSome = true
  · rw [if_pos h]
    exact map_proj_updateOne st.devices k (fun v => { v with emergency := true })
      Prod.fst (fun a b => rfl)
  · rw [if_neg h]

theorem setE_dlookup (st : Manager) (k k2 : String) :
    dlookup (setEmergencyIfPresent st k).devices k2
      = (dlookup st.devices k2).map
          (fun v => if k2 = k then { v with emergency := true } else v) := by
  unfold setEmergencyIfPresent
  by_cases h : (dlookup st.devices k).isSome = true
  · rw [if_pos h]
    dsimp only
    rw [dlookup_map_updateOne st.devices k (fun v => { v with emergency := true }) k2]
  · rw [if_neg h]
    by_cases hk2 : k2 = k
    · have hnone : dlookup st.devices k2 = none := by
        rw [hk2]
        exact Option.not_isSome_iff_eq_none.mp h
      rw [hnone]
      rfl
    · cases hv : dlookup st.devices k2 with
      | none => rfl
      | some v => simp [hk2]

theorem setE_frontWs (st : Manager) (k : String) :
    frontWs (setEmergencyIfPresent st k) = frontWs st := by
  unfold setEmergencyIfPresent frontWs
  by_cases h : (dlookup st.devices k).isSome = true
  · rw [if_pos h]
    exact filter_map_proj_updateOne st.devices k (fun v => { v with emergency := true })
      (fun e => decide (e.2.role = "frontend")) (fun e => e.2.ws)
      (fun a b => rfl) (fun a b => rfl)
  · rw [if_neg h]

theorem runCmd_disc_removes (sendOk : Nat → Bool) (now : Int) (fuel : Nat) {st : Manager}
    {id : String} {v : DeviceInfo} (hk : (st.devices.map Prod.fst).Nodup)
    (hlk : dlookup st.devices id = some v) :
    dlookup (runCmd sendOk now (fuel + 1) st (.disc v.ws)).devices id = none := by
  have unf : runCmd sendOk now (fuel + 1) st (.disc v.ws)
      = ((st.devices.filter (fun e => decide (e.2.ws = v.ws))).map Prod.fst).foldl
          (fun acc did => runCmd sendOk now fuel acc (.bcast (.deviceDisconnected did now)))
          ⟨st.devices.filter (fun e => decide (e.2.ws ≠ v.ws)),
           st.unregistered.filter (fun x => decide (x ≠ v.ws))⟩ := rfl
  rw [unf]
  have h1 : dlookup (st.devices.filter (fun e => decide (e.2.ws ≠ v.ws))) id = none :=
    dlookup_filter_none_of_nodup _ hk hlk (by simp)
  have hfold : ∀ (l : List String) (acc : Manager), dlookup acc.devices id = none →
      dlookup ((l.foldl (fun acc did =>
        runCmd sendOk now fuel acc (.bcast (.deviceDisconnected did now))) acc)).devices id
        = none := by
    intro l
    induction l with
    | nil =>
      intro acc h
      exact h
    | cons a t ih =>
      intro acc h
      rw [List.foldl_cons]
      apply ih
      obtain ⟨bad, hd, _, _⟩ := runCmd_shapeS sendOk now (frontWs acc) fuel acc
        (.bcast (.deviceDisconnected a now)) (fun x hx => hx)
      rw [hd]
      exact dlookup_filter_none _ h
  exact hfold _ _ h1

theorem disconnectWs_removes (sendOk : Nat → Bool) (now : Int) {st : Manager} {id : String}
    {v : DeviceInfo} (hk : (st.devices.map Prod.fst).Nodup)
    (hlk : dlookup st.devices id = some v) :
    dlookup (disconnectWs sendOk now st v.ws).devices id = none := by
  show dlookup (runCmd sendOk now (2 * st.devices.length + 2) st (.disc v.ws)).devices id
    = none
  have h2 : 2 * st.devices.length + 2 = (2 * st.devices.length + 1) + 1 := rfl
  rw [h2]
  exact runCmd_disc_removes sendOk now _ hk hlk

theorem ebp_count (sendOk : Nat → Bool) (now : Int) :
    ∀ (l : List (String × DeviceInfo)) (acc : Manager × Nat),
      (l.foldl (ebpStep sendOk now) acc).2
        = acc.2 + (l.filter (fun e => sendOk e.2.ws)).length := by
  intro l
  induction l with
  | nil =>
    intro acc
    simp
  | cons a t ih =>
    intro acc
    rw [List.foldl_cons, ih]
    by_cases hok : sendOk a.2.ws = true
    · have h1 : (ebpStep sendOk now acc a).2 = acc.2 + 1 := by
        simp [ebpStep, hok]
      have h2 : (a :: t).filter (fun e => sendOk e.2.ws)
          = a :: t.filter (fun e => sendOk e.2.ws) := by
        rw [List.filter_cons, if_pos hok]
      rw [h1, h2, List.length_cons]
      omega
    · have h1 : (ebpStep sendOk now acc a).2 = acc.2 := by
        simp [ebpStep, hok]
      have h2 : (a :: t).filter (fun e => sendOk e.2.ws)
          = t.filter (fun e => sendOk e.2.ws) := by
        rw [List.filter_cons, if_neg hok]
      rw [h1, h2]

theorem ebp_specs (sendOk : Nat → Bool) (now : Int) (st : Manager) (msg : OutMsg) :
    (emergencyBroadcastToPis sendOk now st msg).total = (piEntries st).length ∧
    (emergencyBroadcastToPis sendOk now st msg).attempts
      = (piEntries st).map (fun e => (e.1, msg)) ∧
    (emergencyBroadcastToPis sendOk now st msg).success
      = ((piEntries st).filter (fun e => sendOk e.2.ws)).length := by
  refine ⟨rfl, rfl, ?_⟩
  show ((piEntries st).foldl (ebpStep sendOk now) (st, 0)).2 = _
  rw [ebp_count]
  simp

theorem replyStep_snd (sendOk : Nat → Bool) (now : Int) (w : Nat) (st : Manager) :
    (replyStep sendOk now w st).2 = sendOk w := by
  unfold replyStep
  by_cases h : sendOk w = true
  · rw [if_pos h, h]
  · rw [if_neg h]
    have : sendOk w = false := by
      revert h
      cases sendOk w <;> simp
    rw [this]

end Server

namespace Server

theorem ebp_fold_preserve (sendOk : Nat → Bool) (now : Int) (id : String) (v : DeviceInfo)
    (hok : sendOk v.ws = true) :
    ∀ (l : List (String × DeviceInfo)) (acc : Manager × Nat),
      (∀ e ∈ l, e.1 ≠ id) →
      (acc.1.devices.map Prod.fst).Nodup →
      dlookup acc.1.devices id = some v →
      ((l.foldl (ebpStep sendOk now) acc).1.devices.map Prod.fst).Nodup ∧
      dlookup ((l.foldl (ebpStep sendOk now) acc).1.devices) id = some v := by
  intro l
  induction l with
  | nil =>
    intro acc _ hk hlk
    exact ⟨hk, hlk⟩
  | cons a t ih =>
    intro acc hne hk hlk
    rw [List.foldl_cons]
    refine ih (ebpStep sendOk now acc a) (fun e he => hne e (List.mem_cons_of_mem a he)) ?_ ?_
    · unfold ebpStep
      by_cases hoka : sendOk a.2.ws = true
      · rw [if_pos hoka]
        show ((setEmergencyIfPresent acc.1 a.1).devices.map Prod.fst).Nodup
        rw [setE_keys]
        exact hk
      · rw [if_neg hoka]
        show ((disconnectWs sendOk now acc.1 a.2.ws).devices.map Prod.fst).Nodup
        exact shapeS_keys_nodup
          (disconnectWs_shapeS sendOk now (frontWs acc.1) acc.1 a.2.ws (fun x hx => hx)) hk
    · unfold ebpStep
      by_cases hoka : sendOk a.2.ws = true
      · rw [if_pos hoka]
        show dlookup (setEmergencyIfPresent acc.1 a.1).devices id = some v
        rw [setE_dlookup, hlk]
        have hne1 : id ≠ a.1 := fun hh => hne a (List.mem_cons_self a t) hh.symm
        simp [hne1]
      · rw [if_neg hoka]
        show dlookup (disconnectWs sendOk now acc.1 a.2.ws).devices id = some v
        apply shapeS_dlookup_some
          (disconnectWs_shapeS sendOk now (frontWs acc.1) acc.1 a.2.ws (fun x hx => hx))
          hk hlk hok
        intro hin
        have h2 : v.ws = a.2.ws := by simpa using hin
        rw [h2] at hok
        exact hoka hok
  
theorem ebp_fold_none (sendOk : Nat → Bool) (now : Int) (id : String) :
    ∀ (l : List (String × DeviceInfo)) (acc : Manager × Nat),
      dlookup acc.1.devices id = none →
      dlookup ((l.foldl (ebpStep sendOk now) acc).1.devices) id = none := by
  intro l
  induction l with
  | nil =>
    intro acc h
    exact h
  | cons a t ih =>
    intro acc h
    rw [List.foldl_cons]
    apply ih
    unfold ebpStep
    by_cases hoka : sendOk a.2.ws = true
    · rw [if_pos hoka]
      show dlookup (setEmergencyIfPresent acc.1 a.1).devices id = none
      rw [setE_dlookup, h]
      rfl
    · rw [if_neg hoka]
      show dlookup (disconnectWs sendOk now acc.1 a.2.ws).devices id = none
      exact shapeS_dlookup_none
        (disconnectWs_shapeS sendOk now (frontWs acc.1) acc.1 a.2.ws (fun x hx => hx)) h

theorem ebp_fold_preserve_fail (sendOk : Nat → Bool) (now : Int) (id : String)
    (v : DeviceInfo) (S : List Nat) (hfail : sendOk v.ws = false) (hvS : v.ws ∉ S) :
    ∀ (l : List (String × DeviceInfo)) (acc : Manager × Nat),
      (∀ e ∈ l, e.1 ≠ id) → (∀ e ∈ l, e.2.ws ≠ v.ws) →
      (∀ x ∈ frontWs acc.1, x ∈ S) →
      (acc.1.devices.map Prod.fst).Nodup →
      dlookup acc.1.devices id = some v →
      ((l.foldl (ebpStep sendOk now) acc).1.devices.map Prod.fst).Nodup ∧
      dlookup ((l.foldl (ebpStep sendOk now) acc).1.devices) id = some v ∧
      (∀ x ∈ frontWs (l.foldl (ebpStep sendOk now) acc).1, x ∈ S) := by
  intro l
  induction l with
  | nil =>
    intro acc _ _ hf hk hlk
    exact ⟨hk, hlk, hf⟩
  | cons a t ih =>
    intro acc hne hnw hf hk hlk
    rw [List.foldl_cons]
    refine ih (ebpStep sendOk now acc a) (fun e he => hne e (List.mem_cons_of_mem a he))
      (fun e he => hnw e (List.mem_cons_of_mem a he)) ?_ ?_ ?_
    · unfold ebpStep
      by_cases hoka : sendOk a.2.ws = true
      · rw [if_pos hoka]
        show ∀ x ∈ frontWs (setEmergencyIfPresent acc.1 a.1), x ∈ S
        rw [setE_frontWs]
        exact hf
      · rw [if_neg hoka]
        show ∀ x ∈ frontWs (disconnectWs sendOk now acc.1 a.2.ws), x ∈ S
        obtain ⟨bad, hd, _, _⟩ :=
          disconnectWs_shapeS sendOk now (frontWs acc.1) acc.1 a.2.ws (fun x hx => hx)
        exact fun x hx => hf x (frontWs_of_filter hd x hx)
    · unfold ebpStep
      by_cases hoka : sendOk a.2.ws = true
      · rw [if_pos hoka]
        show ((setEmergencyIfPresent acc.1 a.1).devices.map Prod.fst).Nodup
        rw [setE_keys]
        exact hk
      · rw [if_neg hoka]
        show ((disconnectWs sendOk now acc.1 a.2.ws).devices.map Prod.fst).Nodup
        exact shapeS_keys_nodup
          (disconnectWs_shapeS sendOk now (frontWs acc.1) acc.1 a.2.ws (fun x hx => hx)) hk
    · unfold ebpStep
      by_cases hoka : sendOk a.2.ws = true
      · rw [if_pos hoka]
        show dlookup (setEmergencyIfPresent acc.1 a.1).devices id = some v
        rw [setE_dlookup, hlk]
        have hne1 : id ≠ a.1 := fun hh => hne a (List.mem_cons_self a t) hh.symm
        simp [hne1]
      · rw [if_neg hoka]
        show dlookup (disconnectWs sendOk now acc.1 a.2.ws).devices id = some v
        obtain ⟨bad, hd, _, hcond⟩ :=
          disconnectWs_shapeS sendOk now (frontWs acc.1) acc.1 a.2.ws (fun x hx => hx)
        have hvb : v.ws ∉ bad := by
          intro hin
          rcases hcond _ hin with h1 | h1
          · have h2 : v.ws = a.2.ws := by simpa using h1
            exact hnw a (List.mem_cons_self a t) h2.symm
          · exact hvS (hf _ h1.2)
        rw [hd]
        exact dlookup_filter_of_nodup _ hk hlk (by simp [hvb])

end Server

namespace Server

theorem ebp_flag_set (sendOk : Nat → Bool) (now : Int) (st : Manager) (msg : OutMsg)
    (hk : (st.devices.map Prod.fst).Nodup) {id : String} {info : DeviceInfo}
    (hlk : dlookup st.devices id = some info) (hrole : info.role = "pi")
    (hok : sendOk info.ws = true) :
    dlookup (emergencyBroadcastToPis sendOk now st msg).st.devices id
        = some { info with emergency := true } ∧
    ((emergencyBroadcastToPis sendOk now st msg).st.devices.map Prod.fst).Nodup := by
  have hmem : (id, info) ∈ piEntries st :=
    List.mem_filter.mpr ⟨mem_of_dlookup hlk, by simp [hrole]⟩
  obtain ⟨l1, l2, hsplit⟩ := List.append_of_mem hmem
  have hkpi : ((piEntries st).map Prod.fst).Nodup :=
    hk.sublist (List.Sublist.map _ (List.filter_sublist _))
  rw [hsplit, List.map_append, List.map_cons, List.nodup_append] at hkpi
  have hl2 : ∀ e ∈ l2, e.1 ≠ id := by
    intro e he hh
    exact (List.nodup_cons.mp hkpi.2.1).1 (List.mem_map.mpr ⟨e, he, hh⟩)
  have hl1 : ∀ e ∈ l1, e.1 ≠ id := by
    intro e he hh
    exact hkpi.2.2 (List.mem_map.mpr ⟨e, he, rfl⟩)
      (by rw [hh]; exact List.mem_cons_self _ _)
  show dlookup ((piEntries st).foldl (ebpStep sendOk now) (st, 0)).1.devices id = _ ∧
    (((piEntries st).foldl (ebpStep sendOk now) (st, 0)).1.devices.map Prod.fst).Nodup
  rw [hsplit, List.foldl_append, List.foldl_cons]
  have hph1 := ebp_fold_preserve sendOk now id info hok l1 (st, 0) hl1 hk hlk
  have hok2 : sendOk ((id, info) : String × DeviceInfo).2.ws = true := hok
  have hstep : ebpStep sendOk now (l1.foldl (ebpStep sendOk now) (st, 0)) (id, info)
      = (setEmergencyIfPresent (l1.foldl (ebpStep sendOk now) (st, 0)).1 id,
         (l1.foldl (ebpStep sendOk now) (st, 0)).2 + 1) := by
    unfold ebpStep
    rw [if_pos hok2]
  rw [hstep]
  have hlkset : dlookup
      (setEmergencyIfPresent (l1.foldl (ebpStep sendOk now) (st, 0)).1 id).devices id
      = some { info with emergency := true } := by
    rw [setE_dlookup, hph1.2]
    simp
  have hkset : ((setEmergencyIfPresent
      (l1.foldl (ebpStep sendOk now) (st, 0)).1 id).devices.map Prod.fst).Nodup := by
    rw [setE_keys]
    exact hph1.1
  have hph3 := ebp_fold_preserve sendOk now id { info with emergency := true } hok l2
    (setEmergencyIfPresent (l1.foldl (ebpStep sendOk now) (st, 0)).1 id,
     (l1.foldl (ebpStep sendOk now) (st, 0)).2 + 1) hl2 hkset hlkset
  exact ⟨hph3.2, hph3.1⟩

theorem ebp_removed (sendOk : Nat → Bool) (now : Int) (st : Manager) (msg : OutMsg)
    (hk : (st.devices.map Prod.fst).Nodup) (hwn : (st.devices.map (fun e => e.2.ws)).Nodup)
    {id : String} {info : DeviceInfo}
    (hlk : dlookup st.devices id = some info) (hrole : info.role = "pi")
    (hfail : sendOk info.ws = false) :
    dlookup (emergencyBroadcastToPis sendOk now st msg).st.devices id = none := by
  have hmem : (id, info) ∈ piEntries st :=
    List.mem_filter.mpr ⟨mem_of_dlookup hlk, by simp [hrole]⟩
  obtain ⟨l1, l2, hsplit⟩ := List.append_of_mem hmem
  have hkpi : ((piEntries st).map Prod.fst).Nodup :=
    hk.sublist (List.Sublist.map _ (List.filter_sublist _))
  rw [hsplit, List.map_append, List.map_cons, List.nodup_append] at hkpi
  have hl2 : ∀ e ∈ l2, e.1 ≠ id := by
    intro e he hh
    exact (List.nodup_cons.mp hkpi.2.1).1 (List.mem_map.mpr ⟨e, he, hh⟩)
  have hl1 : ∀ e ∈ l1, e.1 ≠ id := by
    intro e he hh
    exact hkpi.2.2 (List.mem_map.mpr ⟨e, he, rfl⟩)
      (by rw [hh]; exact List.mem_cons_self _ _)
  have hwpi : ((piEntries st).map (fun e => e.2.ws)).Nodup :=
    hwn.sublist (List.Sublist.map _ (List.filter_sublist _))
  rw [hsplit, List.map_append, List.map_cons, List.nodup_append] at hwpi
  have hwl1 : ∀ e ∈ l1, e.2.ws ≠ info.ws := by
    intro e he hh
    exact hwpi.2.2 (List.mem_map.mpr ⟨e, he, rfl⟩)
      (by rw [hh]; exact List.mem_cons_self _ _)
  have hvS : info.ws ∉ frontWs st :=
    ws_unique_not_frontWs hwn (mem_of_dlookup hlk) (by rw [hrole]; decide)
  show dlookup ((piEntries st).foldl (ebpStep sendOk now) (st, 0)).1.devices id = none
  rw [hsplit, List.foldl_append, List.foldl_cons]
  have hph1 := ebp_fold_preserve_fail sendOk now id info (frontWs st) hfail hvS l1 (st, 0)
    hl1 hwl1 (fun x hx => hx) hk hlk
  have hfail2 : sendOk ((id, info) : String × DeviceInfo).2.ws = false := hfail
  have hstep : ebpStep sendOk now (l1.foldl (ebpStep sendOk now) (st, 0)) (id, info)
      = (disconnectWs sendOk now (l1.foldl (ebpStep sendOk now) (st, 0)).1 info.ws,
         (l1.foldl (ebpStep sendOk now) (st, 0)).2) := by
    unfold ebpStep
    rw [if_neg (fun hc => by rw [hc] at hfail2; exact Bool.noConfusion hfail2)]
  rw [hstep]
  have hnone := disconnectWs_removes sendOk now hph1.1 hph1.2.1
  exact ebp_fold_none sendOk now id l2 _ hnone

end Server

namespace Server

theorem bcast_dlookup_some (sendOk : Nat → Bool) (now : Int) (m : FrontMsg) {st : Manager}
    {id : String} {v : DeviceInfo} (hk : (st.devices.map Prod.fst).Nodup)
    (hlk : dlookup st.devices id = some v) (hok : sendOk v.ws = true) :
    dlookup (broadcastToFrontends sendOk now st m).devices id = some v :=
  shapeS_dlookup_some
    (broadcastToFrontends_shapeS sendOk now (frontWs st) st m (fun x hx => hx))
    hk hlk hok (List.not_mem_nil _)

theorem bcast_dlookup_none (sendOk : Nat → Bool) (now : Int) (m : FrontMsg) {st : Manager}
    {id : String} (hlk : dlookup st.devices id = none) :
    dlookup (broadcastToFrontends sendOk now st m).devices id = none :=
  shapeS_dlookup_none
    (broadcastToFrontends_shapeS sendOk now (frontWs st) st m (fun x hx => hx)) hlk

theorem disc_dlookup_some (sendOk : Nat → Bool) (now : Int) (w : Nat) {st : Manager}
    {id : String} {v : DeviceInfo} (hk : (st.devices.map Prod.fst).Nodup)
    (hlk : dlookup st.devices id = some v) (hok : sendOk v.ws = true) (hne : v.ws ≠ w) :
    dlookup (disconnectWs sendOk now st w).devices id = some v :=
  shapeS_dlookup_some
    (disconnectWs_shapeS sendOk now (frontWs st) st w (fun x hx => hx))
    hk hlk hok (by simpa using hne)

theorem disc_dlookup_none (sendOk : Nat → Bool) (now : Int) (w : Nat) {st : Manager}
    {id : String} (hlk : dlookup st.devices id = none) :
    dlookup (disconnectWs sendOk now st w).devices id = none :=
  shapeS_dlookup_none
    (disconnectWs_shapeS sendOk now (frontWs st) st w (fun x hx => hx)) hlk

theorem replyStep_fst (sendOk : Nat → Bool) (now : Int) (w : Nat) (st : Manager) :
    (replyStep sendOk now w st).1
      = if sendOk w then st else disconnectWs sendOk now st w := by
  unfold replyStep
  by_cases h : sendOk w = true
  · rw [if_pos h, if_pos h]
  · rw [if_neg h, if_neg h]

/-- C1: an `emergency_stop` control message from a frontend is delivered to
every entry registered with role pi at the moment the broadcast starts
(ignoring the target field, which the branch never reads), the reply
reports `devices_reached` as the number of pis whose send succeeded
together with the pi total at send time, no per-device or pi-broadcast
forwarding happens, each successfully reached pi entry ends with its
emergency flag set, and each failed pi entry is removed from the registry;
the HTTP `/control` endpoint behaves the same way and ignores its target
parameter outright. -/
theorem emergency_stop_broadcast :
    (∀ (sendOk : Nat → Bool) (now : Int) (navGrid : Option Planner.Grid) (w : Nat)
      (hid : String) (st0 : Manager) (pkt : Packet),
      pkt.action = some "control" → pkt.ptype = some "emergency_stop" →
      (st0.devices.map Prod.fst).Nodup →
      (st0.devices.map (fun e => e.2.ws)).Nodup →
      (handlePacket sendOk now navGrid w "frontend" hid st0 pkt).emergencySends
          = (piEntries (metaUpdate now st0 (pkt.device_id.getD hid) pkt.payload)).map
              (fun e => (e.1, OutMsg.envelope (pkt.device_id.getD hid) pkt.ptype
                pkt.payload pkt.ts)) ∧
      (handlePacket sendOk now navGrid w "frontend" hid st0 pkt).replies
          = [Reply.emergencySent
              (((piEntries (metaUpdate now st0 (pkt.device_id.getD hid)
                pkt.payload)).filter (fun e => sendOk e.2.ws)).length)
              (piEntries (metaUpdate now st0 (pkt.device_id.getD hid) pkt.payload)).length
              now] ∧
      (handlePacket sendOk now navGrid w "frontend" hid st0 pkt).deviceSends = [] ∧
      (handlePacket sendOk now navGrid w "frontend" hid st0 pkt).piBroadcasts = [] ∧
      (∀ (id : String) (info : DeviceInfo),
        dlookup (metaUpdate now st0 (pkt.device_id.getD hid) pkt.payload).devices id
          = some info →
        info.role = "pi" → sendOk info.ws = true → info.ws ≠ w →
        dlookup (handlePacket sendOk now navGrid w "frontend" hid st0 pkt).st.devices id
          = some { info with emergency := true }) ∧
      (∀ (id : String) (info : DeviceInfo),
        dlookup (metaUpdate now st0 (pkt.device_id.getD hid) pkt.payload).devices id
          = some info →
        info.role = "pi" → sendOk info.ws = false →
        dlookup (handlePacket sendOk now navGrid w "frontend" hid st0 pkt).st.devices id
          = none)) ∧
    (∀ (sendOk : Nat → Bool) (now : Int) (st : Manager) (targetB targetB2 : Option String)
      (payloadB : Payload),
      httpControl sendOk now st targetB payloadB (some "emergency_stop")
        = httpControl sendOk now st targetB2 payloadB (some "emergency_stop") ∧
      (httpControl sendOk now st targetB payloadB (some "emergency_stop")).resp
        = HttpResp.emergencySent
            (((piEntries st).filter (fun e => sendOk e.2.ws)).length)
            (piEntries st).length ∧
      (httpControl sendOk now st targetB payloadB (some "emergency_stop")).emergencySends
        = (piEntries st).map (fun e =>
            (e.1, OutMsg.envelope "http-client" (some "emergency_stop") payloadB
              (some now)))) := by
  constructor
  · intro sendOk now navGrid w hid st0 pkt hact hem hk hwn
    have hkU : ((metaUpdate now st0 (pkt.device_id.getD hid)
        pkt.payload).devices.map Prod.fst).Nodup := by
      rw [metaUpdate_keys]
      exact hk
    have hwU : ((metaUpdate now st0 (pkt.device_id.getD hid)
        pkt.payload).devices.map (fun e => e.2.ws)).Nodup := by
      rw [metaUpdate_wsList]
      exact hwn
    simp only [handlePacket]
    rw [if_neg (fun hc => absurd hc.2.2 (by decide)),
      if_neg (fun hc => absurd hc.2.2 (by decide)),
      if_neg (fun hc => absurd hc.2.2 (by decide)),
      if_neg (fun hc => by
        rcases hc.1 with h | h <;> rw [hact] at h <;> exact absurd h (by decide)),
      if_pos ⟨hact, trivial⟩, if_pos hem, replyStep_fst]
    by_cases hpw : sendOk w = true
    · rw [replyStep_snd, if_pos hpw, if_pos hpw]
      refine ⟨?_, ?_, rfl, rfl, ?_, ?_⟩
      · exact (ebp_specs sendOk now _ _).2.1
      · show [Reply.emergencySent
            (emergencyBroadcastToPis sendOk now
              (metaUpdate now st0 (pkt.device_id.getD hid) pkt.payload)
              (OutMsg.envelope (pkt.device_id.getD hid) pkt.ptype pkt.payload pkt.ts)).success
            (emergencyBroadcastToPis sendOk now
              (metaUpdate now st0 (pkt.device_id.getD hid) pkt.payload)
              (OutMsg.envelope (pkt.device_id.getD hid) pkt.ptype pkt.payload pkt.ts)).total
            now] = _
        rw [(ebp_specs sendOk now _ _).2.2, (ebp_specs sendOk now _ _).1]
      · intro id info hlkU hrole hoki hnw2
        obtain ⟨hset, hkr⟩ := ebp_flag_set sendOk now
          (metaUpdate now st0 (pkt.device_id.getD hid) pkt.payload)
          (OutMsg.envelope (pkt.device_id.getD hid) pkt.ptype pkt.payload pkt.ts)
          hkU hlkU hrole hoki
        apply bcast_dlookup_some sendOk now
          (FrontMsg.emergencyBroadcast (some (pkt.device_id.getD hid))
            (emergencyBroadcastToPis sendOk now
              (metaUpdate now st0 (pkt.device_id.getD hid) pkt.payload)
              (OutMsg.envelope (pkt.device_id.getD hid) pkt.ptype pkt.payload pkt.ts)).success
            (emergencyBroadcastToPis sendOk now
              (metaUpdate now st0 (pkt.device_id.getD hid) pkt.payload)
              (OutMsg.envelope (pkt.device_id.getD hid) pkt.ptype pkt.payload pkt.ts)).total
            now) hkr hset hoki
      · intro id info hlkU hrole hfail
        have hnone := ebp_removed sendOk now
          (metaUpdate now st0 (pkt.device_id.getD hid) pkt.payload)
          (OutMsg.envelope (pkt.device_id.getD hid) pkt.ptype pkt.payload pkt.ts)
          hkU hwU hlkU hrole hfail
        apply bcast_dlookup_none sendOk now
          (FrontMsg.emergencyBroadcast (some (pkt.device_id.getD hid))
            (emergencyBroadcastToPis sendOk now
              (metaUpdate now st0 (pkt.device_id.getD hid) pkt.payload)
              (OutMsg.envelope (pkt.device_id.getD hid) pkt.ptype pkt.payload pkt.ts)).success
            (emergencyBroadcastToPis sendOk now
              (metaUpdate now st0 (pkt.device_id.getD hid) pkt.payload)
              (OutMsg.envelope (pkt.device_id.getD hid) pkt.ptype pkt.payload pkt.ts)).total
            now) hnone
    · rw [replyStep_snd, if_neg hpw, if_neg hpw]
      refine ⟨?_, ?_, rfl, rfl, ?_, ?_⟩
      · exact (ebp_specs sendOk now _ _).2.1
      · show [Reply.emergencySent
            (emergencyBroadcastToPis sendOk now
              (metaUpdate now st0 (pkt.device_id.getD hid) pkt.payload)
              (OutMsg.envelope (pkt.device_id.getD hid) pkt.ptype pkt.payload pkt.ts)).success
            (emergencyBroadcastToPis sendOk now
              (metaUpdate now st0 (pkt.device_id.getD hid) pkt.payload)
              (OutMsg.envelope (pkt.device_id.getD hid) pkt.ptype pkt.payload pkt.ts)).total
            now] = _
        rw [(ebp_specs sendOk now _ _).2.2, (ebp_specs sendOk now _ _).1]
      · intro id info hlkU hrole hoki hnw2
        obtain ⟨hset, hkr⟩ := ebp_flag_set sendOk now
          (metaUpdate now st0 (pkt.device_id.getD hid) pkt.payload)
          (OutMsg.envelope (pkt.device_id.getD hid) pkt.ptype pkt.payload pkt.ts)
          hkU hlkU hrole hoki
        exact disc_dlookup_some sendOk now w hkr hset hoki hnw2
      · intro id info hlkU hrole hfail
        have hnone := ebp_removed sendOk now
          (metaUpdate now st0 (pkt.device_id.getD hid) pkt.payload)
          (OutMsg.envelope (pkt.device_id.getD hid) pkt.ptype pkt.payload pkt.ts)
          hkU hwU hlkU hrole hfail
        exact disc_dlookup_none sendOk now w hnone
  · intro sendOk now st targetB targetB2 payloadB
    refine ⟨rfl, ?_, ?_⟩
    · show HttpResp.emergencySent
          (emergencyBroadcastToPis sendOk now st (OutMsg.envelope "http-client"
            (some "emergency_stop") payloadB (some now))).success
          (emergencyBroadcastToPis sendOk now st (OutMsg.envelope "http-client"
            (some "emergency_stop") payloadB (some now))).total = _
      rw [(ebp_specs sendOk now _ _).2.2, (ebp_specs sendOk now _ _).1]
    · exact (ebp_specs sendOk now st (OutMsg.envelope "http-client"
        (some "emergency_stop") payloadB (some now))).2.1

end Server

namespace Server

/-- Sends succeed everywhere except socket 3 (pi-02). -/
def c1send : Nat → Bool := fun n => decide (n ≠ 3)

/-- A frontend plus two pis, one of which will fail. -/
def c1st : Manager :=
  ⟨[("fe", ⟨1, "frontend", {}, 0, false⟩), ("pi-01", ⟨2, "pi", {}, 0, false⟩),
    ("pi-02", ⟨3, "pi", {}, 0, false⟩)], []⟩

/-- The emergency stop message. -/
def c1pkt : Packet := { action := some "control", ptype := some "emergency_stop" }

/-- C1 witness: with pi-02's socket failing, both pis are attempted, the
reply reports 1 of 2 reached, pi-01 ends flagged, pi-02 is dropped, and the
HTTP endpoint reports the same count while ignoring its target. -/
theorem emergency_stop_broadcast_witness :
    (handlePacket c1send 9 none 1 "frontend" "fe" c1st c1pkt).emergencySends
        = [("pi-01", OutMsg.envelope "fe" (some "emergency_stop") {} none),
           ("pi-02", OutMsg.envelope "fe" (some "emergency_stop") {} none)] ∧
    (handlePacket c1send 9 none 1 "frontend" "fe" c1st c1pkt).replies
        = [Reply.emergencySent 1 2 9] ∧
    dlookup (handlePacket c1send 9 none 1 "frontend" "fe" c1st c1pkt).st.devices "pi-01"
        = some ⟨2, "pi", {}, 0, true⟩ ∧
    dlookup (handlePacket c1send 9 none 1 "frontend" "fe" c1st c1pkt).st.devices "pi-02"
        = none ∧
    (httpControl c1send 9 c1st (some "ignored") {} (some "emergency_stop")).resp
        = HttpResp.emergencySent 1 2 := by
  obtain ⟨h1, h2, h3, h4, h5, h6⟩ :=
    emergency_stop_broadcast.1 c1send 9 none 1 "fe" c1st c1pkt rfl rfl (by decide) (by decide)
  refine ⟨h1.trans (by decide), h2.trans (by decide), ?_, ?_, ?_⟩
  · have hf := h5 "pi-01" ⟨2, "pi", {}, 0, false⟩ (by decide) rfl (by decide) (by decide)
    exact hf.trans (by decide)
  · exact h6 "pi-02" ⟨3, "pi", {}, 0, false⟩ (by decide) rfl (by decide)
  · exact (emergency_stop_broadcast.2 c1send 9 c1st (some "ignored") none {}).2.1.trans
      (by decide)

end Server
